import Mathlib

/-!
# NewSoftSerial: a shallow embedding of the software serial transceiver

The embedding follows `src/Fluxamasynth/NewSoftSerial.cpp`.

* Machine integers are natural numbers with an explicit reduction modulo `2^w`
  wherever the C++ code stores into a `uint8_t` or `uint16_t`.
* The instances of the class are named by natural numbers (the `this` pointer);
  the static members of the class are fields of `State`.
* `_NewSS_MAX_RX_BUFF` is declared in `NewSoftSerial.h`; every function that uses
  it takes it as the parameter `cap`.
* `F_CPU` selects one of two delay tables and one of two values of
  `XMIT_START_ADJUSTMENT`; a `Build` carries the pair.
* Pin writes and calls of `tunedDelay` are recorded, in order, in `State.trace`.
  The value returned by `rx_pin_read()` is an input: `rx k` is the level seen by
  the `k`-th call of `rx_pin_read()` inside one run of `recv` (`true` is high).
* Saving and restoring `SREG` around `cli()` has no net effect on the fields
  modelled here and is left out.
-/

namespace NewSoftSerial

/-! ## Lookup table -/

/-- One row of the delay table (`struct _DELAY_TABLE`). -/
structure DELAY_TABLE where
  baud : Int
  rx_delay_centering : Nat
  rx_delay_intrabit : Nat
  rx_delay_stopbit : Nat
  tx_delay : Nat
deriving DecidableEq, Repr

/-- The table compiled when `F_CPU == 16000000`. -/
def table16 : List DELAY_TABLE :=
  [ ⟨115200, 1, 17, 17, 13⟩,
    ⟨57600, 10, 37, 37, 34⟩,
    ⟨38400, 25, 57, 57, 54⟩,
    ⟨31250, 31, 70, 70, 68⟩,
    ⟨28800, 34, 77, 77, 74⟩,
    ⟨19200, 54, 117, 117, 114⟩,
    ⟨14400, 74, 156, 156, 153⟩,
    ⟨9600, 114, 236, 236, 233⟩,
    ⟨4800, 233, 474, 474, 471⟩,
    ⟨2400, 471, 950, 950, 947⟩,
    ⟨1200, 947, 1902, 1902, 1899⟩,
    ⟨300, 3804, 7617, 7617, 7614⟩ ]

/-- The table compiled when `F_CPU == 8000000`. -/
def table8 : List DELAY_TABLE :=
  [ ⟨115200, 1, 5, 5, 3⟩,
    ⟨57600, 1, 15, 15, 13⟩,
    ⟨38400, 2, 25, 26, 23⟩,
    ⟨31250, 7, 32, 33, 29⟩,
    ⟨28800, 11, 35, 35, 32⟩,
    ⟨19200, 20, 55, 55, 52⟩,
    ⟨14400, 30, 75, 75, 72⟩,
    ⟨9600, 50, 114, 114, 112⟩,
    ⟨4800, 110, 233, 233, 230⟩,
    ⟨2400, 229, 472, 472, 469⟩,
    ⟨1200, 467, 948, 948, 945⟩,
    ⟨300, 1895, 3805, 3805, 3802⟩ ]

/-- What the preprocessor selects from `F_CPU`: the table and the start-bit adjustment. -/
structure Build where
  table : List DELAY_TABLE
  XMIT_START_ADJUSTMENT : Nat

/-- The build for a 16 MHz processor. -/
def build16 : Build := ⟨table16, 5⟩

/-- The build for an 8 MHz processor. -/
def build8 : Build := ⟨table8, 4⟩

/-! ## State -/

/-- Observable hardware actions, in the order the code performs them. -/
inductive Event where
  /-- The call `tunedDelay(n)`. -/
  | tunedDelay (n : Nat)
  /-- The call `tx_pin_write` by instance `link`; `level` is `true` when the pin is set high. -/
  | tx_pin_write (link : Nat) (level : Bool)
deriving DecidableEq, Repr

/-- The non-static data members of one `NewSoftSerial` object. -/
structure Link where
  _receivePin : Nat
  _rx_delay_centering : Nat
  _rx_delay_intrabit : Nat
  _rx_delay_stopbit : Nat
  _tx_delay : Nat
  _buffer_overflow : Bool
deriving DecidableEq, Repr

/-- All objects, the static members of the class, the pin-change interrupt registers
and the trace of hardware actions. -/
structure State where
  link : Nat → Link
  active_object : Option Nat
  _receive_buffer : Nat → Nat
  _receive_buffer_tail : Nat
  _receive_buffer_head : Nat
  PCICR : Nat
  PCMSK0 : Nat
  PCMSK1 : Nat
  PCMSK2 : Nat
  trace : List Event

/-- The constructor's member initialisers, with the receive pin stored by `setRX`. -/
def newLink (receivePin : Nat) : Link :=
  { _receivePin := receivePin
    _rx_delay_centering := 0
    _rx_delay_intrabit := 0
    _rx_delay_stopbit := 0
    _tx_delay := 0
    _buffer_overflow := false }

/-- The state at program start: statics zero-initialised, every object freshly constructed;
`pins l` is the receive pin given to the constructor of object `l`. -/
def initState (pins : Nat → Nat) : State :=
  { link := fun l => newLink (pins l)
    active_object := none
    _receive_buffer := fun _ => 0
    _receive_buffer_tail := 0
    _receive_buffer_head := 0
    PCICR := 0
    PCMSK0 := 0
    PCMSK1 := 0
    PCMSK2 := 0
    trace := [] }

/-- Replace the members of object `this`. -/
def State.setLink (s : State) (this : Nat) (L : Link) : State :=
  { s with link := fun l => if l = this then L else s.link l }

/-- Append one hardware action to the trace. -/
def State.emit (s : State) (e : Event) : State :=
  { s with trace := s.trace ++ [e] }

/-- The level `LOW` of Arduino.h. -/
def LOW : Nat := 0

/-- The level `HIGH` of Arduino.h. -/
def HIGH : Nat := 1

/-- The bit-value macro `_BV(bit)`. -/
def _BV (bit : Nat) : Nat := 1 <<< bit

/-! ## Private methods -/

/-- Method `NewSoftSerial::tunedDelay(uint16_t delay)`: the busy wait is recorded in the trace. -/
def tunedDelay (s : State) (delay : Nat) : State :=
  s.emit (Event.tunedDelay (delay % 65536))

/-- Method `NewSoftSerial::tx_pin_write(uint8_t pin_state)`. -/
def tx_pin_write (s : State) (this : Nat) (pin_state : Nat) : State :=
  if pin_state = LOW then
    s.emit (Event.tx_pin_write this false)
  else
    s.emit (Event.tx_pin_write this true)

/-- Method `NewSoftSerial::activate()`. -/
def activate (s : State) (this : Nat) : State × Bool :=
  if s.active_object ≠ some this then
    let s1 := s.setLink this { s.link this with _buffer_overflow := false }
    ({ s1 with
        _receive_buffer_head := 0
        _receive_buffer_tail := 0
        active_object := some this }, true)
  else
    (s, false)

/-- The loop `for (uint8_t i=0x1; i; i <<= 1)` of `recv`. `n` counts the calls of
`rx_pin_read()` made so far; the result is the final `d` and the state.
`none` when the fuel runs out before `i` reaches 0. -/
def recvLoop (intrabit : Nat) (rx : Nat → Bool) :
    Nat → Nat → Nat → Nat → State → Option (Nat × State)
  | 0, i, d, _, s => if i = 0 then some (d, s) else none
  | fuel + 1, i, d, n, s =>
    if i = 0 then some (d, s)
    else
      let s1 := tunedDelay s intrabit
      let noti := (255 - i) % 256
      let d1 := if rx n then (d ||| i) % 256 else (d &&& noti) % 256
      recvLoop intrabit rx fuel ((i <<< 1) % 256) d1 (n + 1) s1

/-- The commit step of `recv` (lines 208-221): store `d` at `tail`, or flag overflow. -/
def recvCommit (cap : Nat) (s : State) (this : Nat) (d : Nat) : State :=
  if (s._receive_buffer_tail + 1) % cap ≠ s._receive_buffer_head then
    { s with
        _receive_buffer := fun j => if j = s._receive_buffer_tail then d else s._receive_buffer j
        _receive_buffer_tail := ((s._receive_buffer_tail + 1) % cap) % 256 }
  else
    s.setLink this { s.link this with _buffer_overflow := true }

/-- Method `NewSoftSerial::recv()`. -/
def recv (cap : Nat) (s : State) (this : Nat) (rx : Nat → Bool) : Option State :=
  if !(rx 0) then
    let s1 := tunedDelay s (s.link this)._rx_delay_centering
    match recvLoop (s.link this)._rx_delay_intrabit rx 8 1 0 1 s1 with
    | none => none
    | some (d, s2) =>
      let s3 := tunedDelay s2 (s.link this)._rx_delay_stopbit
      some (recvCommit cap s3 this d)
  else
    some s

/-- Method `NewSoftSerial::handle_interrupt()`. -/
def handle_interrupt (cap : Nat) (s : State) (rx : Nat → Bool) : Option State :=
  match s.active_object with
  | some a => recv cap s a rx
  | none => some s

/-! ## Public methods -/

/-- The table scan of `begin`: the first row whose baud equals `speed` sets the four
delays and ends the loop. -/
def beginScan (speed : Int) : List DELAY_TABLE → Link → Link
  | [], L => L
  | row :: rest, L =>
    if row.baud = speed then
      { L with
          _rx_delay_centering := row.rx_delay_centering % 65536
          _rx_delay_intrabit := row.rx_delay_intrabit % 65536
          _rx_delay_stopbit := row.rx_delay_stopbit % 65536
          _tx_delay := row.tx_delay % 65536 }
    else
      beginScan speed rest L

/-- The pin-change interrupt set-up of `begin` for a receive pin. -/
def enableRxInterrupt (s : State) (receivePin : Nat) : State :=
  if receivePin < 8 then
    { s with
        PCICR := (s.PCICR ||| _BV 2) % 256
        PCMSK2 := (s.PCMSK2 ||| _BV receivePin) % 256 }
  else if receivePin ≤ 13 then
    { s with
        PCICR := (s.PCICR ||| _BV 0) % 256
        PCMSK0 := (s.PCMSK0 ||| _BV (receivePin - 8)) % 256 }
  else if receivePin ≤ 21 then
    { s with
        PCICR := (s.PCICR ||| _BV 1) % 256
        PCMSK1 := (s.PCMSK1 ||| _BV (receivePin - 14)) % 256 }
  else
    s

/-- Method `NewSoftSerial::begin(long speed)`. -/
def begin (bld : Build) (s : State) (this : Nat) (speed : Int) : State :=
  let L0 := { s.link this with
                _rx_delay_centering := 0
                _rx_delay_intrabit := 0
                _rx_delay_stopbit := 0
                _tx_delay := 0 }
  let L1 := beginScan speed bld.table L0
  let s1 := s.setLink this L1
  let s2 :=
    if L1._rx_delay_stopbit ≠ 0 then
      tunedDelay (enableRxInterrupt s1 L1._receivePin) L1._tx_delay
    else
      s1
  (activate s2 this).1

/-- Method `NewSoftSerial::read()`. -/
def read (cap : Nat) (s : State) (this : Nat) : State × Int :=
  let r := activate s this
  if r.2 then
    (r.1, -1)
  else if r.1._receive_buffer_head = r.1._receive_buffer_tail then
    (r.1, -1)
  else
    let d := r.1._receive_buffer r.1._receive_buffer_head % 256
    ({ r.1 with _receive_buffer_head := ((r.1._receive_buffer_head + 1) % cap) % 256 },
      (d : Int))

/-- Method `NewSoftSerial::available()`. The expression is computed in `int`, where `%`
truncates toward zero (`Int.tmod`); the conversion to the `uint8_t` result is `% 256`. -/
def available (cap : Nat) (s : State) (this : Nat) : State × Nat :=
  let r := activate s this
  if r.2 then
    (r.1, 0)
  else
    (r.1,
      ((((r.1._receive_buffer_tail : Int) + (cap : Int) - (r.1._receive_buffer_head : Int)).tmod
        (cap : Int)) % 256).toNat)

/-- The loop `for (byte mask = 0x01; mask; mask <<= 1)` of `write`.
`none` when the fuel runs out before `mask` reaches 0. -/
def writeLoop (this : Nat) (b : Nat) (tx_delay : Nat) : Nat → Nat → State → Option State
  | 0, mask, s => if mask = 0 then some s else none
  | fuel + 1, mask, s =>
    if mask = 0 then some s
    else
      let s1 := if b &&& mask ≠ 0 then tx_pin_write s this HIGH else tx_pin_write s this LOW
      let s2 := tunedDelay s1 tx_delay
      writeLoop this b tx_delay fuel ((mask <<< 1) % 256) s2

/-- Method `NewSoftSerial::write(uint8_t b)`. The returned value is `some 0` at the early
`return 0`; it is `none` where control reaches the closing brace of the function, which has
no `return` statement. `activate` does not touch `_tx_delay`, so the member is read from the
state at entry. -/
def write (bld : Build) (s : State) (this : Nat) (b : Nat) : Option (State × Option Nat) :=
  if (s.link this)._tx_delay = 0 then
    some (s, some 0)
  else
    let s1 := (activate s this).1
    let s2 := tx_pin_write s1 this LOW
    let s3 := tunedDelay s2 ((s.link this)._tx_delay + bld.XMIT_START_ADJUSTMENT)
    match writeLoop this b (s.link this)._tx_delay 8 1 s3 with
    | none => none
    | some s4 =>
      let s5 := tx_pin_write s4 this HIGH
      let s6 := tunedDelay s5 (s.link this)._tx_delay
      some (s6, none)

/-- Method `NewSoftSerial::flush()`. -/
def flush (s : State) (this : Nat) : State :=
  if s.active_object = some this then
    { s with _receive_buffer_head := 0, _receive_buffer_tail := 0 }
  else
    s

/-! ## Calls and runs -/

/-- One call on the class: the method, the object it is called on and its arguments. -/
inductive Op where
  | activate (this : Nat)
  | begin (this : Nat) (speed : Int)
  | recv (this : Nat) (rx : Nat → Bool)
  | handle_interrupt (rx : Nat → Bool)
  | read (this : Nat)
  | available (this : Nat)
  | flush (this : Nat)
  | write (this : Nat) (b : Nat)

/-- The state after one call; `none` only if a loop ran out of fuel. -/
def Op.run (cap : Nat) (bld : Build) (s : State) : Op → Option State
  | Op.activate this => some (NewSoftSerial.activate s this).1
  | Op.begin this speed => some (NewSoftSerial.begin bld s this speed)
  | Op.recv this rx => NewSoftSerial.recv cap s this rx
  | Op.handle_interrupt rx => NewSoftSerial.handle_interrupt cap s rx
  | Op.read this => some (NewSoftSerial.read cap s this).1
  | Op.available this => some (NewSoftSerial.available cap s this).1
  | Op.flush this => some (NewSoftSerial.flush s this)
  | Op.write this b => (NewSoftSerial.write bld s this b).map Prod.fst

/-- Successive runs of `recv` on object `this`, one per element of `rxs`. -/
def recvMany (cap : Nat) (this : Nat) : State → List (Nat → Bool) → Option State
  | s, [] => some s
  | s, rx :: rest =>
    match recv cap s this rx with
    | none => none
    | some s1 => recvMany cap this s1 rest

/-- Successive calls of `read` on object `this`, `n` of them: the final state and the values
returned, in order. -/
def readMany (cap : Nat) (this : Nat) : State → Nat → State × List Int
  | s, 0 => (s, [])
  | s, n + 1 =>
    ((readMany cap this (read cap s this).1 n).1,
      (read cap s this).2 :: (readMany cap this (read cap s this).1 n).2)

/-- The state after a sequence of calls. -/
def runOps (cap : Nat) (bld : Build) : State → List Op → Option State
  | s, [] => some s
  | s, op :: rest =>
    match op.run cap bld s with
    | none => none
    | some s1 => runOps cap bld s1 rest

/-- The object on which a call made in state `s` executes `activate()`, if it does:
`activate`, `begin`, `read` and `available` always do, `write` does unless it returns early
on a zero tx delay, and `recv`, `handle_interrupt` and `flush` never do. -/
def Op.activates (s : State) : Op → Option Nat
  | Op.activate this => some this
  | Op.begin this _ => some this
  | Op.recv _ _ => none
  | Op.handle_interrupt _ => none
  | Op.read this => some this
  | Op.available this => some this
  | Op.flush _ => none
  | Op.write this _ => if (s.link this)._tx_delay = 0 then none else some this

/-- No call of the sequence, run from `s`, executes `activate()` on an object other than `B`. -/
def onlyActivates (cap : Nat) (bld : Build) (B : Nat) : State → List Op → Prop
  | _, [] => True
  | s, op :: rest =>
    (∀ l, op.activates s = some l → l = B) ∧
    ∀ s1, op.run cap bld s = some s1 → onlyActivates cap bld B s1 rest

/-- The states reachable from program start by calls of the class's methods. -/
inductive Reachable (cap : Nat) (bld : Build) : State → Prop
  | init (pins : Nat → Nat) : Reachable cap bld (initState pins)
  | step (s s1 : State) (op : Op) :
      Reachable cap bld s → op.run cap bld s = some s1 → Reachable cap bld s1

/-! ## Vocabulary of the statements -/

/-- The number whose bit `j`, for `j < k`, is the level seen at the `(j+1)`-th call of
`rx_pin_read()` (call 0 is the look at the start bit). -/
def sampledBits (rx : Nat → Bool) : Nat → Nat
  | 0 => 0
  | k + 1 => sampledBits rx k + (if rx (k + 1) then 2 ^ k else 0)

/-- The byte made of the eight data samples, least significant bit first. -/
def sampledByte (rx : Nat → Bool) : Nat :=
  sampledBits rx 8

/-- The levels written to the tx pin, in order, in a trace. -/
def txLevels : List Event → List Bool
  | [] => []
  | Event.tx_pin_write _ level :: es => level :: txLevels es
  | Event.tunedDelay _ :: es => txLevels es

/-- The pin writes and delays of the data-bit loop of `write` for bits `k`, `k+1`, ... of `b`
(`n` of them): the level of the bit, then one tx delay. -/
def dataBitEvents (this b tx_delay : Nat) : Nat → Nat → List Event
  | _, 0 => []
  | k, n + 1 =>
    Event.tx_pin_write this (b.testBit k) :: Event.tunedDelay (tx_delay % 65536) ::
      dataBitEvents this b tx_delay (k + 1) n

/-- Loopback wiring: the `k`-th call of `rx_pin_read()` sees the `k`-th level driven on the
tx pin; past the end of the frame the line idles high. -/
def loopback (levels : List Bool) (k : Nat) : Bool :=
  levels.getD k true

end NewSoftSerial

/-!
# Fluxamasynth: the MIDI command encoder

The embedding follows `src/Fluxamasynth/Fluxamasynth.cpp`. A `Fluxamasynth` object owns one
`NewSoftSerial` object, `synth`, and the flag `synthInitialized`. Every byte handed to
`synth.write` is recorded, in order, in the field `sent`. `int` is the 16-bit `int` of the AVR
compiler. The call `delay(2)` of `begin` only lets time pass and is left out.
-/

namespace Fluxamasynth

/-- Conversion of an unsigned value to the type `byte`. -/
def byte (x : Nat) : Nat := x % 256

/-- Conversion of a signed value to the type `byte`: the low eight bits. -/
def byteOfInt (x : Int) : Nat := (x % 256).toNat

/-- Conversion of a `long` to the 16-bit `int`. -/
def int16 (x : Int) : Int := (x + 32768) % 65536 - 32768

/-- Modelled from the spec: `map` of the Arduino core is not under src/; it is the linear
rescaling `(x - in_min) * (out_max - out_min) / (in_max - in_min) + out_min` in `long`
arithmetic, whose division truncates toward zero. -/
def arduinoMap (x in_min in_max out_min out_max : Int) : Int :=
  Int.tdiv ((x - in_min) * (out_max - out_min)) (in_max - in_min) + out_min

/-- One `Fluxamasynth` object together with the serial driver state it works on. -/
structure FluxState where
  serial : NewSoftSerial.State
  synth : Nat
  synthInitialized : Nat
  sent : List Nat

/-- The constructor `Fluxamasynth(rxPin, txPin)`: nothing initialised, nothing sent; `synth` is
the name of the `NewSoftSerial` member inside `serial`. -/
def construct (serial : NewSoftSerial.State) (synth : Nat) : FluxState :=
  { serial := serial, synth := synth, synthInitialized := 0, sent := [] }

/-- Method `Fluxamasynth::begin()`; `-1` stored in the `byte` flag is 255. -/
def begin (bld : NewSoftSerial.Build) (st : FluxState) : FluxState :=
  if st.synthInitialized = 0 then
    { st with
        serial := NewSoftSerial.begin bld st.serial st.synth 31250
        synthInitialized := 255 }
  else
    st

/-- The call `this->synth.write(c)`: the transport runs and `c` is appended to `sent`. -/
def synthWrite (bld : NewSoftSerial.Build) (st : FluxState) (c : Nat) : Option FluxState :=
  match NewSoftSerial.write bld st.serial st.synth c with
  | none => none
  | some r => some { st with serial := r.1, sent := st.sent ++ [c] }

/-- Method `Fluxamasynth::fluxWrite(byte c)`. The function has no `return` statement: the
returned value is `none`. -/
def fluxWrite (bld : NewSoftSerial.Build) (st : FluxState) (c : Nat) :
    Option (FluxState × Option Nat) :=
  let st1 := if st.synthInitialized = 0 then begin bld st else st
  match synthWrite bld st1 c with
  | none => none
  | some st2 => some (st2, none)

/-- The loop `for (i=0; i<cnt; i++) this->synth.write(buf[i])`; `n` is `cnt - i`. A read past
the end of `buf` yields `none`. -/
def fluxWriteLoop (bld : NewSoftSerial.Build) (buf : List Nat) :
    Nat → Nat → FluxState → Option FluxState
  | 0, _, st => some st
  | n + 1, i, st =>
    match buf[i]? with
    | none => none
    | some c =>
      match synthWrite bld st c with
      | none => none
      | some st1 => fluxWriteLoop bld buf n (i + 1) st1

/-- Method `Fluxamasynth::fluxWrite(byte *buf, int cnt)`. The function has no `return`
statement: the returned value is `none`. -/
def fluxWriteBuf (bld : NewSoftSerial.Build) (st : FluxState) (buf : List Nat) (cnt : Nat) :
    Option (FluxState × Option Nat) :=
  let st1 := if st.synthInitialized = 0 then begin bld st else st
  match fluxWriteLoop bld buf cnt 0 st1 with
  | none => none
  | some st2 => some (st2, none)

/-- Method `Fluxamasynth::noteOn`. -/
def noteOn (bld : NewSoftSerial.Build) (st : FluxState) (channel pitch velocity : Nat) :
    Option FluxState :=
  (fluxWriteBuf bld st [byte (0x90 ||| (channel &&& 0x0f)), pitch, velocity] 3).map Prod.fst

/-- Method `Fluxamasynth::noteOff`. -/
def noteOff (bld : NewSoftSerial.Build) (st : FluxState) (channel pitch : Nat) :
    Option FluxState :=
  (fluxWriteBuf bld st [byte (0x80 ||| (channel &&& 0x0f)), pitch, byte 0x00] 3).map Prod.fst

/-- Method `Fluxamasynth::programChange`. -/
def programChange (bld : NewSoftSerial.Build) (st : FluxState) (bank channel v : Nat) :
    Option FluxState := do
  let r1 ← fluxWriteBuf bld st [byte (0xB0 ||| (channel &&& 0x0f)), byte 0x00, bank] 3
  let r2 ← fluxWrite bld r1.1 (byte (0xc0 ||| (channel &&& 0x0f)))
  let r3 ← fluxWrite bld r2.1 v
  pure r3.1

/-- Method `Fluxamasynth::pitchBend`; `map` is the function of that name of the Arduino core,
whose `long` result is stored back into the `int` parameter `v`. -/
def pitchBend (map : Int → Int → Int → Int → Int → Int) (bld : NewSoftSerial.Build)
    (st : FluxState) (channel : Nat) (v : Int) : Option FluxState :=
  let v1 := int16 (map v 0 1023 0 0x3fff)
  (fluxWriteBuf bld st
    [byte (0xe0 ||| (channel &&& 0x0f)), byteOfInt (Int.land v1 0x00ef), byteOfInt (v1 >>> 7)]
    3).map Prod.fst

/-- Method `Fluxamasynth::pitchBendRange`. -/
def pitchBendRange (bld : NewSoftSerial.Build) (st : FluxState) (channel v : Nat) :
    Option FluxState :=
  (fluxWriteBuf bld st
    [byte (0xb0 ||| (channel &&& 0x0f)), 0x65, 0x00, 0x64, 0x00, 0x06, byte (v &&& 0x7f)]
    7).map Prod.fst

/-- Method `Fluxamasynth::midiReset`. -/
def midiReset (bld : NewSoftSerial.Build) (st : FluxState) : Option FluxState :=
  (fluxWrite bld st (byte 0xff)).map Prod.fst

/-- Method `Fluxamasynth::setChannelVolume`. -/
def setChannelVolume (bld : NewSoftSerial.Build) (st : FluxState) (channel level : Nat) :
    Option FluxState :=
  (fluxWriteBuf bld st [byte (0xb0 ||| (channel &&& 0x0f)), 0x07, level] 3).map Prod.fst

/-- Method `Fluxamasynth::allNotesOff`. -/
def allNotesOff (bld : NewSoftSerial.Build) (st : FluxState) (channel : Nat) :
    Option FluxState :=
  (fluxWriteBuf bld st [byte (0xb0 ||| (channel &&& 0x0f)), 0x7b, 0x00] 3).map Prod.fst

/-- Method `Fluxamasynth::setMasterVolume`. -/
def setMasterVolume (bld : NewSoftSerial.Build) (st : FluxState) (level : Nat) :
    Option FluxState :=
  (fluxWriteBuf bld st [0xf0, 0x7f, 0x7f, 0x04, 0x01, 0x00, byte (level &&& 0x7f), 0xf7]
    8).map Prod.fst

/-- Method `Fluxamasynth::setReverb`. The array `command[11]` has ten initialisers, so its
eleventh element is zero-initialised; all eleven elements are written. -/
def setReverb (bld : NewSoftSerial.Build) (st : FluxState)
    (channel program level delayFeedback : Nat) : Option FluxState := do
  let r1 ← fluxWrite bld st (byte (0xb0 ||| (channel &&& 0x0f)))
  let r2 ← fluxWrite bld r1.1 (byte 0x50)
  let r3 ← fluxWrite bld r2.1 (byte (program &&& 0x07))
  let r4 ← fluxWrite bld r3.1 (byte (0xb0 ||| (channel &&& 0x0f)))
  let r5 ← fluxWrite bld r4.1 (byte 0x5b)
  let r6 ← fluxWrite bld r5.1 (byte (level &&& 0x7f))
  if delayFeedback > 0 then
    let r7 ← fluxWriteBuf bld r6.1
      [0xf0, 0x41, byte 0x00, 0x42, 0x12, 0x40, 0x01, 0x35, byte (delayFeedback &&& 0x7f),
        0xf7, 0]
      11
    pure r7.1
  else
    pure r6.1

/-- Method `Fluxamasynth::setChorus`. Both arrays `command[11]` have ten initialisers, so
their eleventh element is zero-initialised; all eleven elements are written. -/
def setChorus (bld : NewSoftSerial.Build) (st : FluxState)
    (channel program level feedback chorusDelay : Nat) : Option FluxState := do
  let r1 ← fluxWrite bld st (byte (0xb0 ||| (channel &&& 0x0f)))
  let r2 ← fluxWrite bld r1.1 (byte 0x51)
  let r3 ← fluxWrite bld r2.1 (byte (program &&& 0x07))
  let r4 ← fluxWrite bld r3.1 (byte (0xb0 ||| (channel &&& 0x0f)))
  let r5 ← fluxWrite bld r4.1 (byte 0x5d)
  let r6 ← fluxWrite bld r5.1 (byte (level &&& 0x7f))
  let st7 ←
    if feedback > 0 then
      (fluxWriteBuf bld r6.1
        [0xf0, 0x41, byte 0x00, 0x42, 0x12, 0x40, 0x01, 0x3B, byte (feedback &&& 0x7f),
          0xf7, 0]
        11).map Prod.fst
    else
      some r6.1
  if chorusDelay > 0 then
    (fluxWriteBuf bld st7
      [0xf0, 0x41, byte 0x00, 0x42, 0x12, 0x40, 0x01, 0x3C, byte (chorusDelay &&& 0x7f),
        0xf7, 0]
      11).map Prod.fst
  else
    some st7

/-- Method `Fluxamasynth::setTVFResonance`. -/
def setTVFResonance (bld : NewSoftSerial.Build) (st : FluxState) (channel resonance : Nat) :
    Option FluxState :=
  (fluxWriteBuf bld st
    [byte (0xb0 ||| (channel &&& 0x0f)), 0x63, 0x01, 0x62, 0x21, 0x06, byte (resonance &&& 0x7f)]
    7).map Prod.fst

/-- Method `Fluxamasynth::setTVFCutoff`. -/
def setTVFCutoff (bld : NewSoftSerial.Build) (st : FluxState) (channel cutoff : Nat) :
    Option FluxState :=
  (fluxWriteBuf bld st
    [byte (0xb0 ||| (channel &&& 0x0f)), 0x63, 0x01, 0x62, 0x20, 0x06, byte (cutoff &&& 0x7f)]
    7).map Prod.fst

/-- Method `Fluxamasynth::setEnvAttack`. -/
def setEnvAttack (bld : NewSoftSerial.Build) (st : FluxState) (channel attack : Nat) :
    Option FluxState :=
  (fluxWriteBuf bld st
    [byte (0xb0 ||| (channel &&& 0x0f)), 0x63, 0x01, 0x62, 0x63, 0x06, byte (attack &&& 0x7f)]
    7).map Prod.fst

/-- Method `Fluxamasynth::setMasterPan`. -/
def setMasterPan (bld : NewSoftSerial.Build) (st : FluxState) (pan1 pan2 : Nat) :
    Option FluxState :=
  (fluxWriteBuf bld st
    [0xf0, 0x41, 0x00, 0x42, 0x12, 0x40, 0x00, 0x06, byte (pan1 &&& 0x7f),
      byte (pan2 &&& 0x7f), 0xf7]
    11).map Prod.fst

/-- Method `Fluxamasynth::setPortamento`. -/
def setPortamento (bld : NewSoftSerial.Build) (st : FluxState) (channel enable : Nat) :
    Option FluxState :=
  (fluxWriteBuf bld st [byte (0xb0 ||| (channel &&& 0x0f)), 0x41, enable] 3).map Prod.fst

/-- Method `Fluxamasynth::setSpecialSynthControl`. -/
def setSpecialSynthControl (bld : NewSoftSerial.Build) (st : FluxState) (channel p1 p2 : Nat) :
    Option FluxState :=
  (fluxWriteBuf bld st
    [byte (0xb0 ||| (channel &&& 0x0f)), 0x63, 0x37, 0x62, byte (p1 &&& 0x7f), 0x06,
      byte (p2 &&& 0x7f)]
    7).map Prod.fst

/-! ## Vocabulary of the statements -/

/-- The bytes handed to the transport between state `st` and a later state `st1`. -/
def written (st st1 : FluxState) : List Nat :=
  st1.sent.drop st.sent.length

/-- A byte that is a 7-bit value, the controller status byte `0xB0 | (channel & 0x0F)`, or
one of the SysEx delimiters `0xF0` and `0xF7`. -/
def sevenBitOrFraming (channel b : Nat) : Prop :=
  b ≤ 0x7f ∨ b = 0xb0 ||| (channel &&& 0x0f) ∨ b = 0xf0 ∨ b = 0xf7

/-- A freshly constructed synth on link 0 of the serial driver at program start, as
`Fluxamasynth()` makes it: receive pin 255. -/
def fresh : FluxState :=
  construct (NewSoftSerial.initState (fun _ => 255)) 0

end Fluxamasynth

/-!
# HpDecVfd: the vacuum-fluorescent display driver

The embedding follows `src/HpDecVfd/HpDecVfd.cpp` and the constants of `HpDecVfd.h`.

* The values that `micros()` returns are an input: `Vfd.clock` holds the readings still to
  come, and every call of `micros()` takes the first of them. A call that finds no reading
  left yields `none`.
* Calls of `digitalWrite` and `delayMicroseconds` are recorded, in order, in `Vfd.trace`.
* Every argument of `sendByte` is recorded, in order, in `Vfd.sent`.
* `unsigned long` is 32 bits wide.
-/

namespace HpDecVfd

/-- Constant `COMMAND_EXTENDED_COMMANDS`. -/
def COMMAND_EXTENDED_COMMANDS : Nat := 0x00

/-- Constant `EXTENDED_COMMAND_CLEAR`. -/
def EXTENDED_COMMAND_CLEAR : Nat := 0x00

/-- Constant `EXTENDED_COMMAND_SET_CURSOR`. -/
def EXTENDED_COMMAND_SET_CURSOR : Nat := 0x80

/-- Constant `EXTENDED_COMMAND_BLANK_DISPLAY`. -/
def EXTENDED_COMMAND_BLANK_DISPLAY : Nat := 0x08

/-- Constant `EXTENDED_COMMAND_UNBLANK_DISPLAY`. -/
def EXTENDED_COMMAND_UNBLANK_DISPLAY : Nat := 0x0C

/-- Constant `COMMAND_DRAW_TEXT`. -/
def COMMAND_DRAW_TEXT : Nat := 0x02

/-- Constant `COMMAND_SET_ICON_STATE`. -/
def COMMAND_SET_ICON_STATE : Nat := 0x40

/-- Constant `COMMAND_SET_BRIGHTNESS`. -/
def COMMAND_SET_BRIGHTNESS : Nat := 0xA0

/-- Constant `COMMAND_RESET_DISPLAY`. -/
def COMMAND_RESET_DISPLAY : Nat := 0xFA

/-- Constant `HALF_CLOCK_PERIOD_IN_MICROSECONDS`. -/
def HALF_CLOCK_PERIOD_IN_MICROSECONDS : Nat := 28

/-- Constant `MAX_TEXT_CHAIN_TIME_IN_MICROSECONDS`. -/
def MAX_TEXT_CHAIN_TIME_IN_MICROSECONDS : Nat := 1000

/-- Constant `DEFAULT_COMMAND_EXECUTION_TIME_IN_MICROSECONDS`. -/
def DEFAULT_COMMAND_EXECUTION_TIME_IN_MICROSECONDS : Nat := 6000

/-- Constant `RESET_COMMAND_EXECUTION_TIME_IN_MICROSECONDS`. -/
def RESET_COMMAND_EXECUTION_TIME_IN_MICROSECONDS : Nat := 100000

/-- Constant `ICON_STATE_SIZE`. -/
def ICON_STATE_SIZE : Nat := 3

/-- Enumerator `NUM_ICONS` of `enum Icon`: the 23 icons are numbered 0 to 22. -/
def NUM_ICONS : Int := 23

/-- Pin actions, in the order the code performs them. -/
inductive PinEvent where
  /-- The call `digitalWrite(pin, level)`; `level` is `true` for `HIGH`. -/
  | digitalWrite (pin : Nat) (level : Bool)
  /-- The call `delayMicroseconds(us)`. -/
  | delayMicroseconds (us : Nat)
deriving DecidableEq, Repr

/-- The data members of one `HpDecVfd` object, the readings of `micros()` still to come, and
the record of what the object has done. -/
structure Vfd where
  _clockPin : Nat
  _dataPin : Nat
  _iconState : Nat → Nat
  _lastSendTime : Nat
  _lastCommandExecuteTimeInMicroseconds : Nat
  _sendingText : Bool
  _desiredCursorAddress : Nat
  _actualCursorAddress : Nat
  clock : List Nat
  trace : List PinEvent
  sent : List Nat

/-- The constructor `HpDecVfd(clockPin, dataPin)`, with the clock readings to come. -/
def construct (clockPin dataPin : Nat) (clock : List Nat) : Vfd :=
  { _clockPin := clockPin
    _dataPin := dataPin
    _iconState := fun _ => 0
    _lastSendTime := 0
    _lastCommandExecuteTimeInMicroseconds := 0
    _sendingText := false
    _desiredCursorAddress := 0
    _actualCursorAddress := 0
    clock := clock
    trace := [PinEvent.digitalWrite clockPin true, PinEvent.digitalWrite dataPin false]
    sent := [] }

/-- Append one pin action to the trace. -/
def Vfd.emit (s : Vfd) (e : PinEvent) : Vfd :=
  { s with trace := s.trace ++ [e] }

/-- The difference `now - last` of two `unsigned long` values. -/
def elapsed (now last : Nat) : Nat :=
  (now % 2 ^ 32 + 2 ^ 32 - last % 2 ^ 32) % 2 ^ 32

/-- The loop `for (uint8_t mask = 0x80; mask; mask>>=1)` of `sendByte`.
`none` when the fuel runs out before `mask` reaches 0. -/
def sendByteLoop (byteToSend : Nat) : Nat → Nat → Vfd → Option Vfd
  | 0, mask, s => if mask = 0 then some s else none
  | fuel + 1, mask, s =>
    if mask = 0 then some s
    else
      let s1 := s.emit (PinEvent.digitalWrite s._dataPin (decide (byteToSend &&& mask ≠ 0)))
      let s2 := s1.emit (PinEvent.delayMicroseconds HALF_CLOCK_PERIOD_IN_MICROSECONDS)
      let s3 := s2.emit (PinEvent.digitalWrite s._clockPin false)
      let s4 := s3.emit (PinEvent.delayMicroseconds HALF_CLOCK_PERIOD_IN_MICROSECONDS)
      let s5 := s4.emit (PinEvent.digitalWrite s._clockPin true)
      sendByteLoop byteToSend fuel (mask >>> 1) s5

/-- Method `HpDecVfd::sendByte`: the eight pulses, then `_lastSendTime = micros()`. -/
def sendByte (s : Vfd) (byteToSend : Nat) : Option Vfd :=
  match sendByteLoop byteToSend 8 0x80 s with
  | none => none
  | some s1 =>
    match s1.clock with
    | [] => none
    | t :: rest =>
      some { s1 with
              _lastSendTime := t % 2 ^ 32
              clock := rest
              sent := s1.sent ++ [byteToSend] }

/-- The loop of `waitForPreviousCommandToExecute` on the readings of `micros()`: it takes
readings while the elapsed time is below `exec` and returns the readings left after the one
that ends the wait. -/
def waitLoop (last exec : Nat) : List Nat → Option (List Nat)
  | [] => none
  | t :: rest => if elapsed t last < exec then waitLoop last exec rest else some rest

/-- Method `HpDecVfd::waitForPreviousCommandToExecute`. -/
def waitForPreviousCommandToExecute (s : Vfd) : Option Vfd :=
  match waitLoop s._lastSendTime s._lastCommandExecuteTimeInMicroseconds s.clock with
  | none => none
  | some rest => some { s with clock := rest }

/-- Method `HpDecVfd::endCommand`. -/
def endCommand (s : Vfd) (executionTimeInMicroseconds : Nat) : Vfd :=
  { s with _lastCommandExecuteTimeInMicroseconds := executionTimeInMicroseconds % 2 ^ 32 }

/-- Method `HpDecVfd::endText`. -/
def endText (s : Vfd) : Vfd :=
  endCommand { s with _sendingText := false } DEFAULT_COMMAND_EXECUTION_TIME_IN_MICROSECONDS

/-- Method `HpDecVfd::timingOkToChainCharacter`. -/
def timingOkToChainCharacter (s : Vfd) : Option (Vfd × Bool) :=
  match s.clock with
  | [] => none
  | t :: rest =>
    some ({ s with clock := rest },
      decide (elapsed t s._lastSendTime < MAX_TEXT_CHAIN_TIME_IN_MICROSECONDS))

/-- Method `HpDecVfd::beginCommand`. -/
def beginCommand (s : Vfd) (command : Nat) : Option Vfd :=
  let s1 := if s._sendingText then endText s else s
  match waitForPreviousCommandToExecute s1 with
  | none => none
  | some s2 => sendByte s2 command

/-- Method `HpDecVfd::setCursorAddress`. -/
def setCursorAddress (s : Vfd) (address : Nat) : Option Vfd :=
  let address1 := (address &&& 0b01111111) % 256
  match beginCommand s COMMAND_EXTENDED_COMMANDS with
  | none => none
  | some s1 =>
    match sendByte s1 ((EXTENDED_COMMAND_SET_CURSOR ||| address1) % 256) with
    | none => none
    | some s2 =>
      let s3 := endCommand s2 DEFAULT_COMMAND_EXECUTION_TIME_IN_MICROSECONDS
      some { s3 with _desiredCursorAddress := address1, _actualCursorAddress := address1 }

/-- Method `HpDecVfd::home`. -/
def home (s : Vfd) : Option Vfd :=
  setCursorAddress s 0b01000000

/-- Method `HpDecVfd::clear`. -/
def clear (s : Vfd) : Option Vfd :=
  match beginCommand s COMMAND_EXTENDED_COMMANDS with
  | none => none
  | some s1 =>
    match sendByte s1 EXTENDED_COMMAND_CLEAR with
    | none => none
    | some s2 => home (endCommand s2 DEFAULT_COMMAND_EXECUTION_TIME_IN_MICROSECONDS)

/-- Method `HpDecVfd::noDisplay`. -/
def noDisplay (s : Vfd) : Option Vfd :=
  match beginCommand s COMMAND_EXTENDED_COMMANDS with
  | none => none
  | some s1 =>
    match sendByte s1 EXTENDED_COMMAND_BLANK_DISPLAY with
    | none => none
    | some s2 => some (endCommand s2 DEFAULT_COMMAND_EXECUTION_TIME_IN_MICROSECONDS)

/-- Method `HpDecVfd::display`. -/
def display (s : Vfd) : Option Vfd :=
  match beginCommand s COMMAND_EXTENDED_COMMANDS with
  | none => none
  | some s1 =>
    match sendByte s1 EXTENDED_COMMAND_UNBLANK_DISPLAY with
    | none => none
    | some s2 => some (endCommand s2 DEFAULT_COMMAND_EXECUTION_TIME_IN_MICROSECONDS)

/-- Method `HpDecVfd::setCursor`. -/
def setCursor (s : Vfd) (column row : Nat) : Option Vfd :=
  let address := (row * 64 + column) % 256
  setCursorAddress s ((address ^^^ 0b01000000) % 256)

/-- Method `HpDecVfd::write`. The function is declared `size_t` and has no `return`
statement: the returned value is `none`. -/
def write (s : Vfd) (character : Nat) : Option (Vfd × Option Nat) :=
  let chain : Option (Vfd × Bool) :=
    if s._sendingText then timingOkToChainCharacter s else some (s, false)
  match chain with
  | none => none
  | some (s0, true) =>
    match sendByte s0 character with
    | none => none
    | some s1 =>
      some ({ s1 with
                _desiredCursorAddress := ((s1._desiredCursorAddress + 1) &&& 0b01111111) % 256 },
        none)
  | some (s0, false) =>
    let fixed : Option Vfd :=
      if s0._desiredCursorAddress ≠ s0._actualCursorAddress then
        setCursorAddress s0 s0._desiredCursorAddress
      else
        some s0
    match fixed with
    | none => none
    | some s1 =>
      match beginCommand s1 COMMAND_DRAW_TEXT with
      | none => none
      | some s2 =>
        match sendByte s2 character with
        | none => none
        | some s3 =>
          some ({ s3 with
                    _desiredCursorAddress := ((s3._actualCursorAddress + 1) &&& 0b01111111) % 256
                    _actualCursorAddress := ((s3._actualCursorAddress + 1) &&& 0b01111111) % 256
                    _sendingText := true },
            none)

/-- Method `HpDecVfd::resetDisplay`. -/
def resetDisplay (s : Vfd) : Option Vfd :=
  match beginCommand s COMMAND_RESET_DISPLAY with
  | none => none
  | some s1 => some (endCommand s1 RESET_COMMAND_EXECUTION_TIME_IN_MICROSECONDS)

/-- Method `HpDecVfd::setBrightness`. -/
def setBrightness (s : Vfd) (level : Nat) : Option Vfd :=
  let level1 := if level > 15 then 15 else level
  match beginCommand s ((COMMAND_SET_BRIGHTNESS ||| level1) % 256) with
  | none => none
  | some s1 => some (endCommand s1 DEFAULT_COMMAND_EXECUTION_TIME_IN_MICROSECONDS)

/-- The loop `while (bitNum >= 8)` of `getIconBitMask`; the result is the final `bitNum` and
`stateIndex`. `none` when the fuel runs out before `bitNum` falls below 8. -/
def iconLoop : Nat → Nat → Nat → Option (Nat × Nat)
  | 0, bitNum, stateIndex => if bitNum ≥ 8 then none else some (bitNum, stateIndex)
  | fuel + 1, bitNum, stateIndex =>
    if bitNum ≥ 8 then iconLoop fuel (bitNum - 8) ((stateIndex + 1) % 256)
    else some (bitNum, stateIndex)

/-- Method `HpDecVfd::getIconBitMask`: the returned mask and `iconStateIndexOut`. The fuel 32
exceeds the 31 rounds that the largest `uint8_t` takes. -/
def getIconBitMask (icon : Int) : Option (Nat × Nat) :=
  if icon ≥ 0 ∧ icon < NUM_ICONS then
    match iconLoop 32 (icon.toNat % 256) 0 with
    | none => none
    | some (bitNum, stateIndex) => some ((1 <<< bitNum) % 256, stateIndex)
  else
    some (0b10000000, 2)

/-- The loop `for (uint8_t i=0; i<ICON_STATE_SIZE; i++) sendByte(_iconState[i])`; `n` is
`ICON_STATE_SIZE - i`. -/
def sendIconBytes : Nat → Nat → Vfd → Option Vfd
  | 0, _, s => some s
  | n + 1, i, s =>
    match sendByte s (s._iconState i) with
    | none => none
    | some s1 => sendIconBytes n (i + 1) s1

/-- Method `HpDecVfd::sendIconState`. -/
def sendIconState (s : Vfd) : Option Vfd :=
  match beginCommand s COMMAND_SET_ICON_STATE with
  | none => none
  | some s1 =>
    match sendIconBytes ICON_STATE_SIZE 0 s1 with
    | none => none
    | some s2 => some (endCommand s2 DEFAULT_COMMAND_EXECUTION_TIME_IN_MICROSECONDS)

/-- Method `HpDecVfd::clearIcons`. -/
def clearIcons (s : Vfd) : Option Vfd :=
  sendIconState { s with _iconState := fun i => if i < ICON_STATE_SIZE then 0 else s._iconState i }

/-- Method `HpDecVfd::setIcon`. The complement `~bitMask` is taken in the 16-bit `int` and the
result is stored back into the `uint8_t` element. -/
def setIcon (s : Vfd) (icon : Int) (enable : Bool) : Option Vfd :=
  match getIconBitMask icon with
  | none => none
  | some (bitMask, stateIndex) =>
    let updated :=
      if enable then
        (s._iconState stateIndex ||| bitMask) % 256
      else
        (s._iconState stateIndex &&& (65535 - bitMask)) % 256
    sendIconState
      { s with _iconState := fun i => if i = stateIndex then updated else s._iconState i }

/-- Method `HpDecVfd::isIconSet`. -/
def isIconSet (s : Vfd) (icon : Int) : Option Bool :=
  match getIconBitMask icon with
  | none => none
  | some (bitMask, stateIndex) => some (decide (s._iconState stateIndex &&& bitMask ≠ 0))

/-- Method `HpDecVfd::begin`. -/
def begin (s : Vfd) (clearDisplay : Bool) : Option Vfd :=
  match resetDisplay s with
  | none => none
  | some s1 =>
    if clearDisplay then
      match clear s1 with
      | none => none
      | some s2 => clearIcons s2
    else
      home s1

/-! ## Vocabulary of the statements -/

/-- The bytes sent between state `s` and a later state `s1`. -/
def sentBetween (s s1 : Vfd) : List Nat :=
  s1.sent.drop s.sent.length

/-- The number spelled by a list of levels read most significant bit first. -/
def msbFirst (levels : List Bool) : Nat :=
  levels.foldl (fun acc b => 2 * acc + (if b then 1 else 0)) 0

/-- The pin actions of the last `n` rounds of the loop of `sendByte`, for bit `n - 1` of the
byte down to bit 0: each round sets the data level, waits half a period, drives the clock
low, waits half a period and drives the clock high. -/
def pulseEvents (clockPin dataPin byteToSend : Nat) : Nat → List PinEvent
  | 0 => []
  | n + 1 =>
    PinEvent.digitalWrite dataPin (byteToSend.testBit n) ::
    PinEvent.delayMicroseconds 28 ::
    PinEvent.digitalWrite clockPin false ::
    PinEvent.delayMicroseconds 28 ::
    PinEvent.digitalWrite clockPin true ::
    pulseEvents clockPin dataPin byteToSend n

end HpDecVfd

namespace NewSoftSerial

/-! ## Auxiliary lemmas -/

theorem beginScan_receivePin (speed : Int) (tbl : List DELAY_TABLE) (L : Link) :
    (beginScan speed tbl L)._receivePin = L._receivePin := by
  induction tbl with
  | nil => rfl
  | cons row rest ih =>
    simp only [beginScan]
    split_ifs <;> simp [ih]

theorem beginScan_overflow (speed : Int) (tbl : List DELAY_TABLE) (L : Link) :
    (beginScan speed tbl L)._buffer_overflow = L._buffer_overflow := by
  induction tbl with
  | nil => rfl
  | cons row rest ih =>
    simp only [beginScan]
    split_ifs <;> simp [ih]

theorem beginScan_no_match (speed : Int) (tbl : List DELAY_TABLE) (L : Link)
    (h : ∀ row ∈ tbl, row.baud ≠ speed) : beginScan speed tbl L = L := by
  induction tbl with
  | nil => rfl
  | cons row rest ih =>
    have h1 : row.baud ≠ speed := h row (List.mem_cons_self _ _)
    have h2 : ∀ r ∈ rest, r.baud ≠ speed := fun r hr => h r (List.mem_cons_of_mem _ hr)
    simp [beginScan, h1, ih h2]

theorem beginScan_match (speed : Int) (tbl : List DELAY_TABLE) (L : Link)
    (hnd : (tbl.map DELAY_TABLE.baud).Nodup) (row : DELAY_TABLE) (hrow : row ∈ tbl)
    (hb : row.baud = speed) :
    beginScan speed tbl L =
      { L with
          _rx_delay_centering := row.rx_delay_centering % 65536
          _rx_delay_intrabit := row.rx_delay_intrabit % 65536
          _rx_delay_stopbit := row.rx_delay_stopbit % 65536
          _tx_delay := row.tx_delay % 65536 } := by
  induction tbl with
  | nil => simp at hrow
  | cons r rest ih =>
    simp only [List.map_cons, List.nodup_cons] at hnd
    rcases List.mem_cons.mp hrow with h | h
    · subst h
      simp [beginScan, hb]
    · have hne : r.baud ≠ speed := by
        intro he
        apply hnd.1
        rw [he, ← hb]
        exact List.mem_map_of_mem _ h
      simp [beginScan, hne, ih hnd.2 h]

/-- The members of `this` after `begin`: the scanned delays, the overflow flag as
`activate` leaves it. -/
theorem begin_link (bld : Build) (s : State) (this : Nat) (speed : Int) :
    (begin bld s this speed).link this =
      { beginScan speed bld.table
          { s.link this with
              _rx_delay_centering := 0
              _rx_delay_intrabit := 0
              _rx_delay_stopbit := 0
              _tx_delay := 0 } with
        _buffer_overflow :=
          if s.active_object ≠ some this then false else (s.link this)._buffer_overflow } := by
  have ho := beginScan_overflow speed bld.table
    { s.link this with
        _rx_delay_centering := 0
        _rx_delay_intrabit := 0
        _rx_delay_stopbit := 0
        _tx_delay := 0 }
  simp only [begin]
  generalize beginScan speed bld.table _ = L1 at ho ⊢
  cases L1
  simp only at ho
  subst ho
  simp only [activate, State.setLink, tunedDelay, State.emit, enableRxInterrupt]
  split_ifs <;> simp

theorem and_two_pow_ne_zero (b k : Nat) : b &&& 2 ^ k ≠ 0 ↔ b.testBit k = true := by
  constructor
  · intro h
    by_contra hb
    apply h
    apply Nat.eq_of_testBit_eq
    intro i
    simp only [Nat.testBit_and, Nat.zero_testBit, Nat.testBit_two_pow]
    by_cases hik : k = i
    · subst hik
      simp [hb]
    · simp [hik]
  · intro hb h
    have := congrArg (fun n => n.testBit k) h
    simp [hb, Nat.testBit_two_pow_self] at this

theorem sampledBits_lt (rx : Nat → Bool) (k : Nat) : sampledBits rx k < 2 ^ k := by
  induction k with
  | zero => simp [sampledBits]
  | succ k ih =>
    simp only [sampledBits]
    split_ifs <;> omega

theorem recvLoop_step (intrabit : Nat) (rx : Nat → Bool) (fuel i d n : Nat) (s : State)
    (hi : i ≠ 0) :
    recvLoop intrabit rx (fuel + 1) i d n s =
      recvLoop intrabit rx fuel ((i <<< 1) % 256)
        (if rx n then (d ||| i) % 256 else (d &&& (255 - i) % 256) % 256) (n + 1)
        (tunedDelay s intrabit) := by
  simp [recvLoop, hi]

set_option maxRecDepth 100000 in
theorem recv_bit_arith :
    ∀ k < 8, ∀ d < 2 ^ k,
      (d ||| 2 ^ k) % 256 = d + 2 ^ k ∧ (d &&& (255 - 2 ^ k) % 256) % 256 = d ∧
      2 ^ k % 256 = 2 ^ k ∧ ((2 ^ k) <<< 1) % 256 = 2 ^ (k + 1) % 256 := by
  decide

/-- Invariant of the sampling loop: entering round `k` with the bits below `k` assembled,
the loop ends with all eight assembled after one intrabit delay per remaining round. -/
theorem recvLoop_from (intrabit : Nat) (rx : Nat → Bool) :
    ∀ (fuel k : Nat) (s : State), k + fuel = 8 →
      recvLoop intrabit rx fuel (2 ^ k % 256) (sampledBits rx k) (k + 1) s =
        some (sampledByte rx,
          { s with
              trace := s.trace ++ List.replicate fuel (Event.tunedDelay (intrabit % 65536)) })
  | 0, k, s, h => by
    have hk : k = 8 := by omega
    subst hk
    simp [recvLoop, sampledByte]
  | fuel + 1, k, s, h => by
    have hk : k < 8 := by omega
    obtain ⟨h1, h2, h3, h4⟩ := recv_bit_arith k hk (sampledBits rx k) (sampledBits_lt rx k)
    have hne : 2 ^ k % 256 ≠ 0 := by
      rw [h3]
      exact Nat.pos_iff_ne_zero.mp (Nat.two_pow_pos k)
    rw [recvLoop_step _ _ _ _ _ _ _ hne, h3, h4, h1, h2]
    have hd : (if rx (k + 1) = true then sampledBits rx k + 2 ^ k else sampledBits rx k) =
        sampledBits rx (k + 1) := by
      simp only [sampledBits]
      split_ifs <;> rfl
    rw [hd, recvLoop_from intrabit rx fuel (k + 1) _ (by omega)]
    simp [tunedDelay, State.emit, List.replicate_succ]

/-- The sampling loop of `recv` ends within its 8 rounds, performs 8 intrabit delays and
returns the byte assembled from the samples. -/
theorem recvLoop_eq (intrabit : Nat) (rx : Nat → Bool) (s : State) :
    recvLoop intrabit rx 8 1 0 1 s =
      some (sampledByte rx,
        { s with trace := s.trace ++ List.replicate 8 (Event.tunedDelay (intrabit % 65536)) }) :=
  recvLoop_from intrabit rx 8 0 s rfl

/-- The state in which `recv` commits: the trace extended by the centering delay, eight
intrabit delays and the stop-bit delay of link `this`. -/
theorem recv_low (cap : Nat) (s : State) (this : Nat) (rx : Nat → Bool) (h0 : rx 0 = false) :
    recv cap s this rx =
      some (recvCommit cap
        { s with
            trace := s.trace ++
              (Event.tunedDelay ((s.link this)._rx_delay_centering % 65536) ::
                List.replicate 8 (Event.tunedDelay ((s.link this)._rx_delay_intrabit % 65536))) ++
              [Event.tunedDelay ((s.link this)._rx_delay_stopbit % 65536)] }
        this (sampledByte rx)) := by
  simp [recv, h0, recvLoop_eq, tunedDelay, State.emit]

theorem recv_high (cap : Nat) (s : State) (this : Nat) (rx : Nat → Bool) (h0 : rx 0 = true) :
    recv cap s this rx = some s := by
  simp [recv, h0]

theorem writeLoop_step (this b tx_delay fuel mask : Nat) (s : State) (hm : mask ≠ 0) :
    writeLoop this b tx_delay (fuel + 1) mask s =
      writeLoop this b tx_delay fuel ((mask <<< 1) % 256)
        (tunedDelay
          (if b &&& mask ≠ 0 then tx_pin_write s this HIGH else tx_pin_write s this LOW)
          tx_delay) := by
  simp [writeLoop, hm]

theorem write_mask_arith :
    ∀ k < 8, 2 ^ k % 256 = 2 ^ k ∧ ((2 ^ k) <<< 1) % 256 = 2 ^ (k + 1) % 256 := by
  decide

/-- Invariant of the data-bit loop of `write`: entering round `k` it ends after writing
bits `k..7` of `b`, each followed by one tx delay. -/
theorem writeLoop_from (this b tx_delay : Nat) :
    ∀ (fuel k : Nat) (s : State), k + fuel = 8 →
      writeLoop this b tx_delay fuel (2 ^ k % 256) s =
        some { s with trace := s.trace ++ dataBitEvents this b tx_delay k fuel }
  | 0, k, s, h => by
    have hk : k = 8 := by omega
    subst hk
    simp [writeLoop, dataBitEvents]
  | fuel + 1, k, s, h => by
    have hk : k < 8 := by omega
    obtain ⟨h3, h4⟩ := write_mask_arith k hk
    have hne : 2 ^ k % 256 ≠ 0 := by
      rw [h3]
      exact Nat.pos_iff_ne_zero.mp (Nat.two_pow_pos k)
    rw [writeLoop_step _ _ _ _ _ _ hne, h3, h4,
      writeLoop_from this b tx_delay fuel (k + 1) _ (by omega)]
    by_cases hbit : b.testBit k = true
    · have hand : b &&& 2 ^ k ≠ 0 := (and_two_pow_ne_zero b k).mpr hbit
      simp [hand, hbit, tunedDelay, tx_pin_write, State.emit, dataBitEvents, HIGH, LOW]
    · have hand : ¬ (b &&& 2 ^ k ≠ 0) := fun h => hbit ((and_two_pow_ne_zero b k).mp h)
      simp only [Bool.not_eq_true] at hbit
      simp [hand, hbit, tunedDelay, tx_pin_write, State.emit, dataBitEvents, HIGH, LOW]

theorem activate_trace (s : State) (this : Nat) : (activate s this).1.trace = s.trace := by
  simp only [activate, State.setLink]
  split_ifs <;> rfl

/-- The early return of `write` on a link with a zero tx delay. -/
theorem write_zero_delay (bld : Build) (s : State) (this b : Nat)
    (h : (s.link this)._tx_delay = 0) :
    write bld s this b = some (s, some 0) := by
  simp [write, h]

/-- What `write` does on a link with a nonzero tx delay: it activates the link, then appends
the start bit, the eight data bits and the stop bit to the trace, and returns no value. -/
theorem write_enabled (bld : Build) (s : State) (this b : Nat)
    (h : (s.link this)._tx_delay ≠ 0) :
    write bld s this b =
      some ({ (activate s this).1 with
                trace := s.trace ++
                  (Event.tx_pin_write this false ::
                    Event.tunedDelay
                      (((s.link this)._tx_delay + bld.XMIT_START_ADJUSTMENT) % 65536) ::
                    dataBitEvents this b (s.link this)._tx_delay 0 8) ++
                  [Event.tx_pin_write this true,
                    Event.tunedDelay ((s.link this)._tx_delay % 65536)] }, none) := by
  have hl := writeLoop_from this b (s.link this)._tx_delay 8 0
  simp only [pow_zero, Nat.one_mod] at hl
  simp [write, h, hl, tunedDelay, tx_pin_write, State.emit, activate_trace, HIGH, LOW]

set_option maxRecDepth 100000 in
theorem sampledByte_loopback_frame :
    ∀ b < 256, sampledByte (loopback [false, b.testBit 0, b.testBit 1, b.testBit 2,
      b.testBit 3, b.testBit 4, b.testBit 5, b.testBit 6, b.testBit 7, true]) = b := by
  decide

theorem activate_index (cap : Nat) (hcap : 0 < cap) (s : State) (this : Nat)
    (h : s._receive_buffer_head < cap ∧ s._receive_buffer_tail < cap) :
    (activate s this).1._receive_buffer_head < cap ∧
      (activate s this).1._receive_buffer_tail < cap := by
  simp only [activate, State.setLink]
  split_ifs
  · exact ⟨hcap, hcap⟩
  · exact h

theorem recvCommit_index (cap : Nat) (hcap : 0 < cap) (s : State) (this d : Nat)
    (h : s._receive_buffer_head < cap ∧ s._receive_buffer_tail < cap) :
    (recvCommit cap s this d)._receive_buffer_head < cap ∧
      (recvCommit cap s this d)._receive_buffer_tail < cap := by
  simp only [recvCommit, State.setLink]
  split_ifs
  · exact ⟨h.1, lt_of_le_of_lt (Nat.mod_le _ _) (Nat.mod_lt _ hcap)⟩
  · exact h

/-- Every call returns: no loop runs out of fuel. -/
theorem run_total (cap : Nat) (bld : Build) (s : State) (op : Op) :
    ∃ s1, op.run cap bld s = some s1 := by
  cases op with
  | activate this => exact ⟨_, rfl⟩
  | begin this speed => exact ⟨_, rfl⟩
  | recv this rx =>
    cases h0 : rx 0
    · exact ⟨_, recv_low cap s this rx h0⟩
    · exact ⟨_, recv_high cap s this rx h0⟩
  | handle_interrupt rx =>
    simp only [Op.run, handle_interrupt]
    cases s.active_object with
    | none => exact ⟨_, rfl⟩
    | some a =>
      cases h0 : rx 0
      · exact ⟨_, recv_low cap s a rx h0⟩
      · exact ⟨_, recv_high cap s a rx h0⟩
  | read this => exact ⟨_, rfl⟩
  | available this => exact ⟨_, rfl⟩
  | flush this => exact ⟨_, rfl⟩
  | write this b =>
    by_cases h : (s.link this)._tx_delay = 0
    · exact ⟨s, by simp [Op.run, write_zero_delay bld s this b h]⟩
    · exact ⟨_, by simp only [Op.run, write_enabled bld s this b h]; rfl⟩

theorem recv_index (cap : Nat) (hcap : 0 < cap) (s s1 : State) (this : Nat) (rx : Nat → Bool)
    (hr : recv cap s this rx = some s1)
    (h : s._receive_buffer_head < cap ∧ s._receive_buffer_tail < cap) :
    s1._receive_buffer_head < cap ∧ s1._receive_buffer_tail < cap := by
  cases h0 : rx 0
  · rw [recv_low cap s this rx h0] at hr
    cases hr
    exact recvCommit_index cap hcap _ this _ h
  · rw [recv_high cap s this rx h0] at hr
    cases hr
    exact h

/-- One call keeps both indices below the capacity. -/
theorem run_index (cap : Nat) (hcap : 0 < cap) (bld : Build) (s s1 : State) (op : Op)
    (hr : op.run cap bld s = some s1)
    (h : s._receive_buffer_head < cap ∧ s._receive_buffer_tail < cap) :
    s1._receive_buffer_head < cap ∧ s1._receive_buffer_tail < cap := by
  cases op with
  | activate this =>
    cases hr
    exact activate_index cap hcap s this h
  | begin this speed =>
    cases hr
    simp only [begin]
    apply activate_index cap hcap
    simp only [State.setLink, tunedDelay, State.emit, enableRxInterrupt]
    split_ifs <;> exact h
  | recv this rx => exact recv_index cap hcap s s1 this rx hr h
  | handle_interrupt rx =>
    simp only [Op.run, handle_interrupt] at hr
    cases ha : s.active_object with
    | none =>
      rw [ha] at hr
      cases hr
      exact h
    | some a =>
      rw [ha] at hr
      exact recv_index cap hcap s s1 a rx hr h
  | read this =>
    cases hr
    have ha := activate_index cap hcap s this h
    simp only [read]
    split_ifs
    · exact ha
    · exact ha
    · exact ⟨lt_of_le_of_lt (Nat.mod_le _ _) (Nat.mod_lt _ hcap), ha.2⟩
  | available this =>
    cases hr
    have ha := activate_index cap hcap s this h
    simp only [available]
    split_ifs <;> exact ha
  | flush this =>
    cases hr
    simp only [flush]
    split_ifs
    · exact ⟨hcap, hcap⟩
    · exact h
  | write this b =>
    by_cases ht : (s.link this)._tx_delay = 0
    · simp only [Op.run, write_zero_delay bld s this b ht, Option.map_some'] at hr
      cases hr
      exact h
    · simp only [Op.run, write_enabled bld s this b ht, Option.map_some'] at hr
      cases hr
      exact activate_index cap hcap s this h

theorem activate_active (s : State) (this : Nat) :
    (activate s this).1.active_object = some this := by
  simp only [activate, State.setLink]
  split_ifs with h
  · rfl
  · exact not_not.mp h

theorem recv_active (cap : Nat) (s s1 : State) (this : Nat) (rx : Nat → Bool)
    (hr : recv cap s this rx = some s1) : s1.active_object = s.active_object := by
  cases h0 : rx 0
  · rw [recv_low cap s this rx h0] at hr
    cases hr
    simp only [recvCommit, State.setLink]
    split_ifs <;> rfl
  · rw [recv_high cap s this rx h0] at hr
    cases hr
    rfl

/-- A call that executes `activate()` on no object other than `B` keeps `B` the active
object. -/
theorem run_keeps_active (cap : Nat) (bld : Build) (B : Nat) (s s1 : State) (op : Op)
    (hB : s.active_object = some B) (hq : ∀ l, op.activates s = some l → l = B)
    (hr : op.run cap bld s = some s1) : s1.active_object = some B := by
  cases op with
  | activate this =>
    cases hr
    rw [hq this rfl]
    exact activate_active s B
  | begin this speed =>
    cases hr
    rw [hq this rfl]
    exact activate_active _ B
  | recv this rx => rw [recv_active cap s s1 this rx hr, hB]
  | handle_interrupt rx =>
    simp only [Op.run, handle_interrupt, hB] at hr
    rw [recv_active cap s s1 B rx hr, hB]
  | read this =>
    cases hr
    rw [hq this rfl]
    have ha := activate_active s B
    simp only [read]
    split_ifs <;> exact ha
  | available this =>
    cases hr
    rw [hq this rfl]
    have ha := activate_active s B
    simp only [available]
    split_ifs <;> exact ha
  | flush this =>
    cases hr
    simp only [flush]
    split_ifs <;> exact hB
  | write this b =>
    by_cases ht : (s.link this)._tx_delay = 0
    · simp only [Op.run, write_zero_delay bld s this b ht, Option.map_some'] at hr
      cases hr
      exact hB
    · have hl : this = B := hq this (by simp [Op.activates, ht])
      subst hl
      simp only [Op.run, write_enabled bld s this b ht, Option.map_some'] at hr
      cases hr
      exact activate_active s this

/-- A run in which only `B` is ever activated returns and ends with `B` the active object. -/
theorem runOps_keeps_active (cap : Nat) (bld : Build) (B : Nat) :
    ∀ (ops : List Op) (s : State), s.active_object = some B →
      onlyActivates cap bld B s ops →
      ∃ s1, runOps cap bld s ops = some s1 ∧ s1.active_object = some B
  | [], s, hB, _ => ⟨s, rfl, hB⟩
  | op :: rest, s, hB, hq => by
    obtain ⟨s1, hr⟩ := run_total cap bld s op
    have h1 := run_keeps_active cap bld B s s1 op hB hq.1 hr
    obtain ⟨s2, hr2, h2⟩ := runOps_keeps_active cap bld B rest s1 h1 (hq.2 s1 hr)
    exact ⟨s2, by simp [runOps, hr, hr2], h2⟩

/-- Slots at distinct offsets below the capacity from the same base are distinct. -/
theorem slot_injective (cap h x y : Nat) (hx : x < cap) (hy : y < cap)
    (he : (h + x) % cap = (h + y) % cap) : x = y := by
  have h1 : x ≡ y [MOD cap] := Nat.ModEq.add_left_cancel' h he
  have h2 : x % cap = y % cap := h1
  rwa [Nat.mod_eq_of_lt hx, Nat.mod_eq_of_lt hy] at h2

/-- A run of `recv` entered with the line low while the buffer has room. -/
theorem recv_room (cap : Nat) (hcap : 0 < cap) (hcap256 : cap ≤ 256) (s : State) (this : Nat)
    (rx : Nat → Bool) (h0 : rx 0 = false)
    (h : (s._receive_buffer_tail + 1) % cap ≠ s._receive_buffer_head) :
    ∃ s1, recv cap s this rx = some s1 ∧
      s1._receive_buffer_head = s._receive_buffer_head ∧
      s1._receive_buffer_tail = (s._receive_buffer_tail + 1) % cap ∧
      s1._receive_buffer =
        (fun j => if j = s._receive_buffer_tail then sampledByte rx else s._receive_buffer j) ∧
      s1.link = s.link := by
  have hlt : (s._receive_buffer_tail + 1) % cap < 256 :=
    lt_of_lt_of_le (Nat.mod_lt _ hcap) hcap256
  refine ⟨_, recv_low cap s this rx h0, ?_⟩
  simp [recvCommit, h, Nat.mod_eq_of_lt hlt]

/-- A run of `recv` entered with the line low while the buffer is full. -/
theorem recv_full (cap : Nat) (s : State) (this : Nat) (rx : Nat → Bool) (h0 : rx 0 = false)
    (h : (s._receive_buffer_tail + 1) % cap = s._receive_buffer_head) :
    ∃ s1, recv cap s this rx = some s1 ∧
      s1._receive_buffer_head = s._receive_buffer_head ∧
      s1._receive_buffer_tail = s._receive_buffer_tail ∧
      s1._receive_buffer = s._receive_buffer ∧
      (s1.link this)._buffer_overflow = true := by
  refine ⟨_, recv_low cap s this rx h0, ?_⟩
  simp [recvCommit, h, State.setLink]

/-- Filling: with `m` bytes pending and room for all of `rxs`, every byte of `rxs` is stored
in the next slot, in order, and no overflow flag changes. -/
theorem recvMany_fill (cap : Nat) (hcap256 : cap ≤ 256) (this : Nat) :
    ∀ (rxs : List (Nat → Bool)) (s : State) (m : Nat),
      (∀ r ∈ rxs, r 0 = false) →
      s._receive_buffer_head < cap →
      s._receive_buffer_tail = (s._receive_buffer_head + m) % cap →
      m + rxs.length < cap →
      ∃ s1, recvMany cap this s rxs = some s1 ∧
        s1._receive_buffer_head = s._receive_buffer_head ∧
        s1._receive_buffer_tail = (s._receive_buffer_head + (m + rxs.length)) % cap ∧
        (∀ l, (s1.link l)._buffer_overflow = (s.link l)._buffer_overflow) ∧
        (∀ i (hi : i < rxs.length),
          s1._receive_buffer ((s._receive_buffer_head + (m + i)) % cap) = sampledByte rxs[i]) ∧
        (∀ j, (∀ i < rxs.length, j ≠ (s._receive_buffer_head + (m + i)) % cap) →
          s1._receive_buffer j = s._receive_buffer j)
  | [], s, m, _, _, ht, _ => by
    refine ⟨s, rfl, rfl, by simpa using ht, fun _ => rfl, ?_, fun _ _ => rfl⟩
    intro i hi
    simp at hi
  | rx :: rest, s, m, hst, hh, ht, hlen => by
    simp only [List.length_cons] at hlen
    have hcap : 0 < cap := by omega
    have h0 : rx 0 = false := hst rx (List.mem_cons_self _ _)
    have hrest : ∀ r ∈ rest, r 0 = false := fun r hr => hst r (List.mem_cons_of_mem _ hr)
    have hnext : (s._receive_buffer_tail + 1) % cap = (s._receive_buffer_head + (m + 1)) % cap := by
      rw [ht, Nat.mod_add_mod, Nat.add_assoc]
    have hroom : (s._receive_buffer_tail + 1) % cap ≠ s._receive_buffer_head := by
      rw [hnext]
      intro he
      have he2 : (s._receive_buffer_head + (m + 1)) % cap = (s._receive_buffer_head + 0) % cap := by
        rw [he, Nat.add_zero, Nat.mod_eq_of_lt hh]
      have := slot_injective cap _ _ _ (by omega) hcap he2
      omega
    obtain ⟨s0, hr0, hhead0, htail0, hbuf0, hlink0⟩ :=
      recv_room cap hcap hcap256 s this rx h0 hroom
    obtain ⟨s1, hr1, hhead, htail, hov, hbuf, hother⟩ :=
      recvMany_fill cap hcap256 this rest s0 (m + 1) hrest
        (by rw [hhead0]; exact hh) (by rw [htail0, hhead0, hnext]) (by omega)
    rw [hhead0] at hhead htail hbuf hother
    rw [hlink0] at hov
    rw [hbuf0] at hother
    refine ⟨s1, by simp [recvMany, hr0, hr1], hhead, ?_, hov, ?_, ?_⟩
    · rw [htail]
      congr 2
      simp only [List.length_cons]
      omega
    · intro i hi
      cases i with
      | zero =>
        have hne : ∀ i < rest.length,
            (s._receive_buffer_head + (m + 0)) % cap ≠
              (s._receive_buffer_head + (m + 1 + i)) % cap := by
          intro i hi2 he
          have := slot_injective cap _ _ _ (by omega) (by omega) he
          omega
        rw [hother _ hne]
        simp [ht]
      | succ i =>
        simp only [List.length_cons, Nat.add_lt_add_iff_right] at hi
        have := hbuf i hi
        simp only [List.getElem_cons_succ]
        rw [← this]
        congr 2
        omega
    · intro j hj
      have hne : ∀ i < rest.length, j ≠ (s._receive_buffer_head + (m + 1 + i)) % cap := by
        intro i hi2
        have := hj (i + 1) (by simp only [List.length_cons]; omega)
        rwa [show m + (i + 1) = m + 1 + i by omega] at this
      rw [hother j hne]
      have hj0 := hj 0 (by simp)
      rw [Nat.add_zero, ← ht] at hj0
      simp [hj0]

/-- The method `write` always returns. -/
theorem write_total (bld : Build) (s : State) (this b : Nat) :
    ∃ r, write bld s this b = some r := by
  by_cases h : (s.link this)._tx_delay = 0
  · exact ⟨_, write_zero_delay bld s this b h⟩
  · exact ⟨_, write_enabled bld s this b h⟩

theorem activate_link_other (s : State) (this L : Nat) (h : L ≠ this) :
    (activate s this).1.link L = s.link L := by
  simp only [activate, State.setLink]
  split_ifs <;> simp [h]

theorem activate_overflow_cleared (s : State) (this L : Nat)
    (hb : (s.link L)._buffer_overflow = true)
    (ha : ((activate s this).1.link L)._buffer_overflow = false) :
    this = L ∧ s.active_object ≠ some L := by
  by_cases hL : L = this
  · subst hL
    refine ⟨rfl, ?_⟩
    intro hact
    simp [activate, hact, hb] at ha
  · rw [activate_link_other s this L hL, hb] at ha
    cases ha

theorem begin_link_other (bld : Build) (s : State) (this L : Nat) (speed : Int) (h : L ≠ this) :
    (begin bld s this speed).link L = s.link L := by
  simp only [begin]
  rw [activate_link_other _ this L h]
  simp only [State.setLink, tunedDelay, State.emit, enableRxInterrupt]
  split_ifs <;> simp [h]

theorem recvCommit_overflow_kept (cap : Nat) (s : State) (this d L : Nat)
    (hb : (s.link L)._buffer_overflow = true) :
    ((recvCommit cap s this d).link L)._buffer_overflow = true := by
  simp only [recvCommit, State.setLink]
  split_ifs
  · exact hb
  · by_cases hL : L = this
    · simp [hL]
    · simp [hL, hb]

theorem recv_overflow_kept (cap : Nat) (s s1 : State) (this L : Nat) (rx : Nat → Bool)
    (hr : recv cap s this rx = some s1) (hb : (s.link L)._buffer_overflow = true) :
    (s1.link L)._buffer_overflow = true := by
  cases h0 : rx 0
  · rw [recv_low cap s this rx h0] at hr
    cases hr
    exact recvCommit_overflow_kept cap _ this _ L hb
  · rw [recv_high cap s this rx h0] at hr
    cases hr
    exact hb

theorem read_link (cap : Nat) (s : State) (this : Nat) :
    (read cap s this).1.link = (activate s this).1.link := by
  simp only [read]
  split_ifs <;> rfl

theorem available_link (cap : Nat) (s : State) (this : Nat) :
    (available cap s this).1.link = (activate s this).1.link := by
  simp only [available]
  split_ifs <;> rfl

theorem flush_link (s : State) (this : Nat) : (flush s this).link = s.link := by
  simp only [flush]
  split_ifs <;> rfl

/-- The four delays that the table scan leaves depend on its start value only through the
four delays it holds. -/
theorem beginScan_delays (speed : Int) (tbl : List DELAY_TABLE) (L M : Link)
    (h1 : L._rx_delay_centering = M._rx_delay_centering)
    (h2 : L._rx_delay_intrabit = M._rx_delay_intrabit)
    (h3 : L._rx_delay_stopbit = M._rx_delay_stopbit)
    (h4 : L._tx_delay = M._tx_delay) :
    (beginScan speed tbl L)._rx_delay_centering = (beginScan speed tbl M)._rx_delay_centering ∧
    (beginScan speed tbl L)._rx_delay_intrabit = (beginScan speed tbl M)._rx_delay_intrabit ∧
    (beginScan speed tbl L)._rx_delay_stopbit = (beginScan speed tbl M)._rx_delay_stopbit ∧
    (beginScan speed tbl L)._tx_delay = (beginScan speed tbl M)._tx_delay := by
  induction tbl with
  | nil => exact ⟨h1, h2, h3, h4⟩
  | cons row rest ih =>
    simp only [beginScan]
    split_ifs
    · exact ⟨rfl, rfl, rfl, rfl⟩
    · exact ih

/-! ### Reading back and counting -/

theorem sampledByte_lt (rx : Nat → Bool) : sampledByte rx < 256 :=
  sampledBits_lt rx 8

theorem recvMany_active (cap : Nat) (this : Nat) :
    ∀ (rxs : List (Nat → Bool)) (s s1 : State),
      recvMany cap this s rxs = some s1 → s1.active_object = s.active_object
  | [], s, s1, h => by
    simp only [recvMany, Option.some.injEq] at h
    rw [h]
  | rx :: rest, s, s1, h => by
    obtain ⟨s0, h0⟩ := run_total cap build16 s (Op.recv this rx)
    have h0r : recv cap s this rx = some s0 := h0
    simp only [recvMany, h0r] at h
    rw [recvMany_active cap this rest s0 s1 h, recv_active cap s s0 this rx h0r]

/-- The method `read` on the active object with an empty buffer. -/
theorem read_active_empty (cap : Nat) (s : State) (this : Nat)
    (hact : s.active_object = some this)
    (he : s._receive_buffer_head = s._receive_buffer_tail) :
    read cap s this = (s, -1) := by
  simp [read, activate, hact, he]

/-- The method `read` on the active object with a byte pending. -/
theorem read_active_pending (cap : Nat) (s : State) (this : Nat)
    (hact : s.active_object = some this)
    (hne : s._receive_buffer_head ≠ s._receive_buffer_tail) :
    read cap s this =
      ({ s with _receive_buffer_head := ((s._receive_buffer_head + 1) % cap) % 256 },
        ((s._receive_buffer s._receive_buffer_head % 256 : Nat) : Int)) := by
  simp [read, activate, hact, hne]

/-- Draining: with the bytes `bytes` stored from offset `i` on and nothing after them, as many
calls of `read` return them in order and leave the buffer empty, touching nothing else. -/
theorem readMany_drain (cap : Nat) (hcap256 : cap ≤ 256) (this h : Nat) (hh : h < cap) :
    ∀ (bytes : List Nat) (i : Nat) (s : State),
      s.active_object = some this →
      s._receive_buffer_head = (h + i) % cap →
      s._receive_buffer_tail = (h + (i + bytes.length)) % cap →
      i + bytes.length < cap →
      (∀ j (hj : j < bytes.length), s._receive_buffer ((h + (i + j)) % cap) = bytes[j]) →
      (∀ x ∈ bytes, x < 256) →
      (readMany cap this s bytes.length).2 = bytes.map Int.ofNat ∧
      (readMany cap this s bytes.length).1.active_object = some this ∧
      (readMany cap this s bytes.length).1._receive_buffer_head =
        (readMany cap this s bytes.length).1._receive_buffer_tail ∧
      (readMany cap this s bytes.length).1.link = s.link
  | [], i, s, hact, hhead, htail, _, _, _ => by
    refine ⟨rfl, hact, ?_, rfl⟩
    simp only [readMany]
    rw [hhead, htail]
    simp
  | x :: xs, i, s, hact, hhead, htail, hlen, hbuf, hx => by
    simp only [List.length_cons] at hlen htail
    have hcap : 0 < cap := by omega
    have hne : s._receive_buffer_head ≠ s._receive_buffer_tail := by
      rw [hhead, htail]
      intro he
      have := slot_injective cap h _ _ (by omega) (by omega) he
      omega
    have hx0 : s._receive_buffer s._receive_buffer_head = x := by
      have := hbuf 0 (by simp)
      simpa [hhead] using this
    have hxlt : x < 256 := hx x (List.mem_cons_self _ _)
    have hnext : ((s._receive_buffer_head + 1) % cap) % 256 = (h + (i + 1)) % cap := by
      rw [hhead, Nat.mod_add_mod, Nat.add_assoc]
      exact Nat.mod_eq_of_lt (lt_of_lt_of_le (Nat.mod_lt _ hcap) hcap256)
    have hr := read_active_pending cap s this hact hne
    rw [hx0, Nat.mod_eq_of_lt hxlt, hnext] at hr
    obtain ⟨r1, r2, r3, r4⟩ := readMany_drain cap hcap256 this h hh xs (i + 1)
      { s with _receive_buffer_head := (h + (i + 1)) % cap } hact rfl
      (by rw [show i + 1 + xs.length = i + (xs.length + 1) by omega]; exact htail) (by omega)
      (by
        intro j hj
        have := hbuf (j + 1) (by simp only [List.length_cons]; omega)
        simp only [List.getElem_cons_succ] at this
        rw [show i + 1 + j = i + (j + 1) by omega]
        exact this)
      (fun y hy => hx y (List.mem_cons_of_mem _ hy))
    simp only [List.length_cons, readMany, hr, List.map_cons]
    exact ⟨by rw [r1]; rfl, r2, r3, r4⟩

/-- Reduction modulo `cap` of a number below `2 * cap`. -/
theorem mod_below_double (x cap : Nat) (h : x < 2 * cap) :
    x % cap = if x < cap then x else x - cap := by
  split_ifs with hx
  · exact Nat.mod_eq_of_lt hx
  · rw [Nat.mod_eq_sub_mod (by omega), Nat.mod_eq_of_lt (by omega)]

/-- The method `available` on the active object, for indices below the capacity. -/
theorem available_active (cap : Nat) (hcap256 : cap ≤ 256) (s : State) (this : Nat)
    (hact : s.active_object = some this)
    (hh : s._receive_buffer_head < cap) (ht : s._receive_buffer_tail < cap) :
    available cap s this =
      (s, (s._receive_buffer_tail + cap - s._receive_buffer_head) % cap) := by
  have hcap : 0 < cap := by omega
  have hcast : ((s._receive_buffer_tail : Int) + (cap : Int) - (s._receive_buffer_head : Int)) =
      ((s._receive_buffer_tail + cap - s._receive_buffer_head : Nat) : Int) := by omega
  have hlt : (s._receive_buffer_tail + cap - s._receive_buffer_head) % cap < 256 :=
    lt_of_lt_of_le (Nat.mod_lt _ hcap) hcap256
  simp only [available, activate, hact, ne_eq, not_true_eq_false, if_false, Bool.false_eq_true,
    hcast]
  rw [Int.tmod_eq_emod (by positivity) (by positivity)]
  norm_cast
  rw [Nat.mod_eq_of_lt hlt]

theorem count_le (cap h t : Nat) (hh : h < cap) : (t + cap - h) % cap ≤ cap - 1 := by
  have := Nat.mod_lt (t + cap - h) (show 0 < cap by omega)
  omega

theorem count_zero_iff (cap h t : Nat) (hh : h < cap) (ht : t < cap) :
    (t + cap - h) % cap = 0 ↔ h = t := by
  rw [mod_below_double _ cap (by omega)]
  split_ifs <;> omega

theorem count_after_push (cap h t : Nat) (hh : h < cap) (ht : t < cap)
    (hroom : (t + 1) % cap ≠ h) :
    ((t + 1) % cap + cap - h) % cap = (t + cap - h) % cap + 1 := by
  rw [mod_below_double (t + 1) cap (by omega)] at hroom ⊢
  split_ifs at hroom ⊢ with hx
  · rw [mod_below_double _ cap (by omega), mod_below_double _ cap (by omega)]
    split_ifs <;> omega
  · rw [mod_below_double _ cap (by omega), mod_below_double _ cap (by omega)]
    split_ifs <;> omega

theorem count_after_pop (cap h t : Nat) (hh : h < cap) (ht : t < cap) (hne : h ≠ t) :
    (t + cap - (h + 1) % cap) % cap + 1 = (t + cap - h) % cap := by
  rw [mod_below_double (h + 1) cap (by omega)]
  split_ifs with hx
  · rw [mod_below_double _ cap (by omega), mod_below_double _ cap (by omega)]
    split_ifs <;> omega
  · rw [mod_below_double _ cap (by omega), mod_below_double _ cap (by omega)]
    split_ifs <;> omega

end NewSoftSerial

namespace Fluxamasynth

/-! ## Auxiliary lemmas for the encoder -/

theorem byte_or_nibble (base channel : Nat) (hbase : base < 256) :
    byte (base ||| (channel &&& 0x0f)) = base ||| (channel &&& 0x0f) := by
  have h1 : channel &&& 0x0f < 2 ^ 8 :=
    lt_of_le_of_lt (Nat.and_le_right) (by decide)
  have h2 : base < 2 ^ 8 := hbase
  exact Nat.mod_eq_of_lt (Nat.or_lt_two_pow h2 h1)

theorem byte_and_mask (v mask : Nat) (hmask : mask < 256) : byte (v &&& mask) = v &&& mask :=
  Nat.mod_eq_of_lt (lt_of_le_of_lt Nat.and_le_right hmask)

theorem synthWrite_sent (bld : NewSoftSerial.Build) (st : FluxState) (c : Nat) :
    ∃ st1, synthWrite bld st c = some st1 ∧ st1.sent = st.sent ++ [c] ∧
      st1.synth = st.synth ∧ st1.synthInitialized = st.synthInitialized := by
  obtain ⟨r, hr⟩ := NewSoftSerial.write_total bld st.serial st.synth c
  exact ⟨{ st with serial := r.1, sent := st.sent ++ [c] }, by simp only [synthWrite, hr],
    rfl, rfl, rfl⟩

theorem begin_sent (bld : NewSoftSerial.Build) (st : FluxState) :
    (begin bld st).sent = st.sent := by
  simp only [begin]
  split_ifs <;> rfl

/-- The single-byte `fluxWrite` returns, without a value, after handing `c` to the
transport. -/
theorem fluxWrite_sent (bld : NewSoftSerial.Build) (st : FluxState) (c : Nat) :
    ∃ st1, fluxWrite bld st c = some (st1, none) ∧ st1.sent = st.sent ++ [c] := by
  obtain ⟨st1, h1, hs, _, _⟩ :=
    synthWrite_sent bld (if st.synthInitialized = 0 then begin bld st else st) c
  refine ⟨st1, by simp only [fluxWrite, h1], ?_⟩
  rw [hs]
  split_ifs
  · rw [begin_sent]
  · rfl

theorem fluxWriteLoop_sent (bld : NewSoftSerial.Build) (buf : List Nat) :
    ∀ (n i : Nat) (st : FluxState), i + n ≤ buf.length →
      ∃ st1, fluxWriteLoop bld buf n i st = some st1 ∧
        st1.sent = st.sent ++ (buf.drop i).take n
  | 0, i, st, _ => ⟨st, rfl, by simp⟩
  | n + 1, i, st, h => by
    have hi : i < buf.length := by omega
    obtain ⟨st1, h1, hs1, _, _⟩ := synthWrite_sent bld st buf[i]
    obtain ⟨st2, h2, hs2⟩ := fluxWriteLoop_sent bld buf n (i + 1) st1 (by omega)
    refine ⟨st2, by simp [fluxWriteLoop, List.getElem?_eq_getElem hi, h1, h2], ?_⟩
    rw [hs2, hs1, List.append_assoc]
    congr 1
    rw [List.drop_eq_getElem_cons hi, List.take_succ_cons]
    simp

/-- The array `fluxWrite` called with the length of the array returns, without a value,
after handing every element to the transport in order. -/
theorem fluxWriteBuf_sent (bld : NewSoftSerial.Build) (st : FluxState) (buf : List Nat)
    (cnt : Nat) (hcnt : cnt = buf.length) :
    ∃ st1, fluxWriteBuf bld st buf cnt = some (st1, none) ∧ st1.sent = st.sent ++ buf := by
  obtain ⟨st1, h1, hs⟩ :=
    fluxWriteLoop_sent bld buf cnt 0 (if st.synthInitialized = 0 then begin bld st else st)
      (by omega)
  refine ⟨st1, by simp only [fluxWriteBuf, h1], ?_⟩
  rw [hs, hcnt]
  simp only [List.drop_zero, List.take_length]
  split_ifs
  · rw [begin_sent]
  · rfl

theorem noteOn_sent (bld : NewSoftSerial.Build) (st : FluxState) (channel pitch velocity : Nat) :
    ∃ st1, noteOn bld st channel pitch velocity = some st1 ∧
      st1.sent = st.sent ++ [0x90 ||| (channel &&& 0x0f), pitch, velocity] := by
  obtain ⟨st1, h, hs⟩ := fluxWriteBuf_sent bld st
    [byte (0x90 ||| (channel &&& 0x0f)), pitch, velocity] 3 rfl
  refine ⟨st1, by simp only [noteOn, h, Option.map_some'], ?_⟩
  rw [hs, byte_or_nibble _ _ (by decide)]

theorem noteOff_sent (bld : NewSoftSerial.Build) (st : FluxState) (channel pitch : Nat) :
    ∃ st1, noteOff bld st channel pitch = some st1 ∧
      st1.sent = st.sent ++ [0x80 ||| (channel &&& 0x0f), pitch, 0x00] := by
  obtain ⟨st1, h, hs⟩ := fluxWriteBuf_sent bld st
    [byte (0x80 ||| (channel &&& 0x0f)), pitch, byte 0x00] 3 rfl
  refine ⟨st1, by simp only [noteOff, h, Option.map_some'], ?_⟩
  rw [hs, byte_or_nibble _ _ (by decide)]
  rfl

theorem programChange_sent (bld : NewSoftSerial.Build) (st : FluxState) (bank channel v : Nat) :
    ∃ st1, programChange bld st bank channel v = some st1 ∧
      st1.sent = st.sent ++
        [0xB0 ||| (channel &&& 0x0f), 0x00, bank, 0xc0 ||| (channel &&& 0x0f), v] := by
  obtain ⟨st1, h1, hs1⟩ := fluxWriteBuf_sent bld st
    [byte (0xB0 ||| (channel &&& 0x0f)), byte 0x00, bank] 3 rfl
  obtain ⟨st2, h2, hs2⟩ := fluxWrite_sent bld st1 (byte (0xc0 ||| (channel &&& 0x0f)))
  obtain ⟨st3, h3, hs3⟩ := fluxWrite_sent bld st2 v
  refine ⟨st3, by simp [programChange, h1, h2, h3], ?_⟩
  rw [hs3, hs2, hs1, byte_or_nibble _ _ (by decide), byte_or_nibble _ _ (by decide)]
  simp [byte]

theorem pitchBendRange_sent (bld : NewSoftSerial.Build) (st : FluxState) (channel v : Nat) :
    ∃ st1, pitchBendRange bld st channel v = some st1 ∧
      st1.sent = st.sent ++
        [0xb0 ||| (channel &&& 0x0f), 0x65, 0x00, 0x64, 0x00, 0x06, v &&& 0x7f] := by
  obtain ⟨st1, h, hs⟩ := fluxWriteBuf_sent bld st
    [byte (0xb0 ||| (channel &&& 0x0f)), 0x65, 0x00, 0x64, 0x00, 0x06, byte (v &&& 0x7f)] 7 rfl
  refine ⟨st1, by simp only [pitchBendRange, h, Option.map_some'], ?_⟩
  rw [hs, byte_or_nibble _ _ (by decide), byte_and_mask _ _ (by decide)]

theorem setChannelVolume_sent (bld : NewSoftSerial.Build) (st : FluxState)
    (channel level : Nat) :
    ∃ st1, setChannelVolume bld st channel level = some st1 ∧
      st1.sent = st.sent ++ [0xb0 ||| (channel &&& 0x0f), 0x07, level] := by
  obtain ⟨st1, h, hs⟩ := fluxWriteBuf_sent bld st
    [byte (0xb0 ||| (channel &&& 0x0f)), 0x07, level] 3 rfl
  refine ⟨st1, by simp only [setChannelVolume, h, Option.map_some'], ?_⟩
  rw [hs, byte_or_nibble _ _ (by decide)]

theorem setMasterVolume_sent (bld : NewSoftSerial.Build) (st : FluxState) (level : Nat) :
    ∃ st1, setMasterVolume bld st level = some st1 ∧
      st1.sent = st.sent ++ [0xf0, 0x7f, 0x7f, 0x04, 0x01, 0x00, level &&& 0x7f, 0xf7] := by
  obtain ⟨st1, h, hs⟩ := fluxWriteBuf_sent bld st
    [0xf0, 0x7f, 0x7f, 0x04, 0x01, 0x00, byte (level &&& 0x7f), 0xf7] 8 rfl
  refine ⟨st1, by simp only [setMasterVolume, h, Option.map_some'], ?_⟩
  rw [hs, byte_and_mask _ _ (by decide)]

theorem setTVFResonance_sent (bld : NewSoftSerial.Build) (st : FluxState)
    (channel resonance : Nat) :
    ∃ st1, setTVFResonance bld st channel resonance = some st1 ∧
      st1.sent = st.sent ++
        [0xb0 ||| (channel &&& 0x0f), 0x63, 0x01, 0x62, 0x21, 0x06, resonance &&& 0x7f] := by
  obtain ⟨st1, h, hs⟩ := fluxWriteBuf_sent bld st
    [byte (0xb0 ||| (channel &&& 0x0f)), 0x63, 0x01, 0x62, 0x21, 0x06,
      byte (resonance &&& 0x7f)] 7 rfl
  refine ⟨st1, by simp only [setTVFResonance, h, Option.map_some'], ?_⟩
  rw [hs, byte_or_nibble _ _ (by decide), byte_and_mask _ _ (by decide)]

theorem setTVFCutoff_sent (bld : NewSoftSerial.Build) (st : FluxState) (channel cutoff : Nat) :
    ∃ st1, setTVFCutoff bld st channel cutoff = some st1 ∧
      st1.sent = st.sent ++
        [0xb0 ||| (channel &&& 0x0f), 0x63, 0x01, 0x62, 0x20, 0x06, cutoff &&& 0x7f] := by
  obtain ⟨st1, h, hs⟩ := fluxWriteBuf_sent bld st
    [byte (0xb0 ||| (channel &&& 0x0f)), 0x63, 0x01, 0x62, 0x20, 0x06,
      byte (cutoff &&& 0x7f)] 7 rfl
  refine ⟨st1, by simp only [setTVFCutoff, h, Option.map_some'], ?_⟩
  rw [hs, byte_or_nibble _ _ (by decide), byte_and_mask _ _ (by decide)]

theorem setEnvAttack_sent (bld : NewSoftSerial.Build) (st : FluxState) (channel attack : Nat) :
    ∃ st1, setEnvAttack bld st channel attack = some st1 ∧
      st1.sent = st.sent ++
        [0xb0 ||| (channel &&& 0x0f), 0x63, 0x01, 0x62, 0x63, 0x06, attack &&& 0x7f] := by
  obtain ⟨st1, h, hs⟩ := fluxWriteBuf_sent bld st
    [byte (0xb0 ||| (channel &&& 0x0f)), 0x63, 0x01, 0x62, 0x63, 0x06,
      byte (attack &&& 0x7f)] 7 rfl
  refine ⟨st1, by simp only [setEnvAttack, h, Option.map_some'], ?_⟩
  rw [hs, byte_or_nibble _ _ (by decide), byte_and_mask _ _ (by decide)]

theorem setMasterPan_sent (bld : NewSoftSerial.Build) (st : FluxState) (pan1 pan2 : Nat) :
    ∃ st1, setMasterPan bld st pan1 pan2 = some st1 ∧
      st1.sent = st.sent ++
        [0xf0, 0x41, 0x00, 0x42, 0x12, 0x40, 0x00, 0x06, pan1 &&& 0x7f, pan2 &&& 0x7f, 0xf7] := by
  obtain ⟨st1, h, hs⟩ := fluxWriteBuf_sent bld st
    [0xf0, 0x41, 0x00, 0x42, 0x12, 0x40, 0x00, 0x06, byte (pan1 &&& 0x7f),
      byte (pan2 &&& 0x7f), 0xf7] 11 rfl
  refine ⟨st1, by simp only [setMasterPan, h, Option.map_some'], ?_⟩
  rw [hs, byte_and_mask _ _ (by decide), byte_and_mask _ _ (by decide)]

theorem setPortamento_sent (bld : NewSoftSerial.Build) (st : FluxState) (channel enable : Nat) :
    ∃ st1, setPortamento bld st channel enable = some st1 ∧
      st1.sent = st.sent ++ [0xb0 ||| (channel &&& 0x0f), 0x41, enable] := by
  obtain ⟨st1, h, hs⟩ := fluxWriteBuf_sent bld st
    [byte (0xb0 ||| (channel &&& 0x0f)), 0x41, enable] 3 rfl
  refine ⟨st1, by simp only [setPortamento, h, Option.map_some'], ?_⟩
  rw [hs, byte_or_nibble _ _ (by decide)]

theorem setSpecialSynthControl_sent (bld : NewSoftSerial.Build) (st : FluxState)
    (channel p1 p2 : Nat) :
    ∃ st1, setSpecialSynthControl bld st channel p1 p2 = some st1 ∧
      st1.sent = st.sent ++
        [0xb0 ||| (channel &&& 0x0f), 0x63, 0x37, 0x62, p1 &&& 0x7f, 0x06, p2 &&& 0x7f] := by
  obtain ⟨st1, h, hs⟩ := fluxWriteBuf_sent bld st
    [byte (0xb0 ||| (channel &&& 0x0f)), 0x63, 0x37, 0x62, byte (p1 &&& 0x7f), 0x06,
      byte (p2 &&& 0x7f)] 7 rfl
  refine ⟨st1, by simp only [setSpecialSynthControl, h, Option.map_some'], ?_⟩
  rw [hs, byte_or_nibble _ _ (by decide), byte_and_mask _ _ (by decide),
    byte_and_mask _ _ (by decide)]

theorem written_of_sent (st st1 : FluxState) (bytes : List Nat)
    (h : st1.sent = st.sent ++ bytes) : written st st1 = bytes := by
  simp [written, h]

theorem setReverb_sent (bld : NewSoftSerial.Build) (st : FluxState)
    (channel program level delayFeedback : Nat) :
    ∃ st1, setReverb bld st channel program level delayFeedback = some st1 ∧
      st1.sent = st.sent ++
        [0xb0 ||| (channel &&& 0x0f), 0x50, program &&& 0x07,
          0xb0 ||| (channel &&& 0x0f), 0x5b, level &&& 0x7f] ++
        (if delayFeedback > 0 then
          [0xf0, 0x41, 0x00, 0x42, 0x12, 0x40, 0x01, 0x35, delayFeedback &&& 0x7f, 0xf7, 0x00]
        else []) := by
  obtain ⟨s1, h1, e1⟩ := fluxWrite_sent bld st (byte (0xb0 ||| (channel &&& 0x0f)))
  obtain ⟨s2, h2, e2⟩ := fluxWrite_sent bld s1 (byte 0x50)
  obtain ⟨s3, h3, e3⟩ := fluxWrite_sent bld s2 (byte (program &&& 0x07))
  obtain ⟨s4, h4, e4⟩ := fluxWrite_sent bld s3 (byte (0xb0 ||| (channel &&& 0x0f)))
  obtain ⟨s5, h5, e5⟩ := fluxWrite_sent bld s4 (byte 0x5b)
  obtain ⟨s6, h6, e6⟩ := fluxWrite_sent bld s5 (byte (level &&& 0x7f))
  have e : s6.sent = st.sent ++
      [0xb0 ||| (channel &&& 0x0f), 0x50, program &&& 0x07,
        0xb0 ||| (channel &&& 0x0f), 0x5b, level &&& 0x7f] := by
    rw [e6, e5, e4, e3, e2, e1, byte_or_nibble _ _ (by decide), byte_and_mask _ _ (by decide),
      byte_and_mask _ _ (by decide)]
    simp [byte]
  by_cases hd : delayFeedback > 0
  · obtain ⟨s7, h7, e7⟩ := fluxWriteBuf_sent bld s6
      [0xf0, 0x41, byte 0x00, 0x42, 0x12, 0x40, 0x01, 0x35, byte (delayFeedback &&& 0x7f),
        0xf7, 0] 11 rfl
    refine ⟨s7, by simp [setReverb, h1, h2, h3, h4, h5, h6, h7, hd], ?_⟩
    rw [e7, e, if_pos hd, byte_and_mask _ _ (by decide)]
    rfl
  · refine ⟨s6, by simp [setReverb, h1, h2, h3, h4, h5, h6, hd], ?_⟩
    rw [e, if_neg hd, List.append_nil]

theorem setChorus_sent (bld : NewSoftSerial.Build) (st : FluxState)
    (channel program level feedback chorusDelay : Nat) :
    ∃ st1, setChorus bld st channel program level feedback chorusDelay = some st1 ∧
      st1.sent = st.sent ++
        [0xb0 ||| (channel &&& 0x0f), 0x51, program &&& 0x07,
          0xb0 ||| (channel &&& 0x0f), 0x5d, level &&& 0x7f] ++
        (if feedback > 0 then
          [0xf0, 0x41, 0x00, 0x42, 0x12, 0x40, 0x01, 0x3B, feedback &&& 0x7f, 0xf7, 0x00]
        else []) ++
        (if chorusDelay > 0 then
          [0xf0, 0x41, 0x00, 0x42, 0x12, 0x40, 0x01, 0x3C, chorusDelay &&& 0x7f, 0xf7, 0x00]
        else []) := by
  obtain ⟨s1, h1, e1⟩ := fluxWrite_sent bld st (byte (0xb0 ||| (channel &&& 0x0f)))
  obtain ⟨s2, h2, e2⟩ := fluxWrite_sent bld s1 (byte 0x51)
  obtain ⟨s3, h3, e3⟩ := fluxWrite_sent bld s2 (byte (program &&& 0x07))
  obtain ⟨s4, h4, e4⟩ := fluxWrite_sent bld s3 (byte (0xb0 ||| (channel &&& 0x0f)))
  obtain ⟨s5, h5, e5⟩ := fluxWrite_sent bld s4 (byte 0x5d)
  obtain ⟨s6, h6, e6⟩ := fluxWrite_sent bld s5 (byte (level &&& 0x7f))
  have e : s6.sent = st.sent ++
      [0xb0 ||| (channel &&& 0x0f), 0x51, program &&& 0x07,
        0xb0 ||| (channel &&& 0x0f), 0x5d, level &&& 0x7f] := by
    rw [e6, e5, e4, e3, e2, e1, byte_or_nibble _ _ (by decide), byte_and_mask _ _ (by decide),
      byte_and_mask _ _ (by decide)]
    simp [byte]
  by_cases hf : feedback > 0
  · obtain ⟨s7, h7, e7⟩ := fluxWriteBuf_sent bld s6
      [0xf0, 0x41, byte 0x00, 0x42, 0x12, 0x40, 0x01, 0x3B, byte (feedback &&& 0x7f),
        0xf7, 0] 11 rfl
    by_cases hc : chorusDelay > 0
    · obtain ⟨s8, h8, e8⟩ := fluxWriteBuf_sent bld s7
        [0xf0, 0x41, byte 0x00, 0x42, 0x12, 0x40, 0x01, 0x3C, byte (chorusDelay &&& 0x7f),
          0xf7, 0] 11 rfl
      refine ⟨s8, by simp [setChorus, h1, h2, h3, h4, h5, h6, h7, h8, hf, hc], ?_⟩
      rw [e8, e7, e, if_pos hf, if_pos hc, byte_and_mask _ _ (by decide),
        byte_and_mask _ _ (by decide)]
      rfl
    · refine ⟨s7, by simp [setChorus, h1, h2, h3, h4, h5, h6, h7, hf, hc], ?_⟩
      rw [e7, e, if_pos hf, if_neg hc, List.append_nil, byte_and_mask _ _ (by decide)]
      rfl
  · by_cases hc : chorusDelay > 0
    · obtain ⟨s8, h8, e8⟩ := fluxWriteBuf_sent bld s6
        [0xf0, 0x41, byte 0x00, 0x42, 0x12, 0x40, 0x01, 0x3C, byte (chorusDelay &&& 0x7f),
          0xf7, 0] 11 rfl
      refine ⟨s8, by simp [setChorus, h1, h2, h3, h4, h5, h6, h8, hf, hc], ?_⟩
      rw [e8, e, if_neg hf, if_pos hc, List.append_nil, byte_and_mask _ _ (by decide)]
      rfl
    · refine ⟨s6, by simp [setChorus, h1, h2, h3, h4, h5, h6, hf, hc], ?_⟩
      rw [e, if_neg hf, if_neg hc, List.append_nil, List.append_nil]

theorem pitchBend_sent (map : Int → Int → Int → Int → Int → Int) (bld : NewSoftSerial.Build)
    (st : FluxState) (channel : Nat) (v : Int) :
    ∃ st1, pitchBend map bld st channel v = some st1 ∧
      st1.sent = st.sent ++
        [0xe0 ||| (channel &&& 0x0f),
          byteOfInt (Int.land (int16 (map v 0 1023 0 0x3fff)) 0x00ef),
          byteOfInt (int16 (map v 0 1023 0 0x3fff) >>> 7)] := by
  obtain ⟨st1, h, hs⟩ := fluxWriteBuf_sent bld st
    [byte (0xe0 ||| (channel &&& 0x0f)),
      byteOfInt (Int.land (int16 (map v 0 1023 0 0x3fff)) 0x00ef),
      byteOfInt (int16 (map v 0 1023 0 0x3fff) >>> 7)] 3 rfl
  refine ⟨st1, by simp only [pitchBend, h, Option.map_some'], ?_⟩
  rw [hs, byte_or_nibble _ _ (by decide)]

/-- The two data bytes of a pitch bend for a mapped value `m` in `0..0x3FFF`. -/
theorem pitchBend_data (m : Nat) (hm : m ≤ 0x3fff) :
    byteOfInt (Int.land (int16 (m : Int)) 0x00ef) = m &&& 0xef ∧
      byteOfInt (int16 (m : Int) >>> 7) = m >>> 7 := by
  have h16 : int16 (m : Int) = (m : Int) := by
    simp only [int16]
    omega
  rw [h16]
  constructor
  · show byteOfInt (((m &&& 0xef : Nat) : Int)) = m &&& 0xef
    have : m &&& 0xef < 256 := lt_of_le_of_lt Nat.and_le_right (by decide)
    simp only [byteOfInt]
    omega
  · show byteOfInt (((m >>> 7 : Nat) : Int)) = m >>> 7
    have : m >>> 7 < 256 := by
      rw [Nat.shiftRight_eq_div_pow]
      omega
    simp only [byteOfInt]
    omega

theorem arduinoMap_pitch (v : Nat) :
    arduinoMap (v : Int) 0 1023 0 0x3fff = ((v * 0x3fff / 1023 : Nat) : Int) := by
  simp only [arduinoMap, sub_zero, add_zero]
  rw [Int.tdiv_eq_ediv (by positivity) (by decide)]
  norm_cast

theorem framing_of_le (channel b : Nat) (h : b ≤ 0x7f) : sevenBitOrFraming channel b :=
  Or.inl h

theorem framing_of_and (channel x mask : Nat) (hmask : mask ≤ 0x7f) :
    sevenBitOrFraming channel (x &&& mask) :=
  Or.inl (le_trans Nat.and_le_right hmask)

theorem framing_status (channel : Nat) :
    sevenBitOrFraming channel (0xb0 ||| (channel &&& 0x0f)) :=
  Or.inr (Or.inl rfl)

theorem framing_sysex_start (channel : Nat) : sevenBitOrFraming channel 0xf0 :=
  Or.inr (Or.inr (Or.inl rfl))

theorem framing_sysex_end (channel : Nat) : sevenBitOrFraming channel 0xf7 :=
  Or.inr (Or.inr (Or.inr rfl))

end Fluxamasynth

namespace HpDecVfd

/-! ## Auxiliary lemmas for the display driver -/

theorem mask_shift (n : Nat) : 2 ^ n >>> 1 = if n = 0 then 0 else 2 ^ (n - 1) := by
  cases n with
  | zero => rfl
  | succ m =>
    rw [Nat.shiftRight_eq_div_pow]
    simp [Nat.pow_succ]

/-- Invariant of the loop of `sendByte`: with `n` rounds left it ends after the pulses for
bits `n - 1` down to 0. -/
theorem sendByteLoop_from (x : Nat) :
    ∀ (n : Nat) (s : Vfd),
      sendByteLoop x n (if n = 0 then 0 else 2 ^ (n - 1)) s =
        some { s with trace := s.trace ++ pulseEvents s._clockPin s._dataPin x n }
  | 0, s => by simp [sendByteLoop, pulseEvents]
  | n + 1, s => by
    have hne : (2 : Nat) ^ n ≠ 0 := Nat.pos_iff_ne_zero.mp (Nat.two_pow_pos n)
    have hbit : decide (x &&& 2 ^ n ≠ 0) = x.testBit n := by
      by_cases hb : x.testBit n = true
      · simp [hb, (NewSoftSerial.and_two_pow_ne_zero x n).mpr hb]
      · have hz : ¬ (x &&& 2 ^ n ≠ 0) := fun h => hb ((NewSoftSerial.and_two_pow_ne_zero x n).mp h)
        simp only [Bool.not_eq_true] at hb
        simp only [hb, decide_eq_false_iff_not]
        exact hz
    simp only [Nat.add_sub_cancel, Nat.succ_ne_zero, if_false, sendByteLoop, hne, hbit,
      mask_shift]
    rw [sendByteLoop_from x n]
    simp [Vfd.emit, pulseEvents, HALF_CLOCK_PERIOD_IN_MICROSECONDS]

/-- What `sendByte` does when a reading of `micros()` is available. -/
theorem sendByte_eq (s : Vfd) (x t : Nat) (rest : List Nat) (hc : s.clock = t :: rest) :
    sendByte s x =
      some { s with
              trace := s.trace ++ pulseEvents s._clockPin s._dataPin x 8
              _lastSendTime := t % 2 ^ 32
              clock := rest
              sent := s.sent ++ [x] } := by
  have h := sendByteLoop_from x 8 s
  simp only [Nat.succ_ne_zero, if_false] at h
  have h8 : (2 : Nat) ^ (8 - 1) = 0x80 := by decide
  rw [h8] at h
  simp [sendByte, h, hc]

/-- What `beginCommand` does when the wait ends and one more reading of `micros()` is
available: an open text command is closed first (default execution time), then the
command byte is sent. -/
theorem beginCommand_eq (s : Vfd) (command t : Nat) (rest : List Nat)
    (hw : waitLoop s._lastSendTime
      (if s._sendingText then DEFAULT_COMMAND_EXECUTION_TIME_IN_MICROSECONDS
        else s._lastCommandExecuteTimeInMicroseconds) s.clock = some (t :: rest)) :
    beginCommand s command =
      some { s with
              _sendingText := false
              _lastCommandExecuteTimeInMicroseconds :=
                if s._sendingText then DEFAULT_COMMAND_EXECUTION_TIME_IN_MICROSECONDS
                else s._lastCommandExecuteTimeInMicroseconds
              trace := s.trace ++ pulseEvents s._clockPin s._dataPin command 8
              _lastSendTime := t % 2 ^ 32
              clock := rest
              sent := s.sent ++ [command] } := by
  cases hst : s._sendingText
  · simp only [hst, Bool.false_eq_true, if_false] at hw
    simp only [beginCommand, hst, Bool.false_eq_true, if_false,
      waitForPreviousCommandToExecute, hw]
    rw [sendByte_eq _ command t rest rfl]
  · simp only [hst, if_true] at hw
    have h6 : DEFAULT_COMMAND_EXECUTION_TIME_IN_MICROSECONDS % 2 ^ 32 =
        DEFAULT_COMMAND_EXECUTION_TIME_IN_MICROSECONDS := by decide
    simp only [beginCommand, hst, if_true, endText, endCommand, h6,
      waitForPreviousCommandToExecute, hw]
    rw [sendByte_eq _ command t rest rfl]

set_option maxRecDepth 100000 in
theorem msbFirst_testBits :
    ∀ x < 256, msbFirst [x.testBit 7, x.testBit 6, x.testBit 5, x.testBit 4, x.testBit 3,
      x.testBit 2, x.testBit 1, x.testBit 0] = x := by
  decide

theorem and_127 (x : Nat) : x &&& 127 = x % 128 :=
  Nat.and_pow_two_sub_one_eq_mod x 7

theorem cursor_step (x : Nat) : ((x + 1) &&& 0b01111111) % 256 = (x + 1) % 128 := by
  rw [and_127]
  omega

/-- What `write` does when no text command is open and the cursor needs no fix-up: it sends
the draw-text header and the character and opens the text command. -/
theorem write_new_text (s : Vfd) (character t1 t2 : Nat) (c2 : List Nat)
    (hst : s._sendingText = false)
    (hda : s._desiredCursorAddress = s._actualCursorAddress)
    (hw : waitLoop s._lastSendTime s._lastCommandExecuteTimeInMicroseconds s.clock =
      some (t1 :: t2 :: c2)) :
    write s character =
      some ({ s with
                trace := s.trace ++ pulseEvents s._clockPin s._dataPin COMMAND_DRAW_TEXT 8 ++
                  pulseEvents s._clockPin s._dataPin character 8
                _lastSendTime := t2 % 2 ^ 32
                clock := c2
                sent := s.sent ++ [COMMAND_DRAW_TEXT, character]
                _desiredCursorAddress := (s._actualCursorAddress + 1) % 128
                _actualCursorAddress := (s._actualCursorAddress + 1) % 128
                _sendingText := true }, none) := by
  have hw2 : waitLoop s._lastSendTime
      (if s._sendingText then DEFAULT_COMMAND_EXECUTION_TIME_IN_MICROSECONDS
        else s._lastCommandExecuteTimeInMicroseconds) s.clock = some (t1 :: t2 :: c2) := by
    simp only [hst, Bool.false_eq_true, if_false, hw]
  simp only [write, hst, Bool.false_eq_true, if_false, hda, ne_eq, not_true_eq_false,
    beginCommand_eq s COMMAND_DRAW_TEXT t1 (t2 :: c2) hw2]
  rw [sendByte_eq _ character t2 c2 rfl]
  simp only [cursor_step]
  cases s
  simp_all

/-- What `write` does when a text command is open and the chain window has not expired:
only the character is sent and the desired cursor advances. -/
theorem write_chained (s : Vfd) (character t3 t4 : Nat) (rest : List Nat)
    (hst : s._sendingText = true) (hc : s.clock = t3 :: t4 :: rest)
    (hok : elapsed t3 s._lastSendTime < MAX_TEXT_CHAIN_TIME_IN_MICROSECONDS) :
    write s character =
      some ({ s with
                trace := s.trace ++ pulseEvents s._clockPin s._dataPin character 8
                _lastSendTime := t4 % 2 ^ 32
                clock := rest
                sent := s.sent ++ [character]
                _desiredCursorAddress := (s._desiredCursorAddress + 1) % 128 }, none) := by
  simp only [write, hst, if_true, timingOkToChainCharacter, hc, hok, decide_True]
  rw [sendByte_eq _ character t4 rest rfl]
  simp only [cursor_step]

/-- What `write` does when a text command is open but the chain window has expired (and the
cursor needs no fix-up): the open command is closed, which sets the default execution time,
and after the wait the header and the character are sent. -/
theorem write_expired (s : Vfd) (character t3 t5 t6 : Nat) (c3 rest : List Nat)
    (hst : s._sendingText = true) (hc : s.clock = t3 :: c3)
    (hno : ¬ elapsed t3 s._lastSendTime < MAX_TEXT_CHAIN_TIME_IN_MICROSECONDS)
    (hda : s._desiredCursorAddress = s._actualCursorAddress)
    (hw : waitLoop s._lastSendTime DEFAULT_COMMAND_EXECUTION_TIME_IN_MICROSECONDS c3 =
      some (t5 :: t6 :: rest)) :
    write s character =
      some ({ s with
                _lastCommandExecuteTimeInMicroseconds :=
                  DEFAULT_COMMAND_EXECUTION_TIME_IN_MICROSECONDS
                trace := s.trace ++ pulseEvents s._clockPin s._dataPin COMMAND_DRAW_TEXT 8 ++
                  pulseEvents s._clockPin s._dataPin character 8
                _lastSendTime := t6 % 2 ^ 32
                clock := rest
                sent := s.sent ++ [COMMAND_DRAW_TEXT, character]
                _desiredCursorAddress := (s._actualCursorAddress + 1) % 128
                _actualCursorAddress := (s._actualCursorAddress + 1) % 128
                _sendingText := true }, none) := by
  have hw2 : waitLoop ({ s with clock := c3 } : Vfd)._lastSendTime
      (if ({ s with clock := c3 } : Vfd)._sendingText then
        DEFAULT_COMMAND_EXECUTION_TIME_IN_MICROSECONDS
        else ({ s with clock := c3 } : Vfd)._lastCommandExecuteTimeInMicroseconds)
      ({ s with clock := c3 } : Vfd).clock = some (t5 :: t6 :: rest) := by
    simp only [hst, if_true, hw]
  have hb := beginCommand_eq { s with clock := c3 } COMMAND_DRAW_TEXT t5 (t6 :: rest) hw2
  simp only [hst, hda, if_true] at hb
  simp only [write, hst, if_true, timingOkToChainCharacter, hc, hno, decide_False, hda, ne_eq,
    not_true_eq_false, if_false, hb]
  rw [sendByte_eq _ character t6 rest rfl]
  simp only [cursor_step]
  cases s
  simp_all

set_option maxRecDepth 100000 in
theorem getIconBitMask_valid :
    ∀ n < 23, getIconBitMask ((n : Nat) : Int) = some (2 ^ (n % 8), n / 8) := by
  decide

theorem getIconBitMask_invalid (i : Int) (h : ¬ (0 ≤ i ∧ i < 23)) :
    getIconBitMask i = some (0b10000000, 2) := by
  simp only [getIconBitMask, NUM_ICONS, ge_iff_le, h, if_false]

set_option maxRecDepth 100000 in
theorem getIconBitMask_injective :
    ∀ n < 23, ∀ m < 23,
      getIconBitMask ((n : Nat) : Int) = getIconBitMask ((m : Nat) : Int) → n = m := by
  decide

theorem complement_testBit :
    ∀ b < 8, ∀ c < 8, (65535 - 2 ^ b).testBit c = decide (b ≠ c) := by
  decide

/-- Setting bit `b` of an element: bit `c` of the stored byte. -/
theorem set_bit_testBit (x b c : Nat) (hc : c < 8) :
    ((x ||| 2 ^ b) % 256).testBit c = (x.testBit c || decide (b = c)) := by
  have h256 : (256 : Nat) = 2 ^ 8 := by decide
  rw [h256, Nat.testBit_mod_two_pow, Nat.testBit_or, Nat.testBit_two_pow]
  simp [hc]

/-- Clearing bit `b` of an element: bit `c` of the stored byte. -/
theorem clear_bit_testBit (x b c : Nat) (hb : b < 8) (hc : c < 8) :
    ((x &&& (65535 - 2 ^ b)) % 256).testBit c = (x.testBit c && decide (b ≠ c)) := by
  have h256 : (256 : Nat) = 2 ^ 8 := by decide
  rw [h256, Nat.testBit_mod_two_pow, Nat.testBit_and, complement_testBit b hb c hc]
  simp [hc]

/-- The stored byte after `setIcon` touched bit `b`: bit `c` is `enable` when `c = b` and
unchanged otherwise. -/
theorem updated_testBit (x b c : Nat) (enable : Bool) (hb : b < 8) (hc : c < 8) :
    (if enable then (x ||| 2 ^ b) % 256 else (x &&& (65535 - 2 ^ b)) % 256).testBit c =
      if b = c then enable else x.testBit c := by
  cases enable
  · simp only [Bool.false_eq_true, if_false, clear_bit_testBit x b c hb hc]
    by_cases h : b = c <;> simp [h]
  · simp only [if_true, set_bit_testBit x b c hc]
    by_cases h : b = c <;> simp [h]

theorem isIconSet_valid (s : Vfd) (n : Nat) (hn : n < 23) :
    isIconSet s ((n : Nat) : Int) = some ((s._iconState (n / 8)).testBit (n % 8)) := by
  simp only [isIconSet, getIconBitMask_valid n hn]
  congr 1
  by_cases hb : (s._iconState (n / 8)).testBit (n % 8) = true
  · simp [hb, (NewSoftSerial.and_two_pow_ne_zero _ _).mpr hb]
  · have hz : ¬ (s._iconState (n / 8) &&& 2 ^ (n % 8) ≠ 0) :=
      fun h => hb ((NewSoftSerial.and_two_pow_ne_zero _ _).mp h)
    simp only [Bool.not_eq_true] at hb
    simp only [hb, decide_eq_false_iff_not]
    exact hz

/-- What `sendIconState` does when the wait ends and four readings of `micros()` are
available: it sends the command byte and the three bytes of `_iconState`. -/
theorem sendIconState_sent (s : Vfd) (t0 t1 t2 t3 : Nat) (rest : List Nat)
    (hw : waitLoop s._lastSendTime
      (if s._sendingText then DEFAULT_COMMAND_EXECUTION_TIME_IN_MICROSECONDS
        else s._lastCommandExecuteTimeInMicroseconds) s.clock =
      some (t0 :: t1 :: t2 :: t3 :: rest)) :
    ∃ s1, sendIconState s = some s1 ∧ s1._iconState = s._iconState ∧
      s1.sent = s.sent ++
        [COMMAND_SET_ICON_STATE, s._iconState 0, s._iconState 1, s._iconState 2] := by
  have hb := beginCommand_eq s COMMAND_SET_ICON_STATE t0 (t1 :: t2 :: t3 :: rest) hw
  simp only [sendIconState, hb, ICON_STATE_SIZE, sendIconBytes]
  rw [sendByte_eq _ _ t1 (t2 :: t3 :: rest) rfl]
  simp only []
  rw [sendByte_eq _ _ t2 (t3 :: rest) rfl]
  simp only []
  rw [sendByte_eq _ _ t3 rest rfl]
  exact ⟨_, rfl, rfl, by simp [endCommand]⟩

end HpDecVfd

namespace NewSoftSerial

/-! ## Properties of the transceiver -/

/-- C1: for either build, every prior state and every `speed`, after `begin(speed)` the four
timing members of the link equal the four constants of the table row whose baud is `speed`,
and all four are 0 when no row has that baud. -/
theorem begin_timing_constants (bld : Build) (hbld : bld = build16 ∨ bld = build8)
    (s : State) (this : Nat) (speed : Int) :
    (∀ row ∈ bld.table, row.baud = speed →
      ((begin bld s this speed).link this)._rx_delay_centering = row.rx_delay_centering ∧
      ((begin bld s this speed).link this)._rx_delay_intrabit = row.rx_delay_intrabit ∧
      ((begin bld s this speed).link this)._rx_delay_stopbit = row.rx_delay_stopbit ∧
      ((begin bld s this speed).link this)._tx_delay = row.tx_delay) ∧
    ((∀ row ∈ bld.table, row.baud ≠ speed) →
      ((begin bld s this speed).link this)._rx_delay_centering = 0 ∧
      ((begin bld s this speed).link this)._rx_delay_intrabit = 0 ∧
      ((begin bld s this speed).link this)._rx_delay_stopbit = 0 ∧
      ((begin bld s this speed).link this)._tx_delay = 0) := by
  have hnd : (bld.table.map DELAY_TABLE.baud).Nodup := by
    rcases hbld with h | h <;> subst h <;> decide
  have hfit : ∀ row ∈ bld.table, row.rx_delay_centering < 65536 ∧
      row.rx_delay_intrabit < 65536 ∧ row.rx_delay_stopbit < 65536 ∧ row.tx_delay < 65536 := by
    rcases hbld with h | h <;> subst h <;> decide
  constructor
  · intro row hrow hb
    obtain ⟨h1, h2, h3, h4⟩ := hfit row hrow
    rw [begin_link, beginScan_match speed bld.table _ hnd row hrow hb]
    simp [Nat.mod_eq_of_lt, h1, h2, h3, h4]
  · intro hno
    rw [begin_link, beginScan_no_match speed bld.table _ hno]
    simp

/-- C1, instance: on the 16 MHz build `begin(31250)` yields 31, 70, 70, 68. -/
theorem begin_timing_constants_witness :
    (((begin build16 (initState (fun _ => 2)) 0 31250).link 0)._rx_delay_centering = 31 ∧
      ((begin build16 (initState (fun _ => 2)) 0 31250).link 0)._rx_delay_intrabit = 70 ∧
      ((begin build16 (initState (fun _ => 2)) 0 31250).link 0)._rx_delay_stopbit = 70 ∧
      ((begin build16 (initState (fun _ => 2)) 0 31250).link 0)._tx_delay = 68) :=
  (begin_timing_constants build16 (Or.inl rfl) (initState (fun _ => 2)) 0 31250).1
    ⟨31250, 31, 70, 70, 68⟩ (by decide) rfl

/-- C2: `activate` on a link that is not the active object zeroes head and tail, makes the
link the active object and returns true; on the active object it returns false and changes
nothing at all. -/
theorem activate_switch_or_keep (s : State) (this : Nat) :
    (s.active_object ≠ some this →
      (activate s this).2 = true ∧
      (activate s this).1._receive_buffer_head = 0 ∧
      (activate s this).1._receive_buffer_tail = 0 ∧
      (activate s this).1.active_object = some this) ∧
    (s.active_object = some this →
      (activate s this).2 = false ∧ (activate s this).1 = s) := by
  constructor
  · intro h
    simp [activate, h]
  · intro h
    simp [activate, h]

/-- C2, instance: activating link 1 at program start switches; activating it again does not. -/
theorem activate_switch_or_keep_witness :
    (activate (initState (fun _ => 2)) 1).2 = true ∧
    (activate (activate (initState (fun _ => 2)) 1).1 1).2 = false :=
  ⟨((activate_switch_or_keep (initState (fun _ => 2)) 1).1 (by decide)).1,
   ((activate_switch_or_keep (activate (initState (fun _ => 2)) 1).1 1).2 (by decide)).1⟩

/-- C3: when `recv` is entered with the rx line low it runs to completion, and its commit
step acts on the sampled byte `d = sampledByte rx` as follows. If `(tail+1) mod cap` differs
from `head`, `d` is stored at index `tail`, `tail` becomes `(tail+1) mod cap`, and `head`,
every other slot and every overflow flag are unchanged. Otherwise the overflow flag of the
link is set and `head`, `tail` and the whole buffer are unchanged. -/
theorem recv_commit_step (cap : Nat) (hcap : 0 < cap) (hcap256 : cap ≤ 256) (s : State)
    (this : Nat) (rx : Nat → Bool) (h0 : rx 0 = false) :
    ∃ s1, recv cap s this rx = some s1 ∧
      ((s._receive_buffer_tail + 1) % cap ≠ s._receive_buffer_head →
        s1._receive_buffer s._receive_buffer_tail = sampledByte rx ∧
        s1._receive_buffer_tail = (s._receive_buffer_tail + 1) % cap ∧
        s1._receive_buffer_head = s._receive_buffer_head ∧
        (∀ j, j ≠ s._receive_buffer_tail → s1._receive_buffer j = s._receive_buffer j) ∧
        (∀ l, (s1.link l)._buffer_overflow = (s.link l)._buffer_overflow)) ∧
      ((s._receive_buffer_tail + 1) % cap = s._receive_buffer_head →
        (s1.link this)._buffer_overflow = true ∧
        s1._receive_buffer_head = s._receive_buffer_head ∧
        s1._receive_buffer_tail = s._receive_buffer_tail ∧
        s1._receive_buffer = s._receive_buffer) := by
  refine ⟨_, recv_low cap s this rx h0, ?_, ?_⟩
  · intro hroom
    have hlt : (s._receive_buffer_tail + 1) % cap < 256 :=
      lt_of_lt_of_le (Nat.mod_lt _ hcap) hcap256
    simp only [recvCommit, hroom, ne_eq, not_false_eq_true, if_true, Nat.mod_eq_of_lt hlt,
      and_self, implies_true, and_true, true_and]
    intro j hj
    simp [hj]
  · intro hfull
    simp [recvCommit, hfull, State.setLink]

/-- C3, instance: with capacity 64, a first byte 0x01 arriving at program start is stored
at slot 0 and moves tail to 1. -/
theorem recv_commit_step_witness :
    ∃ s1, recv 64 (initState (fun _ => 2)) 0 (fun k => decide (k = 1)) = some s1 ∧
      s1._receive_buffer 0 = 1 ∧ s1._receive_buffer_tail = 1 :=
  (recv_commit_step 64 (by decide) (by decide) (initState (fun _ => 2)) 0
      (fun k => decide (k = 1)) (by decide)).imp
    (fun _ h => ⟨h.1, (h.2.1 (by decide)).1.trans (by decide), (h.2.1 (by decide)).2.1⟩)

set_option maxRecDepth 1000000 in
/-- C4 as stated fails: with capacity 64 and link 0 just activated (empty buffer, flag clear),
63 received bytes leave the flag false, but the 64th sets it and is dropped: after 64 bytes
in a row the flag is true and tail stands at 63, not back at head. -/
theorem recv_capacity_bytes_overflows :
    ((activate (initState (fun _ => 2)) 0).1.link 0)._buffer_overflow = false ∧
    (activate (initState (fun _ => 2)) 0).1._receive_buffer_head =
      (activate (initState (fun _ => 2)) 0).1._receive_buffer_tail ∧
    (recvMany 64 0 (activate (initState (fun _ => 2)) 0).1
        (List.replicate 63 (fun k => decide (k ≠ 0)))).map
      (fun s => ((s.link 0)._buffer_overflow, s._receive_buffer_head, s._receive_buffer_tail)) =
      some (false, 0, 63) ∧
    (recvMany 64 0 (activate (initState (fun _ => 2)) 0).1
        (List.replicate 64 (fun k => decide (k ≠ 0)))).map
      (fun s => ((s.link 0)._buffer_overflow, s._receive_buffer_head, s._receive_buffer_tail)) =
      some (true, 0, 63) := by
  decide

/-- C4, as amended: from an empty buffer (head = tail) with the overflow flag of the link clear,
`cap - 1` bytes received in a row through `recv` are all stored, in order, in the slots
following `head`, and the flag is still false; the next byte (the `cap`-th) sets the flag and
leaves the buffer contents, head and tail unchanged. -/
theorem recv_fill_then_overflow (cap : Nat) (hcap : 0 < cap) (hcap256 : cap ≤ 256)
    (s : State) (this : Nat) (rxs : List (Nat → Bool)) (rx : Nat → Bool)
    (hempty : s._receive_buffer_head = s._receive_buffer_tail)
    (hh : s._receive_buffer_head < cap)
    (hov : (s.link this)._buffer_overflow = false)
    (hlen : rxs.length = cap - 1)
    (hstart : ∀ r ∈ rxs, r 0 = false) (h0 : rx 0 = false) :
    ∃ s1 s2, recvMany cap this s rxs = some s1 ∧
      (s1.link this)._buffer_overflow = false ∧
      s1._receive_buffer_head = s._receive_buffer_head ∧
      s1._receive_buffer_tail = (s._receive_buffer_head + (cap - 1)) % cap ∧
      (∀ i (hi : i < rxs.length),
        s1._receive_buffer ((s._receive_buffer_head + i) % cap) = sampledByte rxs[i]) ∧
      recv cap s1 this rx = some s2 ∧
      (s2.link this)._buffer_overflow = true ∧
      s2._receive_buffer = s1._receive_buffer ∧
      s2._receive_buffer_head = s1._receive_buffer_head ∧
      s2._receive_buffer_tail = s1._receive_buffer_tail := by
  obtain ⟨s1, hr1, hhead, htail, hov1, hbuf, _⟩ :=
    recvMany_fill cap hcap256 this rxs s 0 hstart hh
      (by rw [Nat.add_zero, Nat.mod_eq_of_lt hh]; exact hempty.symm) (by omega)
  have hfull : (s1._receive_buffer_tail + 1) % cap = s1._receive_buffer_head := by
    rw [htail, hhead, Nat.mod_add_mod, Nat.zero_add, hlen, Nat.add_assoc,
      Nat.sub_add_cancel hcap, Nat.add_mod_right, Nat.mod_eq_of_lt hh]
  obtain ⟨s2, hr2, hhead2, htail2, hbuf2, hov2⟩ := recv_full cap s1 this rx h0 hfull
  refine ⟨s1, s2, hr1, by rw [hov1, hov], hhead, ?_, ?_, hr2, hov2, hbuf2, hhead2, htail2⟩
  · rw [htail, Nat.zero_add, hlen]
  · intro i hi
    have := hbuf i hi
    rwa [Nat.zero_add] at this

/-- C4, instance: capacity 4, link 0 just activated; three bytes 0xFF fill the buffer without
overflow and a fourth sets the flag. -/
theorem recv_fill_then_overflow_witness :
    ∃ s1 s2, recvMany 4 0 (activate (initState (fun _ => 2)) 0).1
        (List.replicate 3 (fun k => decide (k ≠ 0))) = some s1 ∧
      (s1.link 0)._buffer_overflow = false ∧
      recv 4 s1 0 (fun k => decide (k ≠ 0)) = some s2 ∧
      (s2.link 0)._buffer_overflow = true :=
  (recv_fill_then_overflow 4 (by decide) (by decide) (activate (initState (fun _ => 2)) 0).1 0
      (List.replicate 3 (fun k => decide (k ≠ 0))) (fun k => decide (k ≠ 0))
      (by decide) (by decide) (by decide) (by decide)
      (fun r hr => by rw [List.eq_of_mem_replicate hr]; rfl) (by decide)).imp
    (fun _ h => h.imp (fun _ h2 => ⟨h2.1, h2.2.1, h2.2.2.2.2.2.1, h2.2.2.2.2.2.2.1⟩))

/-- C5: for every byte `b`, the ten levels that `write(b)` drives on a link with a nonzero tx
delay, presented to `recv` as the level at entry and at its eight sample points, make `recv`
take the start-bit branch (the level at entry is low) and commit exactly `b`: the byte
assembled from the samples is `b`, and `recv` returns the commit of `b`. -/
theorem loopback_round_trip (bld : Build) (s : State) (tx b : Nat) (hb : b < 256)
    (htx : (s.link tx)._tx_delay ≠ 0) (cap : Nat) (r : State) (rxl : Nat) :
    ∃ s1 ret, write bld s tx b = some (s1, ret) ∧
      (txLevels (s1.trace.drop s.trace.length)).length = 10 ∧
      loopback (txLevels (s1.trace.drop s.trace.length)) 0 = false ∧
      sampledByte (loopback (txLevels (s1.trace.drop s.trace.length))) = b ∧
      recv cap r rxl (loopback (txLevels (s1.trace.drop s.trace.length))) =
        some (recvCommit cap
          { r with
              trace := r.trace ++
                (Event.tunedDelay ((r.link rxl)._rx_delay_centering % 65536) ::
                  List.replicate 8 (Event.tunedDelay ((r.link rxl)._rx_delay_intrabit % 65536))) ++
                [Event.tunedDelay ((r.link rxl)._rx_delay_stopbit % 65536)] }
          rxl b) := by
  refine ⟨_, _, write_enabled bld s tx b htx, ?_⟩
  simp only [List.append_assoc, List.drop_left]
  have hlv : txLevels
      (Event.tx_pin_write tx false ::
        Event.tunedDelay (((s.link tx)._tx_delay + bld.XMIT_START_ADJUSTMENT) % 65536) ::
        dataBitEvents tx b (s.link tx)._tx_delay 0 8 ++
        [Event.tx_pin_write tx true, Event.tunedDelay ((s.link tx)._tx_delay % 65536)]) =
      [false, b.testBit 0, b.testBit 1, b.testBit 2, b.testBit 3, b.testBit 4, b.testBit 5,
        b.testBit 6, b.testBit 7, true] := by
    simp [txLevels, dataBitEvents]
  simp only [List.cons_append] at hlv ⊢
  rw [hlv]
  have h0 : loopback [false, b.testBit 0, b.testBit 1, b.testBit 2, b.testBit 3, b.testBit 4,
      b.testBit 5, b.testBit 6, b.testBit 7, true] 0 = false := rfl
  have hd := sampledByte_loopback_frame b hb
  refine ⟨rfl, h0, hd, ?_⟩
  rw [recv_low cap r rxl _ h0, hd]
  simp

/-- C5, instance: byte 0xA5 written at 31250 baud on link 0 and looped back into link 1 with
capacity 64 is sampled back as 0xA5. -/
theorem loopback_round_trip_witness :
    ∃ s1 ret, write build16 (begin build16 (initState (fun _ => 2)) 0 31250) 0 0xA5 =
        some (s1, ret) ∧
      sampledByte (loopback (txLevels (s1.trace.drop
        (begin build16 (initState (fun _ => 2)) 0 31250).trace.length))) = 0xA5 :=
  (loopback_round_trip build16 (begin build16 (initState (fun _ => 2)) 0 31250) 0 0xA5
      (by decide) (by decide) 64 (initState (fun _ => 2)) 1).imp
    (fun _ h => h.imp (fun _ h2 => ⟨h2.1, h2.2.2.2.1⟩))

/-- C6: on a link with a nonzero tx delay, `write(b)` returns after driving the tx pin through
exactly ten levels: low for the start bit, held for `tunedDelay(_tx_delay +
XMIT_START_ADJUSTMENT)`; then bit 0 to bit 7 of `b` (high for a 1), each held for
`tunedDelay(_tx_delay)`; then high for the stop bit, held for `tunedDelay(_tx_delay)`. -/
theorem write_frame (bld : Build) (s : State) (this b : Nat)
    (h : (s.link this)._tx_delay ≠ 0) :
    ∃ s1 ret, write bld s this b = some (s1, ret) ∧
      s1.trace = s.trace ++
        [ Event.tx_pin_write this false,
          Event.tunedDelay (((s.link this)._tx_delay + bld.XMIT_START_ADJUSTMENT) % 65536),
          Event.tx_pin_write this (b.testBit 0),
          Event.tunedDelay ((s.link this)._tx_delay % 65536),
          Event.tx_pin_write this (b.testBit 1),
          Event.tunedDelay ((s.link this)._tx_delay % 65536),
          Event.tx_pin_write this (b.testBit 2),
          Event.tunedDelay ((s.link this)._tx_delay % 65536),
          Event.tx_pin_write this (b.testBit 3),
          Event.tunedDelay ((s.link this)._tx_delay % 65536),
          Event.tx_pin_write this (b.testBit 4),
          Event.tunedDelay ((s.link this)._tx_delay % 65536),
          Event.tx_pin_write this (b.testBit 5),
          Event.tunedDelay ((s.link this)._tx_delay % 65536),
          Event.tx_pin_write this (b.testBit 6),
          Event.tunedDelay ((s.link this)._tx_delay % 65536),
          Event.tx_pin_write this (b.testBit 7),
          Event.tunedDelay ((s.link this)._tx_delay % 65536),
          Event.tx_pin_write this true,
          Event.tunedDelay ((s.link this)._tx_delay % 65536) ] := by
  refine ⟨_, _, write_enabled bld s this b h, ?_⟩
  simp [dataBitEvents]

/-- C6, instance: on the 16 MHz build at 31250 baud, `write(0x01)` drives
low, high, seven lows, high, with delays 73 for the start bit and 68 for the others. -/
theorem write_frame_witness :
    ∃ s1 ret, write build16 (begin build16 (initState (fun _ => 2)) 0 31250) 0 1 = some (s1, ret) ∧
      s1.trace = [Event.tunedDelay 68] ++
        [ Event.tx_pin_write 0 false, Event.tunedDelay 73,
          Event.tx_pin_write 0 true, Event.tunedDelay 68,
          Event.tx_pin_write 0 false, Event.tunedDelay 68,
          Event.tx_pin_write 0 false, Event.tunedDelay 68,
          Event.tx_pin_write 0 false, Event.tunedDelay 68,
          Event.tx_pin_write 0 false, Event.tunedDelay 68,
          Event.tx_pin_write 0 false, Event.tunedDelay 68,
          Event.tx_pin_write 0 false, Event.tunedDelay 68,
          Event.tx_pin_write 0 false, Event.tunedDelay 68,
          Event.tx_pin_write 0 true, Event.tunedDelay 68 ] :=
  write_frame build16 (begin build16 (initState (fun _ => 2)) 0 31250) 0 1 (by decide)

/-- C7: on a link whose tx delay is 0, `write(b)` returns 0 and leaves the whole state as it
was: nothing is added to the trace (no level is driven), and the active object, head, tail
and every overflow flag are unchanged. -/
theorem write_disabled (bld : Build) (s : State) (this b : Nat)
    (h : (s.link this)._tx_delay = 0) :
    write bld s this b = some (s, some 0) :=
  write_zero_delay bld s this b h

/-- C7, instance: a link never begun, and a link begun at 12345 baud (not in the table). -/
theorem write_disabled_witness :
    write build16 (initState (fun _ => 2)) 0 65 = some (initState (fun _ => 2), some 0) ∧
    write build16 (begin build16 (initState (fun _ => 2)) 0 12345) 0 65 =
      some (begin build16 (initState (fun _ => 2)) 0 12345, some 0) :=
  ⟨write_disabled build16 (initState (fun _ => 2)) 0 65 (by decide),
   write_disabled build16 (begin build16 (initState (fun _ => 2)) 0 12345) 0 65 (by decide)⟩

/-- C8: `read` returns -1 and only activates when the link was not the active object; it
returns -1 and changes nothing when head equals tail; otherwise it returns the byte at index
`head` as a value in 0..255, advances `head` to `(head+1) mod cap` and leaves `tail` and the
buffer contents unchanged. -/
theorem read_result (cap : Nat) (hcap : 0 < cap) (hcap256 : cap ≤ 256) (s : State)
    (this : Nat) :
    (s.active_object ≠ some this →
      read cap s this = ((activate s this).1, -1) ∧
      (read cap s this).1._receive_buffer = s._receive_buffer) ∧
    (s.active_object = some this → s._receive_buffer_head = s._receive_buffer_tail →
      read cap s this = (s, -1)) ∧
    (s.active_object = some this → s._receive_buffer_head ≠ s._receive_buffer_tail →
      (read cap s this).2 = ((s._receive_buffer s._receive_buffer_head % 256 : Nat) : Int) ∧
      0 ≤ (read cap s this).2 ∧ (read cap s this).2 ≤ 255 ∧
      (read cap s this).1._receive_buffer_head = (s._receive_buffer_head + 1) % cap ∧
      (read cap s this).1._receive_buffer_tail = s._receive_buffer_tail ∧
      (read cap s this).1._receive_buffer = s._receive_buffer) := by
  refine ⟨?_, ?_, ?_⟩
  · intro h
    simp [read, activate, h, State.setLink]
  · intro h he
    simp [read, activate, h, he]
  · intro h hne
    have hlt : (s._receive_buffer_head + 1) % cap < 256 :=
      lt_of_lt_of_le (Nat.mod_lt _ hcap) hcap256
    have hb : s._receive_buffer s._receive_buffer_head % 256 < 256 := Nat.mod_lt _ (by decide)
    simp only [read, activate, h, ne_eq, not_true_eq_false, if_false, Bool.false_eq_true, hne,
      Nat.mod_eq_of_lt hlt, and_true, true_and]
    omega

/-- C8, instance: with 0xFF stored at slot 0 of the active link, `read` returns 255. -/
theorem read_result_witness :
    (read 64 { activate (initState (fun _ => 2)) 0 |>.1 with
        _receive_buffer := fun j => if j = 0 then 255 else 0, _receive_buffer_tail := 1 } 0).2 = 255 ∧
    (read 64 (initState (fun _ => 2)) 0).2 = -1 :=
  ⟨((read_result 64 (by decide) (by decide)
      { activate (initState (fun _ => 2)) 0 |>.1 with
        _receive_buffer := fun j => if j = 0 then 255 else 0, _receive_buffer_tail := 1 } 0).2.2
      (by decide) (by decide)).1.trans (by decide),
   congrArg Prod.snd ((read_result 64 (by decide) (by decide) (initState (fun _ => 2)) 0).1
      (by decide)).1⟩

/-- C9: in every state reachable from program start by calls of `activate`, `begin`, `recv`
(directly or through `handle_interrupt`), `read`, `available`, `flush` and `write` on any
objects, head and tail are both below the capacity. -/
theorem index_invariant (cap : Nat) (hcap : 0 < cap) (bld : Build) (s : State)
    (hs : Reachable cap bld s) :
    s._receive_buffer_head < cap ∧ s._receive_buffer_tail < cap := by
  induction hs with
  | init pins => exact ⟨hcap, hcap⟩
  | step s s1 op _ hr ih => exact run_index cap hcap bld s s1 op hr ih

/-- C9, instance: with capacity 64, after `begin(31250)` on link 0 and one received byte the
indices are below 64. -/
theorem index_invariant_witness :
    ∃ s, recv 64 (begin build16 (initState (fun _ => 2)) 0 31250) 0 (fun k => decide (k = 1))
        = some s ∧
      s._receive_buffer_head < 64 ∧ s._receive_buffer_tail < 64 :=
  ⟨_, recv_low 64 (begin build16 (initState (fun _ => 2)) 0 31250) 0
      (fun k => decide (k = 1)) rfl,
    index_invariant 64 (by decide) build16 _
      (Reachable.step (begin build16 (initState (fun _ => 2)) 0 31250) _
        (Op.recv 0 (fun k => decide (k = 1)))
        (Reachable.step (initState (fun _ => 2)) _ (Op.begin 0 31250)
          (Reachable.init (fun _ => 2)) rfl)
        (recv_low 64 (begin build16 (initState (fun _ => 2)) 0 31250) 0
          (fun k => decide (k = 1)) rfl))⟩

/-- C10: when link `A` is the active object and `B` is another link, `B.activate()` returns
true; right after it `B.available()` is 0 (and changes nothing) and `B.read()` is -1; and after
any further calls among which none executes `activate()` on a link other than `B`,
`B.activate()` returns false. -/
theorem link_switch (cap : Nat) (bld : Build) (s : State) (A B : Nat) (hAB : A ≠ B)
    (hA : s.active_object = some A) :
    (activate s B).2 = true ∧
    available cap (activate s B).1 B = ((activate s B).1, 0) ∧
    (read cap (activate s B).1 B).2 = -1 ∧
    ∀ ops, onlyActivates cap bld B (activate s B).1 ops →
      ∃ s1, runOps cap bld (activate s B).1 ops = some s1 ∧ (activate s1 B).2 = false := by
  have hne : s.active_object ≠ some B := by
    rw [hA]
    intro h
    exact hAB (Option.some.inj h)
  refine ⟨by simp [activate, hne], ?_, ?_, ?_⟩
  · simp [available, activate, hne, State.setLink]
  · simp [read, activate, hne, State.setLink]
  · intro ops hq
    obtain ⟨s1, hr, h1⟩ :=
      runOps_keeps_active cap bld B ops (activate s B).1 (activate_active s B) hq
    exact ⟨s1, hr, by simp [activate, h1]⟩

/-- C10, instance: link 0 has begun at 31250 baud and two unread bytes are pending; link 1
then activates (true), and after a received byte, a read on link 1 and a flush on link 0 the
next `activate()` of link 1 returns false. -/
theorem link_switch_witness :
    (activate { begin build16 (initState (fun _ => 2)) 0 31250 with
        _receive_buffer_tail := 2 } 1).2 = true ∧
    ∃ s1, runOps 64 build16
        (activate { begin build16 (initState (fun _ => 2)) 0 31250 with
          _receive_buffer_tail := 2 } 1).1
        [Op.handle_interrupt (fun k => decide (k = 1)), Op.read 1, Op.flush 0] = some s1 ∧
      (activate s1 1).2 = false :=
  ⟨(link_switch 64 build16 { begin build16 (initState (fun _ => 2)) 0 31250 with
        _receive_buffer_tail := 2 } 0 1 (by decide) (by decide)).1,
   (link_switch 64 build16 { begin build16 (initState (fun _ => 2)) 0 31250 with
        _receive_buffer_tail := 2 } 0 1 (by decide) (by decide)).2.2.2
      [Op.handle_interrupt (fun k => decide (k = 1)), Op.read 1, Op.flush 0]
      ⟨by simp [Op.activates], fun _ _ =>
        ⟨by simp [Op.activates], fun _ _ => ⟨by simp [Op.activates], fun _ _ => trivial⟩⟩⟩⟩

/-- C11: if one call (of `recv`, `handle_interrupt`, `read`, `available`, `flush`, `write`,
`begin` or `activate`, on any link) finds the overflow flag of link `L` true and leaves it
false, then that call executed `activate()` on `L`, and `L` was not the active object before
it; no other call clears the flag. -/
theorem overflow_cleared_only_by_activate (cap : Nat) (bld : Build) (s s1 : State) (op : Op)
    (L : Nat) (hr : op.run cap bld s = some s1)
    (hb : (s.link L)._buffer_overflow = true)
    (ha : (s1.link L)._buffer_overflow = false) :
    op.activates s = some L ∧ s.active_object ≠ some L := by
  cases op with
  | activate this =>
    cases hr
    obtain ⟨h1, h2⟩ := activate_overflow_cleared s this L hb ha
    subst h1
    exact ⟨rfl, h2⟩
  | begin this speed =>
    cases hr
    by_cases hL : L = this
    · subst hL
      refine ⟨rfl, ?_⟩
      intro hact
      rw [begin_link] at ha
      simp [hact, hb] at ha
    · rw [begin_link_other bld s this L speed hL, hb] at ha
      cases ha
  | recv this rx =>
    rw [recv_overflow_kept cap s s1 this L rx hr hb] at ha
    cases ha
  | handle_interrupt rx =>
    simp only [Op.run, handle_interrupt] at hr
    cases hact : s.active_object with
    | none =>
      rw [hact] at hr
      cases hr
      rw [hb] at ha
      cases ha
    | some a =>
      rw [hact] at hr
      rw [recv_overflow_kept cap s s1 a L rx hr hb] at ha
      cases ha
  | read this =>
    cases hr
    rw [read_link] at ha
    obtain ⟨h1, h2⟩ := activate_overflow_cleared s this L hb ha
    subst h1
    exact ⟨rfl, h2⟩
  | available this =>
    cases hr
    rw [available_link] at ha
    obtain ⟨h1, h2⟩ := activate_overflow_cleared s this L hb ha
    subst h1
    exact ⟨rfl, h2⟩
  | flush this =>
    cases hr
    rw [flush_link, hb] at ha
    cases ha
  | write this b =>
    by_cases ht : (s.link this)._tx_delay = 0
    · simp only [Op.run, write_zero_delay bld s this b ht, Option.map_some'] at hr
      cases hr
      rw [hb] at ha
      cases ha
    · simp only [Op.run, write_enabled bld s this b ht, Option.map_some'] at hr
      cases hr
      obtain ⟨h1, h2⟩ := activate_overflow_cleared s this L hb ha
      subst h1
      exact ⟨by simp [Op.activates, ht], h2⟩

/-- C11, instance: with the flag of link 0 set and no link active, `read` on link 0 clears
it, and `read` does execute `activate()` on link 0. -/
theorem overflow_cleared_only_by_activate_witness :
    Op.activates
        { initState (fun _ => 2) with
            link := fun _ => { newLink 2 with _buffer_overflow := true } }
        (Op.read 0) = some 0 ∧
      ({ initState (fun _ => 2) with
            link := fun _ => { newLink 2 with _buffer_overflow := true } } : State).active_object
        ≠ some 0 :=
  overflow_cleared_only_by_activate 64 build16
    { initState (fun _ => 2) with link := fun _ => { newLink 2 with _buffer_overflow := true } }
    _ (Op.read 0) 0 rfl (by decide) (by decide)

/-- C12: when `recv` is entered with the rx line high it returns with the state exactly as it
was: nothing is added to the trace (no `tunedDelay`), and head, tail, every buffer slot and
every overflow flag are unchanged. -/
theorem recv_spurious_edge (cap : Nat) (s : State) (this : Nat) (rx : Nat → Bool)
    (h0 : rx 0 = true) : recv cap s this rx = some s :=
  recv_high cap s this rx h0

/-- C12, instance: an idle-high line on a link begun at 31250 baud. -/
theorem recv_spurious_edge_witness :
    recv 64 (begin build16 (initState (fun _ => 2)) 0 31250) 0 (fun _ => true) =
      some (begin build16 (initState (fun _ => 2)) 0 31250) :=
  recv_spurious_edge 64 (begin build16 (initState (fun _ => 2)) 0 31250) 0 (fun _ => true) rfl

/-- C13 as stated fails for `flush`: with link 0 active and two unread bytes pending,
`flush()` on link 1 returns with link 0 still the active object and the buffer not emptied. -/
theorem flush_does_not_activate :
    ({ (activate (initState (fun _ => 2)) 0).1 with _receive_buffer_tail := 2 } :
        State).active_object ≠ some 1 ∧
    (flush { (activate (initState (fun _ => 2)) 0).1 with _receive_buffer_tail := 2 }
        1).active_object ≠ some 1 ∧
    (flush { (activate (initState (fun _ => 2)) 0).1 with _receive_buffer_tail := 2 }
        1)._receive_buffer_tail = 2 := by
  decide

/-- C13, as amended: `read()` and `available()` on a link first perform `activate`: afterwards
the link is the active object, and if it was not before, head = tail = 0. `flush()` performs no
`activate`: on the active object it sets head = tail = 0 and the link stays active; on any
other link it changes nothing. -/
theorem read_available_activate_flush_guarded (cap : Nat) (s : State) (L : Nat) :
    ((read cap s L).1.active_object = some L ∧
      (s.active_object ≠ some L →
        (read cap s L).1._receive_buffer_head = 0 ∧
        (read cap s L).1._receive_buffer_tail = 0)) ∧
    ((available cap s L).1.active_object = some L ∧
      (s.active_object ≠ some L →
        (available cap s L).1._receive_buffer_head = 0 ∧
        (available cap s L).1._receive_buffer_tail = 0)) ∧
    (s.active_object = some L →
      (flush s L).active_object = some L ∧
      (flush s L)._receive_buffer_head = 0 ∧
      (flush s L)._receive_buffer_tail = 0) ∧
    (s.active_object ≠ some L → flush s L = s) := by
  have ha := activate_active s L
  refine ⟨⟨?_, ?_⟩, ⟨?_, ?_⟩, ?_, ?_⟩
  · simp only [read]
    split_ifs <;> exact ha
  · intro h
    simp [read, activate, h, State.setLink]
  · simp only [available]
    split_ifs <;> exact ha
  · intro h
    simp [available, activate, h, State.setLink]
  · intro h
    simp [flush, h]
  · intro h
    simp [flush, h]

/-- C13, instance: at program start `read()` on link 1 makes it the active object, and
`flush()` on link 1 leaves the state as it was. -/
theorem read_available_activate_flush_guarded_witness :
    (read 64 (initState (fun _ => 2)) 1).1.active_object = some 1 ∧
    flush (initState (fun _ => 2)) 1 = initState (fun _ => 2) :=
  ⟨(read_available_activate_flush_guarded 64 (initState (fun _ => 2)) 1).1.1,
   (read_available_activate_flush_guarded 64 (initState (fun _ => 2)) 1).2.2.2 (by decide)⟩

/-- C14 as stated fails: on the 16 MHz build, `begin(9600)` sets the tx delay to 233, and a
repeated `begin(4800)` on the same link is not ignored: it sets the tx delay to 471. -/
theorem begin_repeated_not_ignored :
    ((begin build16 (initState (fun _ => 2)) 0 9600).link 0)._tx_delay = 233 ∧
    ((begin build16 (begin build16 (initState (fun _ => 2)) 0 9600) 0 4800).link 0)._tx_delay
      = 471 := by
  decide

/-- C14, as amended: a repeated `Fluxamasynth::begin()` is ignored: once the flag
`synthInitialized` is set, which the first call does, `Fluxamasynth::begin()` changes nothing.
`NewSoftSerial::begin` has no such guard: after `begin(b1)`, a repeated `begin(b2)` leaves the
four timing constants that `begin(b2)` alone sets, hence those of the first call when
`b2 = b1`. -/
theorem begin_repeated (bld : Build) :
    (∀ st : Fluxamasynth.FluxState,
      (st.synthInitialized ≠ 0 → Fluxamasynth.begin bld st = st) ∧
      (Fluxamasynth.begin bld st).synthInitialized ≠ 0 ∧
      Fluxamasynth.begin bld (Fluxamasynth.begin bld st) = Fluxamasynth.begin bld st) ∧
    (∀ (s : State) (this : Nat) (b1 b2 : Int),
      ((begin bld (begin bld s this b1) this b2).link this)._rx_delay_centering =
        ((begin bld s this b2).link this)._rx_delay_centering ∧
      ((begin bld (begin bld s this b1) this b2).link this)._rx_delay_intrabit =
        ((begin bld s this b2).link this)._rx_delay_intrabit ∧
      ((begin bld (begin bld s this b1) this b2).link this)._rx_delay_stopbit =
        ((begin bld s this b2).link this)._rx_delay_stopbit ∧
      ((begin bld (begin bld s this b1) this b2).link this)._tx_delay =
        ((begin bld s this b2).link this)._tx_delay) := by
  constructor
  · intro st
    have hflag : (Fluxamasynth.begin bld st).synthInitialized ≠ 0 := by
      simp only [Fluxamasynth.begin]
      split_ifs with h
      · simp
      · exact h
    have hnop : ∀ t : Fluxamasynth.FluxState, t.synthInitialized ≠ 0 →
        Fluxamasynth.begin bld t = t := by
      intro t ht
      simp [Fluxamasynth.begin, ht]
    exact ⟨hnop st, hflag, hnop _ hflag⟩
  · intro s this b1 b2
    rw [begin_link bld (begin bld s this b1) this b2, begin_link bld s this b2]
    exact beginScan_delays b2 bld.table _ _ rfl rfl rfl rfl

/-- C14, instance: `begin(9600)` twice on the 16 MHz build keeps the tx delay 233, and a
second `Fluxamasynth::begin()` on a fresh synth changes nothing. -/
theorem begin_repeated_witness :
    ((begin build16 (begin build16 (initState (fun _ => 2)) 0 9600) 0 9600).link 0)._tx_delay
      = 233 ∧
    Fluxamasynth.begin build16 (Fluxamasynth.begin build16 Fluxamasynth.fresh) =
      Fluxamasynth.begin build16 Fluxamasynth.fresh :=
  ⟨((begin_repeated build16).2 (initState (fun _ => 2)) 0 9600 9600).2.2.2.trans (by decide),
   ((begin_repeated build16).1 Fluxamasynth.fresh).2.2⟩

/-- C15, evaluated: on a link begun at 31250 baud (nonzero tx delay) `write(0x41)` transmits
and then reaches the end of the function, which has no `return` statement, so no value is
returned; `Fluxamasynth::fluxWrite(0x41)` likewise returns no value. -/
theorem write_returns_no_value :
    (write build16 (begin build16 (initState (fun _ => 2)) 0 31250) 0 0x41).map Prod.snd =
      some none ∧
    (Fluxamasynth.fluxWrite build16 Fluxamasynth.fresh 0x41).map Prod.snd = some none := by
  decide

/-- C24: from an empty buffer on the active link, `k ≤ cap - 1` bytes committed by `recv` in
order are returned by the next `k` calls of `read` in the same order, the call after them
returns -1, and no overflow flag changes (a clear flag stays clear) through the receptions
and the reads. -/
theorem fifo_order (cap : Nat) (hcap : 0 < cap) (hcap256 : cap ≤ 256) (s : State) (this : Nat)
    (rxs : List (Nat → Bool))
    (hact : s.active_object = some this)
    (hempty : s._receive_buffer_head = s._receive_buffer_tail)
    (hh : s._receive_buffer_head < cap)
    (hlen : rxs.length ≤ cap - 1)
    (hstart : ∀ r ∈ rxs, r 0 = false) :
    ∃ s1, recvMany cap this s rxs = some s1 ∧
      (∀ l, (s1.link l)._buffer_overflow = (s.link l)._buffer_overflow) ∧
      (readMany cap this s1 rxs.length).2 = rxs.map (fun r => Int.ofNat (sampledByte r)) ∧
      (read cap (readMany cap this s1 rxs.length).1 this).2 = -1 ∧
      (∀ l, ((readMany cap this s1 rxs.length).1.link l)._buffer_overflow =
        (s.link l)._buffer_overflow) := by
  obtain ⟨s1, hr1, hhead, htail, hov, hbuf, _⟩ :=
    recvMany_fill cap hcap256 this rxs s 0 hstart hh
      (by rw [Nat.add_zero, Nat.mod_eq_of_lt hh]; exact hempty.symm) (by omega)
  have hact1 : s1.active_object = some this := by
    rw [recvMany_active cap this rxs s s1 hr1, hact]
  obtain ⟨d1, d2, d3, d4⟩ :=
    readMany_drain cap hcap256 this s._receive_buffer_head hh (rxs.map sampledByte) 0 s1 hact1
      (by rw [hhead, Nat.add_zero, Nat.mod_eq_of_lt hh])
      (by rw [htail, List.length_map])
      (by rw [List.length_map]; omega)
      (by
        intro j hj
        rw [List.length_map] at hj
        rw [List.getElem_map]
        exact hbuf j hj)
      (by
        intro x hx
        obtain ⟨r, _, hr⟩ := List.mem_map.mp hx
        rw [← hr]
        exact sampledByte_lt r)
  rw [List.length_map] at d1 d2 d3 d4
  refine ⟨s1, hr1, hov, ?_, ?_, ?_⟩
  · rw [d1, List.map_map]
    rfl
  · rw [read_active_empty cap _ this d2 d3]
  · intro l
    rw [d4, hov]

/-- C24, instance: capacity 4, link 0 active and empty; the bytes 0x01 and 0xFF are received
and then read back in that order, and a third read returns -1. -/
theorem fifo_order_witness :
    ∃ s1, recvMany 4 0 (activate (initState (fun _ => 2)) 0).1
        [fun k => decide (k = 1), fun k => decide (k ≠ 0)] = some s1 ∧
      (readMany 4 0 s1 2).2 = [1, 255] ∧
      (read 4 (readMany 4 0 s1 2).1 0).2 = -1 :=
  (fifo_order 4 (by decide) (by decide) (activate (initState (fun _ => 2)) 0).1 0
      [fun k => decide (k = 1), fun k => decide (k ≠ 0)] (by decide) (by decide) (by decide)
      (by decide) (by simp)).imp
    (fun _ h => ⟨h.1, h.2.2.1.trans (by decide), h.2.2.2.1⟩)

/-- C25: for head and tail below the capacity, `available()` on the active link returns
`(tail + cap - head) mod cap` and changes nothing; the value is at most `cap - 1`, is 0 exactly
when `read()` would return -1, grows by one with every byte that `recv` commits, stays the
same when `recv` drops a byte on a full buffer, and falls by one with every byte that `read`
removes; on a link that is not the active object `available()` returns 0. -/
theorem available_count (cap : Nat) (hcap256 : cap ≤ 256) (s : State) (this : Nat)
    (hh : s._receive_buffer_head < cap) (ht : s._receive_buffer_tail < cap) :
    (s.active_object = some this →
      available cap s this =
        (s, (s._receive_buffer_tail + cap - s._receive_buffer_head) % cap) ∧
      (available cap s this).2 ≤ cap - 1 ∧
      ((available cap s this).2 = 0 ↔ (read cap s this).2 = -1) ∧
      (∀ rx : Nat → Bool, rx 0 = false → ∃ s1, recv cap s this rx = some s1 ∧
        (available cap s1 this).2 =
          (available cap s this).2 +
            (if (s._receive_buffer_tail + 1) % cap ≠ s._receive_buffer_head then 1 else 0)) ∧
      ((read cap s this).2 ≠ -1 →
        (available cap (read cap s this).1 this).2 + 1 = (available cap s this).2)) ∧
    (s.active_object ≠ some this → (available cap s this).2 = 0) := by
  have hcap : 0 < cap := by omega
  constructor
  · intro hact
    have hav := available_active cap hcap256 s this hact hh ht
    refine ⟨hav, ?_, ?_, ?_, ?_⟩
    · rw [hav]
      exact count_le cap _ _ hh
    · rw [hav]
      simp only []
      rw [count_zero_iff cap _ _ hh ht]
      constructor
      · intro he
        rw [read_active_empty cap s this hact he]
      · intro hm
        by_contra hne
        rw [read_active_pending cap s this hact hne] at hm
        simp only [] at hm
        omega
    · intro rx h0
      by_cases hroom : (s._receive_buffer_tail + 1) % cap ≠ s._receive_buffer_head
      · obtain ⟨s1, hr, h1, h2, _, _⟩ := recv_room cap hcap hcap256 s this rx h0 hroom
        have hact1 : s1.active_object = some this := by
          rw [recv_active cap s s1 this rx hr, hact]
        refine ⟨s1, hr, ?_⟩
        rw [available_active cap hcap256 s1 this hact1 (by rw [h1]; exact hh)
          (by rw [h2]; exact Nat.mod_lt _ hcap), hav, if_pos hroom, h1, h2]
        exact count_after_push cap _ _ hh ht hroom
      · obtain ⟨s1, hr, h1, h2, _, _⟩ :=
          recv_full cap s this rx h0 (not_not.mp hroom)
        have hact1 : s1.active_object = some this := by
          rw [recv_active cap s s1 this rx hr, hact]
        refine ⟨s1, hr, ?_⟩
        rw [available_active cap hcap256 s1 this hact1 (by rw [h1]; exact hh)
          (by rw [h2]; exact ht), hav, if_neg hroom, h1, h2]
        rfl
    · intro hm
      have hne : s._receive_buffer_head ≠ s._receive_buffer_tail := by
        intro he
        rw [read_active_empty cap s this hact he] at hm
        exact hm rfl
      have hlt : (s._receive_buffer_head + 1) % cap < 256 :=
        lt_of_lt_of_le (Nat.mod_lt _ hcap) hcap256
      rw [read_active_pending cap s this hact hne, hav, Nat.mod_eq_of_lt hlt]
      have h2 := available_active cap hcap256
        { s with _receive_buffer_head := (s._receive_buffer_head + 1) % cap } this hact
        (Nat.mod_lt _ hcap) ht
      show (available cap
        { s with _receive_buffer_head := (s._receive_buffer_head + 1) % cap } this).2 + 1 = _
      rw [h2]
      exact count_after_pop cap _ _ hh ht hne
  · intro hact
    simp [available, activate, hact]

/-- C25, instance: capacity 64, link 0 active with head 62 and tail 1 (the indices have
wrapped): three bytes are pending; on link 1, which is not active, the result is 0. -/
theorem available_count_witness :
    (available 64
        { (activate (initState (fun _ => 2)) 0).1 with
            _receive_buffer_head := 62, _receive_buffer_tail := 1 } 0).2 = 3 ∧
    (available 64
        { (activate (initState (fun _ => 2)) 0).1 with
            _receive_buffer_head := 62, _receive_buffer_tail := 1 } 1).2 = 0 :=
  ⟨(congrArg Prod.snd ((available_count 64 (by decide)
      { (activate (initState (fun _ => 2)) 0).1 with
          _receive_buffer_head := 62, _receive_buffer_tail := 1 } 0
      (by decide) (by decide)).1 (by decide)).1).trans (by decide),
   (available_count 64 (by decide)
      { (activate (initState (fun _ => 2)) 0).1 with
          _receive_buffer_head := 62, _receive_buffer_tail := 1 } 1
      (by decide) (by decide)).2 (by decide)⟩

end NewSoftSerial

namespace Fluxamasynth

/-! ## Properties of the encoder -/

/-- C16: for all arguments `noteOn(channel, pitch, velocity)` returns after handing exactly
the three bytes `0x90 | (channel & 0x0F)`, `pitch`, `velocity` to the transport's `write`, in
that order; on a fresh synth `noteOn(1, 60, 100)` sends `[0x91, 0x3C, 0x64]`. -/
theorem noteOn_bytes (bld : NewSoftSerial.Build) (st : FluxState)
    (channel pitch velocity : Nat) :
    (∃ st1, noteOn bld st channel pitch velocity = some st1 ∧
      written st st1 = [0x90 ||| (channel &&& 0x0F), pitch, velocity]) ∧
    (noteOn NewSoftSerial.build16 fresh 1 60 100).map (fun t => t.sent) =
      some [0x91, 0x3C, 0x64] := by
  constructor
  · obtain ⟨st1, h, hs⟩ := noteOn_sent bld st channel pitch velocity
    exact ⟨st1, h, written_of_sent st st1 _ hs⟩
  · decide

/-- C17: for every `level`, `setMasterVolume(level)` returns after handing exactly the eight
bytes `F0 7F 7F 04 01 00 (level & 0x7F) F7` to the transport; on a fresh synth
`setMasterVolume(127)` sends `[0xF0,0x7F,0x7F,0x04,0x01,0x00,0x7F,0xF7]`. -/
theorem setMasterVolume_bytes (bld : NewSoftSerial.Build) (st : FluxState) (level : Nat) :
    (∃ st1, setMasterVolume bld st level = some st1 ∧
      written st st1 = [0xF0, 0x7F, 0x7F, 0x04, 0x01, 0x00, level &&& 0x7F, 0xF7]) ∧
    (setMasterVolume NewSoftSerial.build16 fresh 127).map (fun t => t.sent) =
      some [0xF0, 0x7F, 0x7F, 0x04, 0x01, 0x00, 0x7F, 0xF7] := by
  constructor
  · obtain ⟨st1, h, hs⟩ := setMasterVolume_sent bld st level
    exact ⟨st1, h, written_of_sent st st1 _ hs⟩
  · decide

/-- C18, where the code departs from it: `pitchBend(0, 1023)` maps 1023 to `m = 0x3FFF` and
sends `[0xE0, 0xEF, 0x7F]`. The low data byte `0xEF` is `m & 0xEF`; it is neither
`m & 0x6F = 0x6F` nor the seven-bit value `m & 0x7F = 0x7F`, and its bit 7 is set, so it is
not a MIDI data byte. With `m = 128` (`pitchBend(0, 8)`) the low data byte sent is `0x80`,
where `m & 0x6F` and `m & 0x7F` are both 0. -/
theorem pitchBend_low_byte_not_6F :
    (pitchBend arduinoMap NewSoftSerial.build16 fresh 0 1023).map (fun t => t.sent) =
      some [0xE0, 0xEF, 0x7F] ∧
    (1023 * 0x3FFF / 1023) &&& 0x6F = 0x6F ∧
    (1023 * 0x3FFF / 1023) &&& 0x7F = 0x7F ∧
    Nat.testBit 0xEF 7 = true ∧
    (pitchBend arduinoMap NewSoftSerial.build16 fresh 0 8).map (fun t => t.sent) =
      some [0xE0, 0x80, 0x01] ∧
    (8 * 0x3FFF / 1023) &&& 0x6F = 0 ∧
    (8 * 0x3FFF / 1023) &&& 0x7F = 0 := by
  decide

/-- The bytes of `pitchBend` as the code computes them: for every channel and every `v` in
0..1023, with `m = (v * 0x3FFF) / 1023` the value of `map(v, 0, 1023, 0, 0x3FFF)`,
`pitchBend(channel, v)` returns after handing exactly the three bytes
`0xE0 | (channel & 0x0F)`, `m & 0xEF`, `m >> 7` to the transport: the low data byte is `m`
masked with the constant `0x00ef` of the source, which lets bit 7 of `m` through. -/
theorem pitchBend_bytes (map : Int → Int → Int → Int → Int → Int) (bld : NewSoftSerial.Build)
    (st : FluxState) (channel v : Nat) (hv : v ≤ 1023)
    (hmap : map (v : Int) 0 1023 0 0x3fff = ((v * 0x3FFF / 1023 : Nat) : Int)) :
    ∃ st1, pitchBend map bld st channel (v : Int) = some st1 ∧
      written st st1 =
        [0xE0 ||| (channel &&& 0x0F), (v * 0x3FFF / 1023) &&& 0xEF, (v * 0x3FFF / 1023) >>> 7] := by
  obtain ⟨st1, h, hs⟩ := pitchBend_sent map bld st channel (v : Int)
  have hm : v * 0x3FFF / 1023 ≤ 0x3fff := by omega
  obtain ⟨hlo, hhi⟩ := pitchBend_data (v * 0x3FFF / 1023) hm
  rw [hmap, hlo, hhi] at hs
  exact ⟨st1, h, written_of_sent st st1 _ hs⟩

/-- An instance of `pitchBend_bytes`: with the `map` of the Arduino core, `pitchBend(0, 8)` has
`m = 128` and sends `[0xE0, 0x80, 0x01]`. -/
theorem pitchBend_bytes_witness :
    ∃ st1, pitchBend arduinoMap NewSoftSerial.build16 fresh 0 ((8 : Nat) : Int) = some st1 ∧
      written fresh st1 = [0xE0, 0x80, 0x01] :=
  pitchBend_bytes arduinoMap NewSoftSerial.build16 fresh 0 8 (by decide) (arduinoMap_pitch 8)

/-- C19 as stated fails: `noteOn(0, 200, 0)` sends the pitch byte 200 unmasked, and 200 is
above `0x7F`. -/
theorem noteOn_pitch_unmasked :
    (noteOn NewSoftSerial.build16 fresh 0 200 0).map (fun t => t.sent) = some [0x90, 200, 0] ∧
    ¬ (200 ≤ 0x7F) := by
  decide

/-- C19, as amended: for all argument values, (a) `pitchBendRange`, `setMasterVolume`,
`setReverb`, `setChorus`, `setTVFResonance`, `setTVFCutoff`, `setEnvAttack`, `setMasterPan`
and `setSpecialSynthControl` mask every caller-supplied value other than the channel
(`program & 0x07`, all others `& 0x7F`), so every byte they write is at most `0x7F` or is the
status byte or a SysEx delimiter; (b) `noteOn`, `noteOff`, `programChange`,
`setChannelVolume` and `setPortamento` write pitch, velocity, bank, program, level and
enable as given, unmasked; (c) in all of these and in `pitchBend` the channel appears only as
`channel & 0x0F` in the low nibble of a status byte. -/
theorem encoder_masking (bld : NewSoftSerial.Build) (st : FluxState)
    (map : Int → Int → Int → Int → Int → Int) (bend : Int)
    (channel pitch velocity bank program level v delayFeedback feedback chorusDelay resonance
      cutoff attack pan1 pan2 enable p1 p2 : Nat) :
    (∃ st1, pitchBendRange bld st channel v = some st1 ∧
      written st st1 =
        [0xb0 ||| (channel &&& 0x0f), 0x65, 0x00, 0x64, 0x00, 0x06, v &&& 0x7f] ∧
      ∀ b ∈ written st st1, sevenBitOrFraming channel b) ∧
    (∃ st1, setMasterVolume bld st level = some st1 ∧
      written st st1 = [0xf0, 0x7f, 0x7f, 0x04, 0x01, 0x00, level &&& 0x7f, 0xf7] ∧
      ∀ b ∈ written st st1, b ≤ 0x7f ∨ b = 0xf0 ∨ b = 0xf7) ∧
    (∃ st1, setReverb bld st channel program level delayFeedback = some st1 ∧
      written st st1 =
        [0xb0 ||| (channel &&& 0x0f), 0x50, program &&& 0x07,
          0xb0 ||| (channel &&& 0x0f), 0x5b, level &&& 0x7f] ++
        (if delayFeedback > 0 then
          [0xf0, 0x41, 0x00, 0x42, 0x12, 0x40, 0x01, 0x35, delayFeedback &&& 0x7f, 0xf7, 0x00]
        else []) ∧
      ∀ b ∈ written st st1, sevenBitOrFraming channel b) ∧
    (∃ st1, setChorus bld st channel program level feedback chorusDelay = some st1 ∧
      written st st1 =
        [0xb0 ||| (channel &&& 0x0f), 0x51, program &&& 0x07,
          0xb0 ||| (channel &&& 0x0f), 0x5d, level &&& 0x7f] ++
        (if feedback > 0 then
          [0xf0, 0x41, 0x00, 0x42, 0x12, 0x40, 0x01, 0x3B, feedback &&& 0x7f, 0xf7, 0x00]
        else []) ++
        (if chorusDelay > 0 then
          [0xf0, 0x41, 0x00, 0x42, 0x12, 0x40, 0x01, 0x3C, chorusDelay &&& 0x7f, 0xf7, 0x00]
        else []) ∧
      ∀ b ∈ written st st1, sevenBitOrFraming channel b) ∧
    (∃ st1, setTVFResonance bld st channel resonance = some st1 ∧
      written st st1 =
        [0xb0 ||| (channel &&& 0x0f), 0x63, 0x01, 0x62, 0x21, 0x06, resonance &&& 0x7f] ∧
      ∀ b ∈ written st st1, sevenBitOrFraming channel b) ∧
    (∃ st1, setTVFCutoff bld st channel cutoff = some st1 ∧
      written st st1 =
        [0xb0 ||| (channel &&& 0x0f), 0x63, 0x01, 0x62, 0x20, 0x06, cutoff &&& 0x7f] ∧
      ∀ b ∈ written st st1, sevenBitOrFraming channel b) ∧
    (∃ st1, setEnvAttack bld st channel attack = some st1 ∧
      written st st1 =
        [0xb0 ||| (channel &&& 0x0f), 0x63, 0x01, 0x62, 0x63, 0x06, attack &&& 0x7f] ∧
      ∀ b ∈ written st st1, sevenBitOrFraming channel b) ∧
    (∃ st1, setMasterPan bld st pan1 pan2 = some st1 ∧
      written st st1 =
        [0xf0, 0x41, 0x00, 0x42, 0x12, 0x40, 0x00, 0x06, pan1 &&& 0x7f, pan2 &&& 0x7f, 0xf7] ∧
      ∀ b ∈ written st st1, b ≤ 0x7f ∨ b = 0xf0 ∨ b = 0xf7) ∧
    (∃ st1, setSpecialSynthControl bld st channel p1 p2 = some st1 ∧
      written st st1 =
        [0xb0 ||| (channel &&& 0x0f), 0x63, 0x37, 0x62, p1 &&& 0x7f, 0x06, p2 &&& 0x7f] ∧
      ∀ b ∈ written st st1, sevenBitOrFraming channel b) ∧
    (∃ st1, noteOn bld st channel pitch velocity = some st1 ∧
      written st st1 = [0x90 ||| (channel &&& 0x0f), pitch, velocity]) ∧
    (∃ st1, noteOff bld st channel pitch = some st1 ∧
      written st st1 = [0x80 ||| (channel &&& 0x0f), pitch, 0x00]) ∧
    (∃ st1, programChange bld st bank channel program = some st1 ∧
      written st st1 =
        [0xB0 ||| (channel &&& 0x0f), 0x00, bank, 0xc0 ||| (channel &&& 0x0f), program]) ∧
    (∃ st1, setChannelVolume bld st channel level = some st1 ∧
      written st st1 = [0xb0 ||| (channel &&& 0x0f), 0x07, level]) ∧
    (∃ st1, setPortamento bld st channel enable = some st1 ∧
      written st st1 = [0xb0 ||| (channel &&& 0x0f), 0x41, enable]) ∧
    (∃ st1, pitchBend map bld st channel bend = some st1 ∧
      written st st1 =
        [0xe0 ||| (channel &&& 0x0f),
          byteOfInt (Int.land (int16 (map bend 0 1023 0 0x3fff)) 0x00ef),
          byteOfInt (int16 (map bend 0 1023 0 0x3fff) >>> 7)]) := by
  refine ⟨?_, ?_, ?_, ?_, ?_, ?_, ?_, ?_, ?_, ?_, ?_, ?_, ?_, ?_, ?_⟩
  · obtain ⟨st1, h, hs⟩ := pitchBendRange_sent bld st channel v
    have hw := written_of_sent st st1 _ hs
    refine ⟨st1, h, hw, ?_⟩
    rw [hw]
    simp only [List.forall_mem_append, List.forall_mem_cons, List.not_mem_nil,
      IsEmpty.forall_iff, implies_true, and_true]
    repeat' apply And.intro
    all_goals
      first
      | exact framing_status _
      | exact framing_sysex_start _
      | exact framing_sysex_end _
      | exact framing_of_and _ _ _ (by decide)
      | exact framing_of_le _ _ (by decide)
  · obtain ⟨st1, h, hs⟩ := setMasterVolume_sent bld st level
    have hw := written_of_sent st st1 _ hs
    refine ⟨st1, h, hw, ?_⟩
    rw [hw]
    simp only [List.forall_mem_cons, List.not_mem_nil, IsEmpty.forall_iff, implies_true,
      and_true]
    repeat' apply And.intro
    all_goals
      first
      | decide
      | exact Or.inl (le_trans Nat.and_le_right (by decide))
  · obtain ⟨st1, h, hs⟩ := setReverb_sent bld st channel program level delayFeedback
    rw [List.append_assoc] at hs
    have hw := written_of_sent st st1 _ hs
    refine ⟨st1, h, hw, ?_⟩
    rw [hw]
    split_ifs
    all_goals
      simp only [List.forall_mem_append, List.forall_mem_cons, List.not_mem_nil,
        IsEmpty.forall_iff, implies_true, and_true]
      repeat' apply And.intro
      all_goals
        first
        | exact framing_status _
        | exact framing_sysex_start _
        | exact framing_sysex_end _
        | exact framing_of_and _ _ _ (by decide)
        | exact framing_of_le _ _ (by decide)
  · obtain ⟨st1, h, hs⟩ := setChorus_sent bld st channel program level feedback chorusDelay
    rw [List.append_assoc, List.append_assoc] at hs
    have hw := written_of_sent st st1 _ hs
    rw [← List.append_assoc] at hw
    refine ⟨st1, h, hw, ?_⟩
    rw [hw]
    split_ifs
    all_goals
      simp only [List.forall_mem_append, List.forall_mem_cons, List.not_mem_nil,
        IsEmpty.forall_iff, implies_true, and_true]
      repeat' apply And.intro
      all_goals
        first
        | exact framing_status _
        | exact framing_sysex_start _
        | exact framing_sysex_end _
        | exact framing_of_and _ _ _ (by decide)
        | exact framing_of_le _ _ (by decide)
  · obtain ⟨st1, h, hs⟩ := setTVFResonance_sent bld st channel resonance
    have hw := written_of_sent st st1 _ hs
    refine ⟨st1, h, hw, ?_⟩
    rw [hw]
    simp only [List.forall_mem_append, List.forall_mem_cons, List.not_mem_nil,
      IsEmpty.forall_iff, implies_true, and_true]
    repeat' apply And.intro
    all_goals
      first
      | exact framing_status _
      | exact framing_sysex_start _
      | exact framing_sysex_end _
      | exact framing_of_and _ _ _ (by decide)
      | exact framing_of_le _ _ (by decide)
  · obtain ⟨st1, h, hs⟩ := setTVFCutoff_sent bld st channel cutoff
    have hw := written_of_sent st st1 _ hs
    refine ⟨st1, h, hw, ?_⟩
    rw [hw]
    simp only [List.forall_mem_append, List.forall_mem_cons, List.not_mem_nil,
      IsEmpty.forall_iff, implies_true, and_true]
    repeat' apply And.intro
    all_goals
      first
      | exact framing_status _
      | exact framing_sysex_start _
      | exact framing_sysex_end _
      | exact framing_of_and _ _ _ (by decide)
      | exact framing_of_le _ _ (by decide)
  · obtain ⟨st1, h, hs⟩ := setEnvAttack_sent bld st channel attack
    have hw := written_of_sent st st1 _ hs
    refine ⟨st1, h, hw, ?_⟩
    rw [hw]
    simp only [List.forall_mem_append, List.forall_mem_cons, List.not_mem_nil,
      IsEmpty.forall_iff, implies_true, and_true]
    repeat' apply And.intro
    all_goals
      first
      | exact framing_status _
      | exact framing_sysex_start _
      | exact framing_sysex_end _
      | exact framing_of_and _ _ _ (by decide)
      | exact framing_of_le _ _ (by decide)
  · obtain ⟨st1, h, hs⟩ := setMasterPan_sent bld st pan1 pan2
    have hw := written_of_sent st st1 _ hs
    refine ⟨st1, h, hw, ?_⟩
    rw [hw]
    simp only [List.forall_mem_cons, List.not_mem_nil, IsEmpty.forall_iff, implies_true,
      and_true]
    repeat' apply And.intro
    all_goals
      first
      | decide
      | exact Or.inl (le_trans Nat.and_le_right (by decide))
  · obtain ⟨st1, h, hs⟩ := setSpecialSynthControl_sent bld st channel p1 p2
    have hw := written_of_sent st st1 _ hs
    refine ⟨st1, h, hw, ?_⟩
    rw [hw]
    simp only [List.forall_mem_append, List.forall_mem_cons, List.not_mem_nil,
      IsEmpty.forall_iff, implies_true, and_true]
    repeat' apply And.intro
    all_goals
      first
      | exact framing_status _
      | exact framing_sysex_start _
      | exact framing_sysex_end _
      | exact framing_of_and _ _ _ (by decide)
      | exact framing_of_le _ _ (by decide)
  · obtain ⟨st1, h, hs⟩ := noteOn_sent bld st channel pitch velocity
    exact ⟨st1, h, written_of_sent st st1 _ hs⟩
  · obtain ⟨st1, h, hs⟩ := noteOff_sent bld st channel pitch
    exact ⟨st1, h, written_of_sent st st1 _ hs⟩
  · obtain ⟨st1, h, hs⟩ := programChange_sent bld st bank channel program
    exact ⟨st1, h, written_of_sent st st1 _ hs⟩
  · obtain ⟨st1, h, hs⟩ := setChannelVolume_sent bld st channel level
    exact ⟨st1, h, written_of_sent st st1 _ hs⟩
  · obtain ⟨st1, h, hs⟩ := setPortamento_sent bld st channel enable
    exact ⟨st1, h, written_of_sent st st1 _ hs⟩
  · obtain ⟨st1, h, hs⟩ := pitchBend_sent map bld st channel bend
    exact ⟨st1, h, written_of_sent st st1 _ hs⟩

set_option maxRecDepth 1000000 in
/-- C20, evaluated: `setReverb(0, 0, 0, 1)` sends, after the six controller bytes, the ten
initialised bytes of `command[11]`, which end in `0xF7`, and then the zero-initialised
eleventh element: a byte `0x00` follows the `0xF7`. `setChorus(0, 0, 0, 1, 1)` does so
twice. -/
theorem sysex_trailing_zero :
    (setReverb NewSoftSerial.build16 fresh 0 0 0 1).map (fun t => t.sent) =
      some [0xB0, 0x50, 0x00, 0xB0, 0x5B, 0x00,
        0xF0, 0x41, 0x00, 0x42, 0x12, 0x40, 0x01, 0x35, 0x01, 0xF7, 0x00] ∧
    (setChorus NewSoftSerial.build16 fresh 0 0 0 1 1).map (fun t => t.sent) =
      some [0xB0, 0x51, 0x00, 0xB0, 0x5D, 0x00,
        0xF0, 0x41, 0x00, 0x42, 0x12, 0x40, 0x01, 0x3B, 0x01, 0xF7, 0x00,
        0xF0, 0x41, 0x00, 0x42, 0x12, 0x40, 0x01, 0x3C, 0x01, 0xF7, 0x00] := by
  decide

end Fluxamasynth

namespace HpDecVfd

/-! ## Properties of the display driver -/

/-- C21: when the wait for the previous command ends and a reading of `micros()` is available
for the send, `setBrightness(level)` returns after sending exactly one byte,
`0xA0 | min(level, 15)`, and records the default command execution time (6000). -/
theorem setBrightness_sends (s : Vfd) (level t : Nat) (rest : List Nat)
    (hw : waitLoop s._lastSendTime
      (if s._sendingText then DEFAULT_COMMAND_EXECUTION_TIME_IN_MICROSECONDS
        else s._lastCommandExecuteTimeInMicroseconds) s.clock = some (t :: rest)) :
    ∃ s1, setBrightness s level = some s1 ∧
      sentBetween s s1 = [0xA0 ||| min level 15] ∧
      s1._lastCommandExecuteTimeInMicroseconds = 6000 := by
  have hmin : (if level > 15 then 15 else level) = min level 15 := by
    split_ifs with h
    · exact (Nat.min_eq_right (Nat.le_of_lt h)).symm
    · exact (Nat.min_eq_left (Nat.le_of_not_lt h)).symm
  have hlt : (COMMAND_SET_BRIGHTNESS ||| min level 15) % 256 = 0xA0 ||| min level 15 := by
    have h1 : min level 15 < 2 ^ 8 := lt_of_le_of_lt (Nat.min_le_right _ _) (by decide)
    have h2 : (0xA0 : Nat) < 2 ^ 8 := by decide
    exact Nat.mod_eq_of_lt (Nat.or_lt_two_pow h2 h1)
  have heq : setBrightness s level =
      some (endCommand
        { s with
            _sendingText := false
            _lastCommandExecuteTimeInMicroseconds :=
              if s._sendingText then DEFAULT_COMMAND_EXECUTION_TIME_IN_MICROSECONDS
              else s._lastCommandExecuteTimeInMicroseconds
            trace := s.trace ++ pulseEvents s._clockPin s._dataPin (0xA0 ||| min level 15) 8
            _lastSendTime := t % 2 ^ 32
            clock := rest
            sent := s.sent ++ [0xA0 ||| min level 15] }
        DEFAULT_COMMAND_EXECUTION_TIME_IN_MICROSECONDS) := by
    simp only [setBrightness, hmin, hlt, beginCommand_eq s _ t rest hw]
  refine ⟨_, heq, ?_, ?_⟩
  · simp [sentBetween, endCommand]
  · simp [endCommand, DEFAULT_COMMAND_EXECUTION_TIME_IN_MICROSECONDS]

/-- C21, instance: on a fresh display `setBrightness(20)` clamps to 15 and sends `0xAF`. -/
theorem setBrightness_sends_witness :
    ∃ s1, setBrightness (construct 2 3 [0, 5]) 20 = some s1 ∧
      sentBetween (construct 2 3 [0, 5]) s1 = [0xAF] ∧
      s1._lastCommandExecuteTimeInMicroseconds = 6000 :=
  setBrightness_sends (construct 2 3 [0, 5]) 20 5 [] (by decide)

/-- C22: from a state with no text command open and desired cursor = actual cursor = `a`,
`write('A')` (after its wait, with readings for its two sends) followed by `write('B')`
sends exactly `[0x02, 'A', 'B']` when the second call reads an elapsed time below 1000 since
the last send, and then the desired cursor is `(a + 2) & 0x7F`; when the second call reads an
elapsed time of 1000 or more, it closes the text command, waits, and the bytes sent are
`[0x02, 'A', 0x02, 'B']`. -/
theorem write_chain (s : Vfd) (a chA chB t1 t2 : Nat) (c2 : List Nat)
    (hst : s._sendingText = false)
    (hd : s._desiredCursorAddress = a) (ha : s._actualCursorAddress = a)
    (hw : waitLoop s._lastSendTime s._lastCommandExecuteTimeInMicroseconds s.clock =
      some (t1 :: t2 :: c2)) :
    ∃ s1, write s chA = some (s1, none) ∧ s1.clock = c2 ∧ s1._lastSendTime = t2 % 2 ^ 32 ∧
      (∀ t3 t4 rest, c2 = t3 :: t4 :: rest → elapsed t3 s1._lastSendTime < 1000 →
        ∃ s2, write s1 chB = some (s2, none) ∧
          sentBetween s s2 = [0x02, chA, chB] ∧
          s2._desiredCursorAddress = (a + 2) &&& 0x7F) ∧
      (∀ t3 c3 t5 t6 rest, c2 = t3 :: c3 → ¬ elapsed t3 s1._lastSendTime < 1000 →
        waitLoop s1._lastSendTime 6000 c3 = some (t5 :: t6 :: rest) →
        ∃ s2, write s1 chB = some (s2, none) ∧
          sentBetween s s2 = [0x02, chA, 0x02, chB]) := by
  refine ⟨_, write_new_text s chA t1 t2 c2 hst (hd.trans ha.symm) hw, rfl, rfl, ?_, ?_⟩
  · intro t3 t4 rest hc hok
    refine ⟨_, write_chained _ chB t3 t4 rest rfl hc hok, ?_, ?_⟩
    · simp [sentBetween, COMMAND_DRAW_TEXT]
    · simp only [ha, and_127]
      omega
  · intro t3 c3 t5 t6 rest hc hno hw2
    refine ⟨_, write_expired _ chB t3 t5 t6 c3 rest rfl hc hno rfl hw2, ?_⟩
    simp [sentBetween, COMMAND_DRAW_TEXT]

/-- C22, instance: on a fresh display, `write('A')` then `write('B')` 10 microseconds after
the last send gives `[0x02, 0x41, 0x42]` and desired cursor 2; with 4980 microseconds elapsed
it gives `[0x02, 0x41, 0x02, 0x42]`. -/
theorem write_chain_witness :
    (∃ s1, write (construct 2 3 [0, 10, 20, 30, 40]) 0x41 = some (s1, none) ∧
      ∃ s2, write s1 0x42 = some (s2, none) ∧
        sentBetween (construct 2 3 [0, 10, 20, 30, 40]) s2 = [0x02, 0x41, 0x42] ∧
        s2._desiredCursorAddress = 2) ∧
    (∃ s1, write (construct 2 3 [0, 10, 20, 5000, 6020, 6030, 6040]) 0x41 = some (s1, none) ∧
      ∃ s2, write s1 0x42 = some (s2, none) ∧
        sentBetween (construct 2 3 [0, 10, 20, 5000, 6020, 6030, 6040]) s2 =
          [0x02, 0x41, 0x02, 0x42]) :=
  ⟨(write_chain (construct 2 3 [0, 10, 20, 30, 40]) 0 0x41 0x42 10 20 [30, 40]
      rfl rfl rfl (by decide)).imp
    (fun _ h => ⟨h.1, h.2.2.2.1 30 40 [] rfl (by rw [h.2.2.1]; decide)⟩),
   (write_chain (construct 2 3 [0, 10, 20, 5000, 6020, 6030, 6040]) 0 0x41 0x42 10 20
      [5000, 6020, 6030, 6040] rfl rfl rfl (by decide)).imp
    (fun _ h => ⟨h.1, h.2.2.2.2 5000 [6020, 6030, 6040] 6030 6040 [] rfl
      (by rw [h.2.2.1]; decide) (by rw [h.2.2.1]; decide)⟩)⟩

/-- C23: when a reading `t` of `micros()` is available, `sendByte(x)` returns after exactly
eight clock pulses (clock low, then high); the data level set before pulse `k` is high iff bit
`7 - k` of `x` is 1, so for a byte `x` the eight data levels read most significant bit first
spell `x`; `_lastSendTime` is then `t`. -/
theorem sendByte_pulses (s : Vfd) (x t : Nat) (rest : List Nat) (hc : s.clock = t :: rest) :
    ∃ s1, sendByte s x = some s1 ∧
      s1.trace = s.trace ++
        [ PinEvent.digitalWrite s._dataPin (x.testBit 7), PinEvent.delayMicroseconds 28,
          PinEvent.digitalWrite s._clockPin false, PinEvent.delayMicroseconds 28,
          PinEvent.digitalWrite s._clockPin true,
          PinEvent.digitalWrite s._dataPin (x.testBit 6), PinEvent.delayMicroseconds 28,
          PinEvent.digitalWrite s._clockPin false, PinEvent.delayMicroseconds 28,
          PinEvent.digitalWrite s._clockPin true,
          PinEvent.digitalWrite s._dataPin (x.testBit 5), PinEvent.delayMicroseconds 28,
          PinEvent.digitalWrite s._clockPin false, PinEvent.delayMicroseconds 28,
          PinEvent.digitalWrite s._clockPin true,
          PinEvent.digitalWrite s._dataPin (x.testBit 4), PinEvent.delayMicroseconds 28,
          PinEvent.digitalWrite s._clockPin false, PinEvent.delayMicroseconds 28,
          PinEvent.digitalWrite s._clockPin true,
          PinEvent.digitalWrite s._dataPin (x.testBit 3), PinEvent.delayMicroseconds 28,
          PinEvent.digitalWrite s._clockPin false, PinEvent.delayMicroseconds 28,
          PinEvent.digitalWrite s._clockPin true,
          PinEvent.digitalWrite s._dataPin (x.testBit 2), PinEvent.delayMicroseconds 28,
          PinEvent.digitalWrite s._clockPin false, PinEvent.delayMicroseconds 28,
          PinEvent.digitalWrite s._clockPin true,
          PinEvent.digitalWrite s._dataPin (x.testBit 1), PinEvent.delayMicroseconds 28,
          PinEvent.digitalWrite s._clockPin false, PinEvent.delayMicroseconds 28,
          PinEvent.digitalWrite s._clockPin true,
          PinEvent.digitalWrite s._dataPin (x.testBit 0), PinEvent.delayMicroseconds 28,
          PinEvent.digitalWrite s._clockPin false, PinEvent.delayMicroseconds 28,
          PinEvent.digitalWrite s._clockPin true ] ∧
      s1._lastSendTime = t % 2 ^ 32 ∧
      (x < 256 →
        msbFirst [x.testBit 7, x.testBit 6, x.testBit 5, x.testBit 4, x.testBit 3,
          x.testBit 2, x.testBit 1, x.testBit 0] = x) := by
  refine ⟨_, sendByte_eq s x t rest hc, ?_, rfl, msbFirst_testBits x⟩
  simp [pulseEvents]

/-- C23, instance: `sendByte(0xA5)` with reading 7 available; the data levels are
1,0,1,0,0,1,0,1 and `_lastSendTime` becomes 7. -/
theorem sendByte_pulses_witness :
    ∃ s1, sendByte (construct 2 3 [7]) 0xA5 = some s1 ∧
      s1._lastSendTime = 7 ∧
      msbFirst [true, false, true, false, false, true, false, true] = 0xA5 :=
  (sendByte_pulses (construct 2 3 [7]) 0xA5 7 [] rfl).imp
    (fun _ h => ⟨h.1, h.2.2.1, h.2.2.2 (by decide)⟩)

/-- C26: when the wait of `beginCommand` ends and four readings of `micros()` are available,
(1) for every valid icon `n` (`n < 23`) `setIcon(n, e)` returns, `getIconBitMask` maps `n` to
bit `n mod 8` of byte `n / 8`, afterwards `isIconSet(n)` is `e` and `isIconSet(m)` is
unchanged for every valid `m ≠ n`; (2) `getIconBitMask` is injective on the valid icons;
(3) for an icon out of range `setIcon` leaves bytes 0 and 1 and bits 0..6 of byte 2
unchanged, so `isIconSet` of every valid icon is unchanged; and in both cases the bytes sent are
`0x40` followed by the three bytes of the new `_iconState`. -/
theorem setIcon_round_trip (s : Vfd) (e : Bool) (t0 t1 t2 t3 : Nat) (rest : List Nat)
    (hw : waitLoop s._lastSendTime
      (if s._sendingText then DEFAULT_COMMAND_EXECUTION_TIME_IN_MICROSECONDS
        else s._lastCommandExecuteTimeInMicroseconds) s.clock =
      some (t0 :: t1 :: t2 :: t3 :: rest)) :
    (∀ n < 23, ∃ s1, setIcon s ((n : Nat) : Int) e = some s1 ∧
      getIconBitMask ((n : Nat) : Int) = some (1 <<< (n % 8), n / 8) ∧
      isIconSet s1 ((n : Nat) : Int) = some e ∧
      (∀ m < 23, m ≠ n → isIconSet s1 ((m : Nat) : Int) = isIconSet s ((m : Nat) : Int)) ∧
      sentBetween s s1 = [0x40, s1._iconState 0, s1._iconState 1, s1._iconState 2]) ∧
    (∀ n < 23, ∀ m < 23,
      getIconBitMask ((n : Nat) : Int) = getIconBitMask ((m : Nat) : Int) → n = m) ∧
    (∀ i : Int, ¬ (0 ≤ i ∧ i < 23) → ∃ s1, setIcon s i e = some s1 ∧
      s1._iconState 0 = s._iconState 0 ∧
      s1._iconState 1 = s._iconState 1 ∧
      (∀ c < 7, (s1._iconState 2).testBit c = (s._iconState 2).testBit c) ∧
      (∀ m < 23, isIconSet s1 ((m : Nat) : Int) = isIconSet s ((m : Nat) : Int)) ∧
      sentBetween s s1 = [0x40, s1._iconState 0, s1._iconState 1, s1._iconState 2]) := by
  refine ⟨?_, getIconBitMask_injective, ?_⟩
  · intro n hn
    have hmask := getIconBitMask_valid n hn
    have hbit : n % 8 < 8 := Nat.mod_lt _ (by decide)
    obtain ⟨s1, h1, hicon, hsent⟩ := sendIconState_sent
      { s with
          _iconState := fun i =>
            if i = n / 8 then
              (if e then (s._iconState (n / 8) ||| 2 ^ (n % 8)) % 256
                else (s._iconState (n / 8) &&& (65535 - 2 ^ (n % 8))) % 256)
            else s._iconState i }
      t0 t1 t2 t3 rest hw
    refine ⟨s1, by simp only [setIcon, hmask, h1], ?_, ?_, ?_, ?_⟩
    · rw [hmask, Nat.one_shiftLeft]
    · rw [isIconSet_valid s1 n hn, hicon]
      simp only [if_true, updated_testBit _ _ _ e hbit hbit]
    · intro m hm hne
      rw [isIconSet_valid s1 m hm, isIconSet_valid s m hm, hicon]
      by_cases hbyte : m / 8 = n / 8
      · have hmbit : m % 8 < 8 := Nat.mod_lt _ (by decide)
        have hnb : n % 8 ≠ m % 8 := by omega
        simp only [hbyte, if_true, updated_testBit _ _ _ e hbit hmbit, hnb, if_false]
      · simp only [hbyte, if_false]
    · rw [sentBetween, hsent, hicon]
      simp [COMMAND_SET_ICON_STATE]
  · intro i hi
    have hmask := getIconBitMask_invalid i hi
    have h7 : (0b10000000 : Nat) = 2 ^ 7 := by decide
    obtain ⟨s1, h1, hicon, hsent⟩ := sendIconState_sent
      { s with
          _iconState := fun k =>
            if k = 2 then
              (if e then (s._iconState 2 ||| 2 ^ 7) % 256
                else (s._iconState 2 &&& (65535 - 2 ^ 7)) % 256)
            else s._iconState k }
      t0 t1 t2 t3 rest hw
    have hbits : ∀ c < 7, (s1._iconState 2).testBit c = (s._iconState 2).testBit c := by
      intro c hc
      rw [hicon]
      have hne : (7 : Nat) ≠ c := by omega
      simp only [if_true, updated_testBit _ 7 c e (by decide) (by omega), hne, if_false]
    refine ⟨s1, by simp only [setIcon, hmask, h7, h1], ?_, ?_, hbits, ?_, ?_⟩
    · rw [hicon]
      simp
    · rw [hicon]
      simp
    · intro m hm
      rw [isIconSet_valid s1 m hm, isIconSet_valid s m hm]
      by_cases hbyte : m / 8 = 2
      · rw [hbyte]
        exact congrArg some (hbits (m % 8) (by omega))
      · rw [hicon]
        simp only [hbyte, if_false]
    · rw [sentBetween, hsent, hicon]
      simp [COMMAND_SET_ICON_STATE]

/-- C26, instance: on a fresh display `setIcon(ICON_SPEAKER = 14, true)` sets bit 6 of byte 1
and sends `[0x40, 0x00, 0x40, 0x00]`. -/
theorem setIcon_round_trip_witness :
    ∃ s1, setIcon (construct 2 3 [0, 1, 2, 3, 4]) 14 true = some s1 ∧
      isIconSet s1 14 = some true ∧
      sentBetween (construct 2 3 [0, 1, 2, 3, 4]) s1 =
        [0x40, s1._iconState 0, s1._iconState 1, s1._iconState 2] :=
  ((setIcon_round_trip (construct 2 3 [0, 1, 2, 3, 4]) true 1 2 3 4 [] (by decide)).1 14
      (by decide)).imp
    (fun _ h => ⟨h.1, h.2.2.1, h.2.2.2.2⟩)

end HpDecVfd
